import Mathlib

/-! USB camera video source (`code/r_vehicle/video_source_usb.cpp`).

A shallow embedding of the ring buffer, the Annex-B start-code scanner of the
capture thread and the controller operations, followed by the properties
established about them.

Conventions of the embedding:

* a C byte array is its index-to-byte map `Nat → Nat`; `memcpy` of the first
  `n` bytes is a pointwise overwrite of the indices below `n`;
* C `int` variables are `Int` and `%` is the truncated remainder `Int.tmod`;
  `u32` variables are `Nat`, reduced modulo `2^32` where the source can wrap;
* a pointer into `s_RingBuffer.buffers` is the index of the slot it points to;
* results of the operating system (clock, device probe, fork, thread
  creation, `waitpid`) are read from an explicit environment record;
  logging and sleeping have no effect on the modelled state.
-/

namespace VideoSourceUSB

/-! ## Constants of `video_source_usb.h` -/

/-- The C macro `USB_CAMERA_BUFFER_SIZE` (256 KiB). -/
def USB_CAMERA_BUFFER_SIZE : Int := 256 * 1024

/-- The C macro `USB_CAMERA_RING_BUFFER_COUNT`. -/
def USB_CAMERA_RING_BUFFER_COUNT : Int := 8

/-- The C macro `USB_CAMERA_MAX_NAL_SIZE` (128 KiB). -/
def USB_CAMERA_MAX_NAL_SIZE : Int := 128 * 1024

/-- The enumeration `usb_camera_state_t`. -/
inductive usb_camera_state_t where
  | USB_CAMERA_STATE_STOPPED
  | USB_CAMERA_STATE_STARTING
  | USB_CAMERA_STATE_RUNNING
  | USB_CAMERA_STATE_ERROR
  | USB_CAMERA_STATE_DEVICE_LOST
  deriving DecidableEq

open usb_camera_state_t

/-! ## Ring buffer -/

/-- The C call `memcpy(dst, src, n)` on byte arrays: the first `n` bytes of
`dst` are replaced by those of `src`, the others are kept. -/
def memcpy (dst src : Nat → Nat) (n : Int) : Nat → Nat :=
  fun i => if (i : Int) < n then src i else dst i

/-- The struct `usb_nal_buffer_t`: one slot of the ring. -/
structure usb_nal_buffer_t where
  data : Nat → Nat
  size : Int
  uTimestamp : Nat
  uNALType : Nat
  bIsStartNAL : Bool
  bIsEndNAL : Bool
  bValid : Bool

/-- The struct `usb_ring_buffer_t` (the mutex carries no data). -/
structure usb_ring_buffer_t where
  buffers : Nat → usb_nal_buffer_t
  iWriteIndex : Int
  iReadIndex : Int
  iCount : Int

/-- The function `_ring_buffer_init`, acting on whatever the static storage
held before: indices and count are zeroed, every slot gets size 0 and is
marked invalid; the data bytes are not touched. -/
def _ring_buffer_init (r : usb_ring_buffer_t) : usb_ring_buffer_t :=
  { buffers := fun i =>
      if (i : Int) < USB_CAMERA_RING_BUFFER_COUNT then
        { r.buffers i with size := 0, bValid := false }
      else r.buffers i
    iWriteIndex := 0
    iReadIndex := 0
    iCount := 0 }

/-- The function `_ring_buffer_write`: returns the C return value and the
ring after the call. -/
def _ring_buffer_write (r : usb_ring_buffer_t) (pData : Nat → Nat) (iSize : Int)
    (uNALType : Nat) (bIsStart bIsEnd : Bool) (uTimestamp : Nat) :
    Bool × usb_ring_buffer_t :=
  if iSize ≤ 0 ∨ iSize > USB_CAMERA_MAX_NAL_SIZE then (false, r)
  else
    -- Buffer full - overwrite oldest
    let r1 : usb_ring_buffer_t :=
      if r.iCount ≥ USB_CAMERA_RING_BUFFER_COUNT then
        { r with
          iReadIndex := (r.iReadIndex + 1).tmod USB_CAMERA_RING_BUFFER_COUNT
          iCount := r.iCount - 1 }
      else r
    let pBuf := r1.buffers r1.iWriteIndex.toNat
    let pBuf1 : usb_nal_buffer_t :=
      { data := memcpy pBuf.data pData iSize
        size := iSize
        uNALType := uNALType
        bIsStartNAL := bIsStart
        bIsEndNAL := bIsEnd
        uTimestamp := uTimestamp
        bValid := true }
    (true,
      { buffers := Function.update r1.buffers r1.iWriteIndex.toNat pBuf1
        iWriteIndex := (r1.iWriteIndex + 1).tmod USB_CAMERA_RING_BUFFER_COUNT
        iReadIndex := r1.iReadIndex
        iCount := r1.iCount + 1 })

/-- The function `_ring_buffer_read`: `none` is the NULL return, `some k` is
the pointer `&s_RingBuffer.buffers[k]`. The index `k` is also what the source
stores in `s_iLastReadBufferIndex`; that store is performed by the model of
the caller, where the variable lives. -/
def _ring_buffer_read (r : usb_ring_buffer_t) : Option Int × usb_ring_buffer_t :=
  if r.iCount ≤ 0 then (none, r)
  else
    (some r.iReadIndex,
      { r with
        iReadIndex := (r.iReadIndex + 1).tmod USB_CAMERA_RING_BUFFER_COUNT
        iCount := r.iCount - 1 })

/-- The function `_ring_buffer_clear`. -/
def _ring_buffer_clear (r : usb_ring_buffer_t) : usb_ring_buffer_t :=
  { buffers := fun i =>
      if (i : Int) < USB_CAMERA_RING_BUFFER_COUNT then
        { r.buffers i with bValid := false }
      else r.buffers i
    iWriteIndex := 0
    iReadIndex := 0
    iCount := 0 }

/-! ### What a reader sees through a slot pointer -/

/-- A NAL record as the specification describes it. -/
structure NalRecord where
  bytes : List Nat
  size : Int
  nal_type : Nat
  is_start_nal : Bool
  is_end_nal : Bool
  timestamp_ms : Nat
  deriving DecidableEq

/-- The first `n` bytes of a byte array. -/
def bytesOf (a : Nat → Nat) (n : Int) : List Nat :=
  (List.range n.toNat).map a

/-- The record held by a slot: its first `size` data bytes and its fields. -/
def slotRecord (s : usb_nal_buffer_t) : NalRecord :=
  { bytes := bytesOf s.data s.size
    size := s.size
    nal_type := s.uNALType
    is_start_nal := s.bIsStartNAL
    is_end_nal := s.bIsEndNAL
    timestamp_ms := s.uTimestamp }

/-- The record a caller of `_ring_buffer_read` sees through the returned
pointer at the moment the call returns. -/
def readRecord (res : Option Int × usb_ring_buffer_t) : Option NalRecord :=
  res.1.map fun k => slotRecord (res.2.buffers k.toNat)

/-- The buffered records, oldest first: the `iCount` slots from `iReadIndex`
on, wrapping at the capacity. -/
def ringQueue (r : usb_ring_buffer_t) : List NalRecord :=
  (List.range r.iCount.toNat).map fun j =>
    slotRecord (r.buffers ((r.iReadIndex.toNat + j) % 8))

/-- One call on the ring. -/
inductive RingOp where
  | write (pData : Nat → Nat) (iSize : Int) (uNALType : Nat)
      (bIsStart bIsEnd : Bool) (uTimestamp : Nat)
  | read

/-- What a call lets its caller observe. -/
inductive RingObs where
  | wrote (ok : Bool)
  | got (rec : Option NalRecord)
  deriving DecidableEq

/-- The record a write call hands over: the first `iSize` bytes of `pData`
and the call's arguments. -/
def writtenRecord (pData : Nat → Nat) (iSize : Int) (uNALType : Nat)
    (bIsStart bIsEnd : Bool) (uTimestamp : Nat) : NalRecord :=
  { bytes := bytesOf pData iSize
    size := iSize
    nal_type := uNALType
    is_start_nal := bIsStart
    is_end_nal := bIsEnd
    timestamp_ms := uTimestamp }

/-- One call on the ring: what the caller observes and the ring afterwards. -/
def ringStep (r : usb_ring_buffer_t) : RingOp → RingObs × usb_ring_buffer_t
  | .write pData iSize uNALType bIsStart bIsEnd uTimestamp =>
      let res := _ring_buffer_write r pData iSize uNALType bIsStart bIsEnd uTimestamp
      (.wrote res.1, res.2)
  | .read =>
      let res := _ring_buffer_read r
      (.got (readRecord res), res.2)

/-- A sequence of calls on the ring: the observations in call order and the
final ring. -/
def ringRun (r : usb_ring_buffer_t) : List RingOp → List RingObs × usb_ring_buffer_t
  | [] => ([], r)
  | op :: ops =>
      let s := ringStep r op
      let t := ringRun s.2 ops
      (s.1 :: t.1, t.2)

/-- The queue of the specification, writer side: a record of valid size is
appended, after the oldest record has been removed if the queue holds 8;
any other record is rejected. -/
def fifo_write (q : List NalRecord) (rec : NalRecord) : Bool × List NalRecord :=
  if 1 ≤ rec.size ∧ rec.size ≤ USB_CAMERA_MAX_NAL_SIZE then
    (true, (if q.length = 8 then q.tail else q) ++ [rec])
  else (false, q)

/-- The queue of the specification, reader side: none on an empty queue,
otherwise the oldest record, which is removed. -/
def fifo_read : List NalRecord → Option NalRecord × List NalRecord
  | [] => (none, [])
  | x :: rest => (some x, rest)

/-- One call on the queue of the specification. -/
def fifoStep (q : List NalRecord) : RingOp → RingObs × List NalRecord
  | .write pData iSize uNALType bIsStart bIsEnd uTimestamp =>
      let res := fifo_write q (writtenRecord pData iSize uNALType bIsStart bIsEnd uTimestamp)
      (.wrote res.1, res.2)
  | .read =>
      let res := fifo_read q
      (.got res.1, res.2)

/-- A sequence of calls on the queue of the specification. -/
def fifoRun (q : List NalRecord) : List RingOp → List RingObs × List NalRecord
  | [] => ([], q)
  | op :: ops =>
      let s := fifoStep q op
      let t := fifoRun s.2 ops
      (s.1 :: t.1, t.2)

/-- The ring invariant: indices and count in range, the write index `iCount`
slots after the read index, and every buffered slot marked valid. -/
structure RingWF (r : usb_ring_buffer_t) : Prop where
  read_lo : 0 ≤ r.iReadIndex
  read_hi : r.iReadIndex < 8
  count_lo : 0 ≤ r.iCount
  count_hi : r.iCount ≤ 8
  write_eq : r.iWriteIndex = (r.iReadIndex + r.iCount) % 8
  valid : ∀ j : Nat, (j : Int) < r.iCount →
    (r.buffers ((r.iReadIndex.toNat + j) % 8)).bValid = true

/-- The slot contents stored by a successful write. -/
def writtenSlot (old : usb_nal_buffer_t) (pData : Nat → Nat) (iSize : Int) (t : Nat)
    (s e : Bool) (ts : Nat) : usb_nal_buffer_t :=
  { data := memcpy old.data pData iSize, size := iSize, uNALType := t, bIsStartNAL := s,
    bIsEndNAL := e, uTimestamp := ts, bValid := true }

/-- The records of the successful reads among a list of observations. -/
def obtainedRecords : List RingObs → List NalRecord
  | [] => []
  | .got (some rec) :: obs => rec :: obtainedRecords obs
  | _ :: obs => obtainedRecords obs

/-- The records of the write calls of valid size, in call order. -/
def writtenRecords : List RingOp → List NalRecord
  | [] => []
  | .write pData iSize uNALType bIsStart bIsEnd uTimestamp :: ops =>
      if 1 ≤ iSize ∧ iSize ≤ USB_CAMERA_MAX_NAL_SIZE then
        writtenRecord pData iSize uNALType bIsStart bIsEnd uTimestamp :: writtenRecords ops
      else writtenRecords ops
  | .read :: ops => writtenRecords ops

/-- The arguments of one `_ring_buffer_write` call. -/
structure WriteCall where
  pData : Nat → Nat
  iSize : Int
  uNALType : Nat
  bIsStart : Bool
  bIsEnd : Bool
  uTimestamp : Nat

/-- The call as a ring operation. -/
def WriteCall.op (w : WriteCall) : RingOp :=
  .write w.pData w.iSize w.uNALType w.bIsStart w.bIsEnd w.uTimestamp

/-- The record the call hands over. -/
def WriteCall.record (w : WriteCall) : NalRecord :=
  writtenRecord w.pData w.iSize w.uNALType w.bIsStart w.bIsEnd w.uTimestamp

/-- The last `k` elements of a list. -/
def lastN {α : Type} (k : Nat) (l : List α) : List α :=
  l.drop (l.length - k)

/-- A ring whose storage is all zero (static storage before first use). -/
def zeroRing : usb_ring_buffer_t :=
  { buffers := fun _ =>
      { data := fun _ => 0, size := 0, uTimestamp := 0, uNALType := 0,
        bIsStartNAL := false, bIsEndNAL := false, bValid := false }
    iWriteIndex := 0
    iReadIndex := 0
    iCount := 0 }

/-- The test payload `P i`: the one-byte record holding `i`, stamped `i`. -/
def testWrite (i : Nat) : WriteCall :=
  { pData := fun _ => i, iSize := 1, uNALType := 1, bIsStart := true, bIsEnd := true,
    uTimestamp := i }

/-- A short mixed call sequence used to instantiate the refinement statement. -/
def sampleOps : List RingOp :=
  [(testWrite 0).op, RingOp.read, RingOp.write (fun _ => 9) 0 1 true true 5, RingOp.read,
   (testWrite 1).op, (testWrite 2).op, RingOp.read]

/-- The ten test writes `P0 .. P9`. -/
def testWrites10 : List WriteCall := (List.range 10).map testWrite

/-- The ring states that `_ring_buffer_init`, `_ring_buffer_write`,
`_ring_buffer_read` and `_ring_buffer_clear` can produce. -/
inductive RingReachable : usb_ring_buffer_t → Prop where
  | init (r : usb_ring_buffer_t) : RingReachable (_ring_buffer_init r)
  | write (r : usb_ring_buffer_t) (pData : Nat → Nat) (iSize : Int) (uNALType : Nat)
      (bIsStart bIsEnd : Bool) (uTimestamp : Nat) :
      RingReachable r →
        RingReachable (_ring_buffer_write r pData iSize uNALType bIsStart bIsEnd uTimestamp).2
  | read (r : usb_ring_buffer_t) : RingReachable r → RingReachable (_ring_buffer_read r).2
  | clear (r : usb_ring_buffer_t) : RingReachable r → RingReachable (_ring_buffer_clear r)

/-- A run of consecutive `_ring_buffer_write` calls with no read in between. -/
def writeAll (r : usb_ring_buffer_t) : List WriteCall → usb_ring_buffer_t
  | [] => r
  | w :: ws =>
      writeAll (_ring_buffer_write r w.pData w.iSize w.uNALType w.bIsStart w.bIsEnd
        w.uTimestamp).2 ws

/-- The ring after the eight test writes `P0 .. P7` on a freshly initialised ring. -/
def fullTestRing : usb_ring_buffer_t :=
  writeAll (_ring_buffer_init zeroRing) ((List.range 8).map testWrite)

/-- The ring after three test writes, used to instantiate the slot-lifetime statement. -/
def threeTestRing : usb_ring_buffer_t :=
  writeAll (_ring_buffer_init zeroRing) ((List.range 3).map testWrite)

/-! ## Controller: module-scope state and public functions -/

/-- The capability bit `V4L2_CAP_VIDEO_CAPTURE` of `linux/videodev2.h`. -/
def V4L2_CAP_VIDEO_CAPTURE : Nat := 0x00000001

/-- The module-scope variables of `video_source_usb.cpp`, under their source
names. The thread handle, the read scratch buffer and the `ParserH264` object
(a class defined outside this file, only initialised and reset here) carry no
modelled data. -/
structure ModuleState where
  s_bUSBCaptureThreadRunning : Bool
  s_bUSBCaptureThreadStop : Bool
  s_iFFMpegPid : Int
  s_iFFMpegPipeReadFd : Int
  s_RingBuffer : usb_ring_buffer_t
  s_USBCameraState : usb_camera_state_t
  s_uUSBStartTime : Nat
  s_uCurrentBitrate : Nat
  s_iCurrentKeyframeMs : Int
  s_uLastNALType : Nat
  s_bLastReadIsStartNAL : Bool
  s_bLastReadIsEndNAL : Bool
  s_bLastReadIsSingleNAL : Bool
  s_iLastReadBufferIndex : Int
  s_uDebugTimeLastUSBVideoInputCheck : Nat
  s_uDebugUSBInputBytes : Nat
  s_uDebugUSBInputReads : Nat
  s_uTimeLastHealthCheck : Nat
  s_iConsecutiveReadErrors : Int

/-- The module state given by the static initialisers (static storage is
zero-filled, so the ring starts as `zeroRing`). -/
def initialModule : ModuleState :=
  { s_bUSBCaptureThreadRunning := false
    s_bUSBCaptureThreadStop := false
    s_iFFMpegPid := -1
    s_iFFMpegPipeReadFd := -1
    s_RingBuffer := zeroRing
    s_USBCameraState := USB_CAMERA_STATE_STOPPED
    s_uUSBStartTime := 0
    s_uCurrentBitrate := 0
    s_iCurrentKeyframeMs := 0
    s_uLastNALType := 0
    s_bLastReadIsStartNAL := false
    s_bLastReadIsEndNAL := false
    s_bLastReadIsSingleNAL := false
    s_iLastReadBufferIndex := -1
    s_uDebugTimeLastUSBVideoInputCheck := 0
    s_uDebugUSBInputBytes := 0
    s_uDebugUSBInputReads := 0
    s_uTimeLastHealthCheck := 0
    s_iConsecutiveReadErrors := 0 }

/-- What the operating system answers during one call of a public function.
Each field is the result of the system call named in its comment. The model
follows the parent process: `forkResult = 0` (the child, which ends in
`execlp` or `_exit`) is outside it. -/
structure Env where
  /-- `open(szDevicePath, O_RDWR | O_NONBLOCK)` in the device check -/
  openResult : Int
  /-- `ioctl(fd, VIDIOC_QUERYCAP, &cap)` in the device check -/
  ioctlResult : Int
  /-- `cap.capabilities` as filled in by the ioctl -/
  capabilities : Nat
  /-- `pipe(pipefd)` in `_start_ffmpeg_process` -/
  pipeResult : Int
  /-- `pipefd[0]` as filled in by `pipe` -/
  pipeReadEnd : Int
  /-- `fork()` in `_start_ffmpeg_process` -/
  forkResult : Int
  /-- `pthread_create(...)` in `video_source_usb_start_program` -/
  pthreadCreateResult : Int
  /-- `get_current_timestamp_ms()` in `video_source_usb_start_program` -/
  startTimestamp : Nat
  /-- `get_current_timestamp_ms()` in `video_source_usb_periodic_health_checks` -/
  healthTimestamp : Nat
  /-- `waitpid(s_iFFMpegPid, &status, WNOHANG)` in the health check -/
  waitpidResult : Int

/-- The function `_video_source_usb_check_device_available` on a Linux build
(`__linux__` defined), for a non-NULL device path. -/
def _video_source_usb_check_device_available (env : Env) : Bool :=
  if env.openResult < 0 then false
  else if env.ioctlResult < 0 then false
  else if env.capabilities &&& V4L2_CAP_VIDEO_CAPTURE = 0 then false
  else true

/-- The function `_start_ffmpeg_process` as seen by the parent process, called
with a non-NULL `pPipeReadFd` whose target currently holds `pipeReadFd`:
returns the C return value and the value of `*pPipeReadFd` afterwards. -/
def _start_ffmpeg_process (env : Env) (pipeReadFd : Int) : Int × Int :=
  if env.pipeResult < 0 then (-1, pipeReadFd)
  else if env.forkResult < 0 then (-1, pipeReadFd)
  else (env.forkResult, env.pipeReadEnd)

/-- The function `_stop_ffmpeg_process`: signalling and reaping act on the
child process only; of the module state, the pid and the pipe descriptor are
reset. -/
def _stop_ffmpeg_process (m : ModuleState) : ModuleState :=
  let m1 := if m.s_iFFMpegPid > 0 then { m with s_iFFMpegPid := -1 } else m
  if m1.s_iFFMpegPipeReadFd ≥ 0 then { m1 with s_iFFMpegPipeReadFd := -1 } else m1

/-- What `video_source_usb_start_program` hands back: its return value, the
value behind `pInitialKFSet` afterwards (`none` for a NULL pointer) and the
module state. -/
structure StartResult where
  ret : Nat
  initialKFSet : Option Int
  state : ModuleState

/-- The function `video_source_usb_start_program`. `DEFAULT_VIDEO_BITRATE` is a
macro of `base/config.h`, taken as a parameter. `pInitialKFSet` is `none` for a
NULL pointer and `some v` for a pointer to an `int` holding `v`. -/
def video_source_usb_start_program (DEFAULT_VIDEO_BITRATE : Nat) (env : Env) (m : ModuleState)
    (uOverwriteInitialBitrate : Nat) (iOverwriteInitialKFMs : Int)
    (_iOverwriteInitialQPDelta : Int) (pInitialKFSet : Option Int) : StartResult :=
  if !_video_source_usb_check_device_available env then
    { ret := 0, initialKFSet := pInitialKFSet,
      state := { m with s_USBCameraState := USB_CAMERA_STATE_ERROR } }
  else
    -- Initialize parameters
    let bitrate := if uOverwriteInitialBitrate = 0 then DEFAULT_VIDEO_BITRATE
      else uOverwriteInitialBitrate
    let keyframe := if iOverwriteInitialKFMs ≤ 0 then 2000 else iOverwriteInitialKFMs
    let m1 : ModuleState :=
      { m with
        s_uCurrentBitrate := bitrate
        s_iCurrentKeyframeMs := keyframe
        s_RingBuffer := _ring_buffer_init m.s_RingBuffer
        s_USBCameraState := USB_CAMERA_STATE_STARTING }
    -- Start FFmpeg process
    let started := _start_ffmpeg_process env m1.s_iFFMpegPipeReadFd
    let m2 : ModuleState :=
      { m1 with s_iFFMpegPid := started.1, s_iFFMpegPipeReadFd := started.2 }
    if m2.s_iFFMpegPid < 0 then
      { ret := 0, initialKFSet := pInitialKFSet,
        state := { m2 with s_USBCameraState := USB_CAMERA_STATE_ERROR } }
    else
      -- Start capture thread
      let m3 : ModuleState :=
        { m2 with s_bUSBCaptureThreadStop := false, s_bUSBCaptureThreadRunning := true }
      if env.pthreadCreateResult ≠ 0 then
        let m4 := _stop_ffmpeg_process m3
        { ret := 0, initialKFSet := pInitialKFSet,
          state := { m4 with
            s_bUSBCaptureThreadRunning := false
            s_USBCameraState := USB_CAMERA_STATE_ERROR } }
      else
        let m4 : ModuleState :=
          { m3 with
            s_uUSBStartTime := env.startTimestamp
            s_USBCameraState := USB_CAMERA_STATE_RUNNING
            s_iConsecutiveReadErrors := 0 }
        { ret := m4.s_uCurrentBitrate
          initialKFSet := pInitialKFSet.map fun _ => m4.s_iCurrentKeyframeMs
          state := m4 }

/-- The function `video_source_usb_stop_program`. After the bounded wait, the
cancel and the join, the running flag is false whatever the thread did. -/
def video_source_usb_stop_program (m : ModuleState) : ModuleState :=
  let m1 : ModuleState := { m with s_bUSBCaptureThreadStop := true }
  let m2 : ModuleState :=
    if m1.s_bUSBCaptureThreadRunning then { m1 with s_bUSBCaptureThreadRunning := false }
    else m1
  let m3 := _stop_ffmpeg_process m2
  let m4 : ModuleState := { m3 with s_RingBuffer := _ring_buffer_clear m3.s_RingBuffer }
  { m4 with s_USBCameraState := USB_CAMERA_STATE_STOPPED, s_uUSBStartTime := 0 }

/-- The function `video_source_usb_get_program_start_time`. -/
def video_source_usb_get_program_start_time (m : ModuleState) : Nat :=
  m.s_uUSBStartTime

/-- What `video_source_usb_read` hands back: the returned pointer (`none` for
NULL, `some k` for `s_RingBuffer.buffers[k].data`), the values behind
`piReadSize` and `puOutTimeDataAvailable` afterwards (`none` for a NULL
pointer) and the module state. -/
structure ReadResult where
  ret : Option Int
  readSize : Option Int
  timeDataAvailable : Option Nat
  state : ModuleState

/-- The function `video_source_usb_read`. The out parameters are `none` for a
NULL pointer and `some v` for a pointer to a variable holding `v`. -/
def video_source_usb_read (m : ModuleState) (piReadSize : Option Int) (_bAsync : Bool)
    (puOutTimeDataAvailable : Option Nat) : ReadResult :=
  let size0 := piReadSize.map fun _ => (0 : Int)
  if m.s_USBCameraState ≠ USB_CAMERA_STATE_RUNNING then
    { ret := none, readSize := size0, timeDataAvailable := puOutTimeDataAvailable, state := m }
  else
    let res := _ring_buffer_read m.s_RingBuffer
    match res.1 with
    | none =>
        { ret := none, readSize := size0, timeDataAvailable := puOutTimeDataAvailable,
          state := { m with s_RingBuffer := res.2 } }
    | some k =>
        let m1 : ModuleState :=
          { m with s_RingBuffer := res.2, s_iLastReadBufferIndex := k }
        let pBuf := m1.s_RingBuffer.buffers k.toNat
        if !pBuf.bValid then
          { ret := none, readSize := size0, timeDataAvailable := puOutTimeDataAvailable,
            state := m1 }
        else
          -- Update last read info
          { ret := some k
            readSize := size0.map fun _ => pBuf.size
            timeDataAvailable := puOutTimeDataAvailable.map fun _ => pBuf.uTimestamp
            state :=
              { m1 with
                s_uLastNALType := pBuf.uNALType
                s_bLastReadIsStartNAL := pBuf.bIsStartNAL
                s_bLastReadIsEndNAL := pBuf.bIsEndNAL
                s_bLastReadIsSingleNAL := true } }

/-- The function `video_source_usb_last_read_is_single_nal`. -/
def video_source_usb_last_read_is_single_nal (m : ModuleState) : Bool :=
  m.s_bLastReadIsSingleNAL

/-- The function `video_source_usb_last_read_is_start_nal`. -/
def video_source_usb_last_read_is_start_nal (m : ModuleState) : Bool :=
  m.s_bLastReadIsStartNAL

/-- The function `video_source_usb_last_read_is_end_nal`. -/
def video_source_usb_last_read_is_end_nal (m : ModuleState) : Bool :=
  m.s_bLastReadIsEndNAL

/-- The function `video_source_usb_get_last_nal_type`. -/
def video_source_usb_get_last_nal_type (m : ModuleState) : Nat :=
  m.s_uLastNALType

/-- The function `video_source_usb_get_state`. -/
def video_source_usb_get_state (m : ModuleState) : usb_camera_state_t :=
  m.s_USBCameraState

/-- Addition of `u32` values. -/
def u32_add (a b : Nat) : Nat := (a + b) % 2 ^ 32

/-- The function `video_source_usb_periodic_health_checks`: its return value
and the module state afterwards. The statistics line is only logged. -/
def video_source_usb_periodic_health_checks (DEFAULT_VIDEO_BITRATE : Nat) (env : Env)
    (m : ModuleState) : Bool × ModuleState :=
  if m.s_USBCameraState = USB_CAMERA_STATE_STOPPED then (true, m)
  else
    let uNow := env.healthTimestamp
    -- Log statistics periodically
    let m1 : ModuleState :=
      if uNow > u32_add m.s_uDebugTimeLastUSBVideoInputCheck 5000 then
        { m with
          s_uDebugUSBInputBytes := 0
          s_uDebugUSBInputReads := 0
          s_uDebugTimeLastUSBVideoInputCheck := uNow }
      else m
    -- Check for errors
    if m1.s_USBCameraState = USB_CAMERA_STATE_ERROR then
      -- Attempt restart
      let m2 := video_source_usb_stop_program m1
      let res := video_source_usb_start_program DEFAULT_VIDEO_BITRATE env m2
        m2.s_uCurrentBitrate m2.s_iCurrentKeyframeMs 0 none
      (decide (res.ret > 0), res.state)
    -- Check if FFmpeg is still running
    else if m1.s_iFFMpegPid > 0 ∧ env.waitpidResult = m1.s_iFFMpegPid then
      (false, { m1 with s_USBCameraState := USB_CAMERA_STATE_ERROR })
    -- Check for device availability
    else
      let due := decide (uNow > u32_add m1.s_uTimeLastHealthCheck 10000)
      let m2 : ModuleState := if due then { m1 with s_uTimeLastHealthCheck := uNow } else m1
      if due && !_video_source_usb_check_device_available env then
        (false, { m2 with s_USBCameraState := USB_CAMERA_STATE_DEVICE_LOST })
      -- Check for excessive read errors
      else if m2.s_iConsecutiveReadErrors > 100 then
        (false, { m2 with s_USBCameraState := USB_CAMERA_STATE_ERROR })
      else (true, m2)

/-- The values the pid and the pipe descriptor can take: `-1` when unset, a
positive pid, a non-negative descriptor. -/
structure ModuleWF (m : ModuleState) : Prop where
  pid_ok : m.s_iFFMpegPid = -1 ∨ 0 < m.s_iFFMpegPid
  fd_ok : m.s_iFFMpegPipeReadFd = -1 ∨ 0 ≤ m.s_iFFMpegPipeReadFd

/-- What the operating system guarantees about a successful `pipe` and a
`fork` seen from the parent: a non-negative descriptor and a non-zero pid. -/
structure EnvOK (env : Env) : Prop where
  fork_parent : env.forkResult ≠ 0
  pipe_fd : 0 ≤ env.pipeResult → 0 ≤ env.pipeReadEnd

/-- A running module whose ring holds the three test records `P0 P1 P2`. -/
def runningTestModule : ModuleState :=
  { initialModule with
    s_RingBuffer := threeTestRing
    s_USBCameraState := USB_CAMERA_STATE_RUNNING }

/-- The device probe, the encoder spawn or the thread creation fails. -/
def StartFails (env : Env) : Prop :=
  _video_source_usb_check_device_available env = false ∨
    (_start_ffmpeg_process env (-1)).1 < 0 ∨ env.pthreadCreateResult ≠ 0

/-- An environment in which the device is present and every system call
succeeds (encoder pid 4242, pipe read end 7). -/
def goodEnv : Env :=
  { openResult := 3, ioctlResult := 0, capabilities := 0x04200001, pipeResult := 0,
    pipeReadEnd := 7, forkResult := 4242, pthreadCreateResult := 0, startTimestamp := 1000,
    healthTimestamp := 20000, waitpidResult := 0 }

/-- An environment in which the device node cannot be opened. -/
def noDeviceEnv : Env :=
  { goodEnv with openResult := -1 }

/-- A module as a successful start leaves it. -/
def startedTestModule : ModuleState :=
  (video_source_usb_start_program 4000000 goodEnv initialModule 0 0 0 none).state

/-- The module after a first start that found no device: state ERROR with the
bitrate and the keyframe period still at their initial 0. -/
def failedStartModule : ModuleState :=
  (video_source_usb_start_program 4000000 noDeviceEnv initialModule 0 0 0 none).state

/-- A module in state ERROR after a successful start (bitrate 4000000,
keyframe period 2000 ms). -/
def errorAfterRunModule : ModuleState :=
  { startedTestModule with s_USBCameraState := USB_CAMERA_STATE_ERROR }

/-- The module states the program can be in: the static initial state, then
any sequence of public calls (with operating-system answers that satisfy
`EnvOK`) and of the assignments the capture thread makes (ring writes, the
ERROR state, its counters, its running flag). -/
inductive ModuleReachable (DEFAULT_VIDEO_BITRATE : Nat) : ModuleState → Prop where
  | initial : ModuleReachable DEFAULT_VIDEO_BITRATE initialModule
  | start (env : Env) (m : ModuleState) (uOverwriteInitialBitrate : Nat)
      (iOverwriteInitialKFMs iOverwriteInitialQPDelta : Int) (pInitialKFSet : Option Int) :
      EnvOK env → ModuleReachable DEFAULT_VIDEO_BITRATE m →
        ModuleReachable DEFAULT_VIDEO_BITRATE
          (video_source_usb_start_program DEFAULT_VIDEO_BITRATE env m uOverwriteInitialBitrate
            iOverwriteInitialKFMs iOverwriteInitialQPDelta pInitialKFSet).state
  | stop (m : ModuleState) :
      ModuleReachable DEFAULT_VIDEO_BITRATE m →
        ModuleReachable DEFAULT_VIDEO_BITRATE (video_source_usb_stop_program m)
  | read (m : ModuleState) (piReadSize : Option Int) (bAsync : Bool)
      (puOutTimeDataAvailable : Option Nat) :
      ModuleReachable DEFAULT_VIDEO_BITRATE m →
        ModuleReachable DEFAULT_VIDEO_BITRATE
          (video_source_usb_read m piReadSize bAsync puOutTimeDataAvailable).state
  | health (env : Env) (m : ModuleState) :
      EnvOK env → ModuleReachable DEFAULT_VIDEO_BITRATE m →
        ModuleReachable DEFAULT_VIDEO_BITRATE
          (video_source_usb_periodic_health_checks DEFAULT_VIDEO_BITRATE env m).2
  | threadWrite (m : ModuleState) (w : WriteCall) :
      ModuleReachable DEFAULT_VIDEO_BITRATE m →
        ModuleReachable DEFAULT_VIDEO_BITRATE
          { m with
            s_RingBuffer := (_ring_buffer_write m.s_RingBuffer w.pData w.iSize w.uNALType
              w.bIsStart w.bIsEnd w.uTimestamp).2 }
  | threadError (m : ModuleState) :
      ModuleReachable DEFAULT_VIDEO_BITRATE m →
        ModuleReachable DEFAULT_VIDEO_BITRATE
          { m with s_USBCameraState := USB_CAMERA_STATE_ERROR }
  | threadCounters (m : ModuleState) (iErrors : Int) (uBytes uReads : Nat) :
      ModuleReachable DEFAULT_VIDEO_BITRATE m →
        ModuleReachable DEFAULT_VIDEO_BITRATE
          { m with
            s_iConsecutiveReadErrors := iErrors
            s_uDebugUSBInputBytes := uBytes
            s_uDebugUSBInputReads := uReads }
  | threadExit (m : ModuleState) :
      ModuleReachable DEFAULT_VIDEO_BITRATE m →
        ModuleReachable DEFAULT_VIDEO_BITRATE { m with s_bUSBCaptureThreadRunning := false }

/-! ## Capture thread: the Annex-B start-code scanner -/

/-- The local array `uNALStartCode` of the capture thread. -/
def uNALStartCode : Nat → Nat :=
  fun i => if i = 3 then 0x01 else 0x00

/-- The scanner locals of `_video_source_usb_capture_thread`. -/
structure ScanState where
  uAccumulatedBuffer : Nat → Nat
  iAccumulatedSize : Int
  bInNAL : Bool

/-- The scanner together with the `_ring_buffer_write` calls made so far, in
call order. -/
structure ScanRun where
  scan : ScanState
  writes : List WriteCall

/-- The locals as the thread starts: the array holds whatever the stack held
(`stack`), the size is 0 and no NAL is open. -/
def scanStart (stack : Nat → Nat) : ScanRun :=
  { scan := { uAccumulatedBuffer := stack, iAccumulatedSize := 0, bInNAL := false }
    writes := [] }

/-- The `_ring_buffer_write` call of the loop body ("Save previous NAL if
any"), made when a start code is found: nothing unless a NAL of more than 4
bytes is open. `clock k` is what `get_current_timestamp_ms()` returns at the
`k`-th write of the thread. -/
def saveOnStartCode (clock : Nat → Nat) (s : ScanRun) : List WriteCall :=
  if s.scan.bInNAL ∧ s.scan.iAccumulatedSize > 4 then
    let uNALType := s.scan.uAccumulatedBuffer 4 &&& 0x1F
    let bIsSlice := decide (uNALType = 1 ∨ uNALType = 5)
    s.writes ++
      [{ pData := s.scan.uAccumulatedBuffer, iSize := s.scan.iAccumulatedSize,
         uNALType := uNALType, bIsStart := bIsSlice, bIsEnd := bIsSlice,
         uTimestamp := clock s.writes.length }]
  else s.writes

/-- The start-code test at the head of the loop body, at index `i` of the
bytes just read (`chunk`, with `bytesRead = chunk.length`): the values of
`bFoundStartCode` and `iStartCodeLen` when the `if (bFoundStartCode)` is
reached, `(false, 0)` when the outer condition fails. -/
def startCodeAt (chunk : List Nat) (i : Nat) : Bool × Nat :=
  if i + 3 < chunk.length ∧ chunk.getD i 0 = 0x00 ∧ chunk.getD (i + 1) 0 = 0x00 then
    if chunk.getD (i + 2) 0 = 0x01 then (true, 3)
    else if i + 4 < chunk.length ∧ chunk.getD (i + 2) 0 = 0x00 ∧
        chunk.getD (i + 3) 0 = 0x01 then (true, 4)
    else (false, 0)
  else (false, 0)

/-- The statements "Start new NAL with 4-byte start code", after the previous
NAL has been saved. -/
def startNewNal (clock : Nat → Nat) (s : ScanRun) : ScanRun :=
  { scan :=
      { uAccumulatedBuffer := memcpy s.scan.uAccumulatedBuffer uNALStartCode 4
        iAccumulatedSize := 4
        bInNAL := true }
    writes := saveOnStartCode clock s }

/-- The statement "Accumulate data" for the byte `b`. -/
def accumulateByte (s : ScanRun) (b : Nat) : ScanRun :=
  if s.scan.bInNAL ∧ s.scan.iAccumulatedSize < USB_CAMERA_MAX_NAL_SIZE then
    { s with
      scan :=
        { s.scan with
          uAccumulatedBuffer :=
            Function.update s.scan.uAccumulatedBuffer s.scan.iAccumulatedSize.toNat b
          iAccumulatedSize := s.scan.iAccumulatedSize + 1 } }
  else s

/-- The parse loop `for (ssize_t i = 0; i < bytesRead; i++)` over the bytes
just read, entered at index `i`. On a start code the index moves by
`iStartCodeLen - 1` and then by the loop increment. Every iteration advances
`i`, so `chunk.length` iterations are enough; the final index is returned
with the state. -/
def scanLoop (clock : Nat → Nat) (chunk : List Nat) : Nat → Nat → ScanRun → Nat × ScanRun
  | 0, i, s => (i, s)
  | fuel + 1, i, s =>
    if i < chunk.length then
      if (startCodeAt chunk i).1 then
        scanLoop clock chunk fuel (i + (startCodeAt chunk i).2 - 1 + 1) (startNewNal clock s)
      else
        scanLoop clock chunk fuel (i + 1) (accumulateByte s (chunk.getD i 0))
    else (i, s)

/-- The parse loop run over one chunk of bytes read from the pipe. -/
def scanChunk (clock : Nat → Nat) (s : ScanRun) (chunk : List Nat) : ScanRun :=
  (scanLoop clock chunk chunk.length 0 s).2

/-- The code after the read loop ("Flush any remaining data"). -/
def scanFlush (clock : Nat → Nat) (s : ScanRun) : ScanRun :=
  if s.scan.bInNAL ∧ s.scan.iAccumulatedSize > 4 then
    let uNALType := s.scan.uAccumulatedBuffer 4 &&& 0x1F
    { s with
      writes := s.writes ++
        [{ pData := s.scan.uAccumulatedBuffer, iSize := s.scan.iAccumulatedSize,
           uNALType := uNALType, bIsStart := true, bIsEnd := true,
           uTimestamp := clock s.writes.length }] }
  else s

/-- The scanner side of `_video_source_usb_capture_thread`: the chunks read
from the pipe are parsed in order, then the remaining data is flushed. Loop
iterations that read nothing do not touch the scanner. The result is the list
of `_ring_buffer_write` calls of the thread. -/
def captureThreadWrites (clock : Nat → Nat) (stack : Nat → Nat) (chunks : List (List Nat)) :
    List WriteCall :=
  (scanFlush clock (chunks.foldl (scanChunk clock) (scanStart stack))).writes

/-- The 32-byte test stream of `test_nal_start_code_detection`. -/
def testStream : List Nat :=
  [0x00, 0x00, 0x00, 0x01, 0x67, 0x42, 0x00, 0x1e,
   0x00, 0x00, 0x00, 0x01, 0x68, 0xce, 0x38, 0x80,
   0x00, 0x00, 0x01, 0x65, 0x88, 0x84, 0x00, 0xff,
   0x00, 0x00, 0x00, 0x01, 0x41, 0x9a, 0x00, 0x00]

/-- A clock that always reads 0. -/
def zeroClock : Nat → Nat := fun _ => 0

/-- A stack area that holds zeros. -/
def zeroStack : Nat → Nat := fun _ => 0

/-- What makes a `_ring_buffer_write` call a well-formed NAL: between 5 and
`USB_CAMERA_MAX_NAL_SIZE` bytes, the canonical start code in front, and the
type taken from the low five bits of the byte after it. -/
def GoodNal (w : WriteCall) : Prop :=
  5 ≤ w.iSize ∧ w.iSize ≤ USB_CAMERA_MAX_NAL_SIZE ∧
    bytesOf w.pData 4 = [0x00, 0x00, 0x00, 0x01] ∧ w.uNALType = w.pData 4 &&& 0x1F

/-- The scanner invariant: an open NAL holds between 4 and
`USB_CAMERA_MAX_NAL_SIZE` bytes and starts with the canonical start code; all
writes made so far are well-formed NALs. -/
structure ScanInv (s : ScanRun) : Prop where
  open_ok : s.scan.bInNAL = true →
    4 ≤ s.scan.iAccumulatedSize ∧ s.scan.iAccumulatedSize ≤ USB_CAMERA_MAX_NAL_SIZE ∧
      s.scan.uAccumulatedBuffer 0 = 0 ∧ s.scan.uAccumulatedBuffer 1 = 0 ∧
      s.scan.uAccumulatedBuffer 2 = 0 ∧ s.scan.uAccumulatedBuffer 3 = 1
  writes_ok : ∀ w ∈ s.writes, GoodNal w

/-- The slice-flag rule of the specification for one write call. -/
def SliceFlagsOk (w : WriteCall) : Prop :=
  w.bIsStart = w.bIsEnd ∧ (w.bIsStart = true ↔ (w.uNALType = 1 ∨ w.uNALType = 5))

/-- One NAL unit of an Annex-B stream: a 3-byte or 4-byte start code and the
bytes that follow it (NAL header byte first). -/
structure AnnexBUnit where
  fourByteStartCode : Bool
  payload : List Nat

/-- The start code of the unit as it stands in the stream. -/
def AnnexBUnit.startCode (u : AnnexBUnit) : List Nat :=
  if u.fourByteStartCode then [0x00, 0x00, 0x00, 0x01] else [0x00, 0x00, 0x01]

/-- The byte stream made of the units, each behind its start code. -/
def annexBStream : List AnnexBUnit → List Nat
  | [] => []
  | u :: us => u.startCode ++ (u.payload ++ annexBStream us)

/-- A stream of start-code-delimited NALs: every payload is non-empty and
holds no `00 00 01`, and a payload that is followed by a 3-byte start code
does not end in `00` (the bytes `00 00 00 01` would read as a 4-byte start
code one byte earlier). -/
def StartCodeDelimited : List AnnexBUnit → Prop
  | [] => True
  | [u] => u.payload ≠ [] ∧ ¬ [0x00, 0x00, 0x01] <:+: u.payload
  | u :: v :: us =>
      u.payload ≠ [] ∧ ¬ [0x00, 0x00, 0x01] <:+: u.payload ∧
        (u.payload.getLast? ≠ some 0x00 ∨ v.fourByteStartCode = true) ∧
        StartCodeDelimited (v :: us)

/-- The bytes and the type of a NAL handed to the ring. -/
def WriteCall.nal (w : WriteCall) : List Nat × Nat :=
  (bytesOf w.pData w.iSize, w.uNALType)

/-- The NAL expected for a unit: the canonical start code, then the payload
(cut to what the accumulator holds), with the type of the header byte. -/
def AnnexBUnit.nal (u : AnnexBUnit) : List Nat × Nat :=
  ([0x00, 0x00, 0x00, 0x01] ++ u.payload.take (USB_CAMERA_MAX_NAL_SIZE.toNat - 4),
    u.payload.headD 0 &&& 0x1F)

/-- The four units of the test stream. -/
def testUnits : List AnnexBUnit :=
  [{ fourByteStartCode := true, payload := [0x67, 0x42, 0x00, 0x1e] },
   { fourByteStartCode := true, payload := [0x68, 0xce, 0x38, 0x80] },
   { fourByteStartCode := false, payload := [0x65, 0x88, 0x84, 0x00, 0xff] },
   { fourByteStartCode := true, payload := [0x41, 0x9a, 0x00, 0x00] }]

/-- The bytes held by the accumulator: its first `iAccumulatedSize` bytes. -/
def ScanRun.accumulated (s : ScanRun) : List Nat :=
  bytesOf s.scan.uAccumulatedBuffer s.scan.iAccumulatedSize

/-- An open NAL whose size is within the accumulator. -/
structure ScanOpen (s : ScanRun) : Prop where
  in_nal : s.scan.bInNAL = true
  size_lo : 0 ≤ s.scan.iAccumulatedSize
  size_hi : s.scan.iAccumulatedSize ≤ USB_CAMERA_MAX_NAL_SIZE

/-! ## Encoder command line -/

/-- The C macro `USB_CAMERA_DEFAULT_WIDTH`. -/
def USB_CAMERA_DEFAULT_WIDTH : Int := 1280

/-- The C macro `USB_CAMERA_DEFAULT_HEIGHT`. -/
def USB_CAMERA_DEFAULT_HEIGHT : Int := 720

/-- The C macro `USB_CAMERA_DEFAULT_FPS`. -/
def USB_CAMERA_DEFAULT_FPS : Int := 30

/-- The C macro `USB_CAMERA_DEFAULT_DEVICE`. -/
def USB_CAMERA_DEFAULT_DEVICE : String := "/dev/video0"

/-- The fields of `g_pCurrentModel->video_params` that `_start_ffmpeg_process`
reads (the model class is declared in `base/models.h`). -/
structure video_params_t where
  iVideoWidth : Int
  iVideoHeight : Int
  iVideoFPS : Int

/-- The value a 32-bit `int` holds after an arithmetic result `x`: `x` itself
when it fits, and `x` reduced modulo `2^32` into `[-2^31, 2^31)` otherwise
(two's-complement wrap-around, what the build does on overflow). -/
def int32 (x : Int) : Int :=
  (x + 2147483648) % 4294967296 - 2147483648

/-- The value of `iKeyframeFrames` in `_start_ffmpeg_process`, for `int`
operands: the product and the doubling are 32-bit `int` operations, the C
division truncates, and a quotient below 1 is replaced by two seconds of
frames. -/
def keyframeFrames (s_iCurrentKeyframeMs iFPS : Int) : Int :=
  let iKeyframeFrames := (int32 (s_iCurrentKeyframeMs * iFPS)).tdiv 1000
  if iKeyframeFrames < 1 then int32 (iFPS * 2) else iKeyframeFrames

/-- The value of `iFPS` in `_start_ffmpeg_process`; `none` is a NULL
`g_pCurrentModel`. -/
def encoderFPS (g_pCurrentModel : Option video_params_t) : Int :=
  match g_pCurrentModel with
  | none => USB_CAMERA_DEFAULT_FPS
  | some p => if p.iVideoFPS > 0 then p.iVideoFPS else USB_CAMERA_DEFAULT_FPS

/-- The value of `iWidth` in `_start_ffmpeg_process`. -/
def encoderWidth (g_pCurrentModel : Option video_params_t) : Int :=
  match g_pCurrentModel with
  | none => USB_CAMERA_DEFAULT_WIDTH
  | some p => if p.iVideoWidth > 0 then p.iVideoWidth else USB_CAMERA_DEFAULT_WIDTH

/-- The value of `iHeight` in `_start_ffmpeg_process`. -/
def encoderHeight (g_pCurrentModel : Option video_params_t) : Int :=
  match g_pCurrentModel with
  | none => USB_CAMERA_DEFAULT_HEIGHT
  | some p => if p.iVideoHeight > 0 then p.iVideoHeight else USB_CAMERA_DEFAULT_HEIGHT

/-- The child branch of `_start_ffmpeg_process`: the argument vector handed to
`execlp("ffmpeg", ...)`, program name first. The `snprintf` buffers (32, 16,
32 and 16 bytes) hold any 32-bit value in full, so the formatted strings are
the plain decimal renderings. -/
def ffmpegArgv (g_pCurrentModel : Option video_params_t) (s_uCurrentBitrate : Nat)
    (s_iCurrentKeyframeMs : Int) : List String :=
  let iWidth := encoderWidth g_pCurrentModel
  let iHeight := encoderHeight g_pCurrentModel
  let iFPS := encoderFPS g_pCurrentModel
  let szResolution := toString iWidth ++ "x" ++ toString iHeight
  let szFPS := toString iFPS
  let szBitrate := toString s_uCurrentBitrate
  let szKeyframe := toString (keyframeFrames s_iCurrentKeyframeMs iFPS)
  ["ffmpeg",
    "-f", "v4l2",
    "-input_format", "mjpeg",
    "-video_size", szResolution,
    "-framerate", szFPS,
    "-i", USB_CAMERA_DEFAULT_DEVICE,
    "-c:v", "libx264",
    "-preset", "ultrafast",
    "-tune", "zerolatency",
    "-b:v", szBitrate,
    "-maxrate", szBitrate,
    "-bufsize", szBitrate,
    "-g", szKeyframe,
    "-keyint_min", szKeyframe,
    "-sc_threshold", "0",
    "-profile:v", "baseline",
    "-level", "4.0",
    "-pix_fmt", "yuv420p",
    "-f", "h264",
    "-"]

/-- The keyframe length of the specification: `keyframe_ms * FPS / 1000`
rounded to the nearest integer (halves up), at least 1; `FPS * 2` for a
keyframe period that is not positive. -/
def specKeyframeFrames (keyframe_ms fps : Int) : Int :=
  if keyframe_ms ≤ 0 then fps * 2
  else max 1 ((keyframe_ms * fps + 500) / 1000)

/-- The encoder arguments as the specification documents them, for the
rendered width, height, frame rate, device, bitrate and keyframe length. -/
def documentedArguments (w h fps device br kf : String) : List String :=
  ["-f", "v4l2", "-input_format", "mjpeg", "-video_size", w ++ "x" ++ h, "-framerate", fps,
    "-i", device, "-c:v", "libx264", "-preset", "ultrafast", "-tune", "zerolatency",
    "-b:v", br, "-maxrate", br, "-bufsize", br, "-g", kf, "-keyint_min", kf,
    "-sc_threshold", "0", "-profile:v", "baseline", "-level", "4.0", "-pix_fmt", "yuv420p",
    "-f", "h264", "-"]

/-! ## Clearing the input buffers, and the capture thread beside the controller -/

/-- The function `video_source_usb_clear_input_buffers`. Its second statement,
`s_ParserH264USB.reset()`, acts on the `ParserH264` object, which holds none of
the modelled variables. -/
def video_source_usb_clear_input_buffers (m : ModuleState) : ModuleState :=
  { m with s_RingBuffer := _ring_buffer_clear m.s_RingBuffer }

/-- The module variables together with the scanner locals of the running
capture thread (and the writes the thread has made so far). -/
structure CaptureSystem where
  module : ModuleState
  thread : ScanRun

/-- One iteration of the read loop of `_video_source_usb_capture_thread` that
reads the bytes `chunk` from the pipe: the error counter is reset, the
statistics are updated, and the parse loop runs, its `_ring_buffer_write`
calls acting on `s_RingBuffer`. -/
def captureThreadReads (clock : Nat → Nat) (sys : CaptureSystem) (chunk : List Nat) :
    CaptureSystem :=
  let t := scanChunk clock sys.thread chunk
  { module :=
      { sys.module with
        s_iConsecutiveReadErrors := 0
        s_uDebugUSBInputBytes := u32_add sys.module.s_uDebugUSBInputBytes chunk.length
        s_uDebugUSBInputReads := u32_add sys.module.s_uDebugUSBInputReads 1
        s_RingBuffer :=
          writeAll sys.module.s_RingBuffer (t.writes.drop sys.thread.writes.length) }
    thread := t }

/-- A call of `video_source_usb_clear_input_buffers` by the controller while
the capture thread is between two reads: the thread's locals are out of its
reach. -/
def controllerClearsInputBuffers (sys : CaptureSystem) : CaptureSystem :=
  { sys with module := video_source_usb_clear_input_buffers sys.module }

/-- A running module beside a capture thread that has just started. -/
def startedTestSystem : CaptureSystem :=
  { module := startedTestModule, thread := scanStart zeroStack }

/-- The test system after the thread has read `00 00 00 01 65 AA`, the
controller has cleared the input buffers, and the thread has read
`BB 00 00 01 41 9A`. -/
def clearedMidNalSystem : CaptureSystem :=
  captureThreadReads zeroClock
    (controllerClearsInputBuffers
      (captureThreadReads zeroClock startedTestSystem [0x00, 0x00, 0x00, 0x01, 0x65, 0xAA]))
    [0xBB, 0x00, 0x00, 0x01, 0x41, 0x9A]

/-- A health check that finds nothing wrong: the encoder child is not reaped
as exited, the consecutive-read-error counter is at most 100, and the device
probe is not yet due or succeeds. -/
def HealthQuiet (env : Env) (m : ModuleState) : Prop :=
  ¬ (m.s_iFFMpegPid > 0 ∧ env.waitpidResult = m.s_iFFMpegPid) ∧
    m.s_iConsecutiveReadErrors ≤ 100 ∧
    (¬ env.healthTimestamp > u32_add m.s_uTimeLastHealthCheck 10000 ∨
      _video_source_usb_check_device_available env = true)

/-- A sequence of health checks, one per environment: the return values in
call order and the final module state. -/
def healthRun (DEFAULT_VIDEO_BITRATE : Nat) (m : ModuleState) :
    List Env → List Bool × ModuleState
  | [] => ([], m)
  | env :: envs =>
      let r := video_source_usb_periodic_health_checks DEFAULT_VIDEO_BITRATE env m
      let t := healthRun DEFAULT_VIDEO_BITRATE r.2 envs
      (r.1 :: t.1, t.2)

/-- Every health check of the sequence finds nothing wrong in the state it
is called in. -/
def QuietRun (DEFAULT_VIDEO_BITRATE : Nat) (m : ModuleState) : List Env → Prop
  | [] => True
  | env :: envs =>
      HealthQuiet env m ∧
        QuietRun DEFAULT_VIDEO_BITRATE
          (video_source_usb_periodic_health_checks DEFAULT_VIDEO_BITRATE env m).2 envs

/-- A module that ran and then lost its device. -/
def deviceLostModule : ModuleState :=
  { startedTestModule with s_USBCameraState := USB_CAMERA_STATE_DEVICE_LOST }

/-! ## Accumulator bounds -/

/-- The accumulator stays inside the array `uAccumulatedBuffer` of
`USB_CAMERA_MAX_NAL_SIZE` bytes: the size is between 0 and the array size, and
what lies behind the array (`stack`, the memory as it was at thread start) has
not been written. -/
def AccInBounds (stack : Nat → Nat) (s : ScanRun) : Prop :=
  0 ≤ s.scan.iAccumulatedSize ∧ s.scan.iAccumulatedSize ≤ USB_CAMERA_MAX_NAL_SIZE ∧
    ∀ j : Nat, USB_CAMERA_MAX_NAL_SIZE.toNat ≤ j → s.scan.uAccumulatedBuffer j = stack j

/-- What one iteration of the parse loop does with the index it visits: it
finds a start code there (`bFoundStartCode`, the `continue` branch), or it
hands the byte at the index to "Accumulate data". -/
inductive ScanEvent where
  | startCode
  | byte (b : Nat)
  deriving DecidableEq

/-- The control flow of the parse loop `for (ssize_t i = 0; i < bytesRead; i++)`
entered at index `i`: for every index the loop visits, in order, what it does
there. The indices and the tests are those of `scanLoop`; the accumulator plays
no part in them. -/
def loopEvents (chunk : List Nat) : Nat → Nat → List ScanEvent
  | 0, _ => []
  | fuel + 1, i =>
    if i < chunk.length then
      if (startCodeAt chunk i).1 then
        ScanEvent.startCode :: loopEvents chunk fuel (i + (startCodeAt chunk i).2 - 1 + 1)
      else
        ScanEvent.byte (chunk.getD i 0) :: loopEvents chunk fuel (i + 1)
    else []

/-- The control flow of the parse loop over one chunk read from the pipe. -/
def chunkEvents (chunk : List Nat) : List ScanEvent :=
  loopEvents chunk chunk.length 0

/-- The control flow of the capture thread over the chunks it reads, in read
order. -/
def streamEvents : List (List Nat) → List ScanEvent
  | [] => []
  | chunk :: chunks => chunkEvents chunk ++ streamEvents chunks

/-- The body of the loop for one visited index: the start-code branch or the
accumulate statement. -/
def applyEvent (clock : Nat → Nat) (s : ScanRun) : ScanEvent → ScanRun
  | ScanEvent.startCode => startNewNal clock s
  | ScanEvent.byte b => accumulateByte s b

/-- The bytes of a NAL handed to `_ring_buffer_write`. -/
def WriteCall.bytes (w : WriteCall) : List Nat :=
  bytesOf w.pData w.iSize

/-- Two reads that together hold a NAL of 140000 payload bytes `AA` (more than
the accumulator takes), split in the middle of the payload, followed by the
NAL `41 9A`. -/
def oversizeChunks : List (List Nat) :=
  [[0x00, 0x00, 0x00, 0x01] ++ List.replicate 70000 0xAA,
   List.replicate 70000 0xAA ++ [0x00, 0x00, 0x00, 0x01, 0x41, 0x9A]]

/-! ## Start codes across a chunk boundary -/

/-- Two consecutive chunks `a ++ pre` and `post ++ b` with a start code
`pre ++ post` that begins in the first and ends in the second. -/
def StraddlingStartCode (pre post : List Nat) : Prop :=
  pre ≠ [] ∧ post ≠ [] ∧
    (pre ++ post = [0x00, 0x00, 0x01] ∨ pre ++ post = [0x00, 0x00, 0x00, 0x01])

/-- The one split that the second chunk still sees as a start code: a 4-byte
start code with only its first byte in the first chunk, followed by at least
one more byte (`00 | 00 00 01 x`). -/
def TailSeenAsStartCode (pre post b : List Nat) : Prop :=
  pre = [0x00] ∧ post = [0x00, 0x00, 0x01] ∧ b ≠ []

/-! # Properties -/

theorem tmod8 (a : Int) (h : 0 ≤ a) : Int.tmod a 8 = a % 8 :=
  Int.tmod_eq_emod h (by decide)

theorem bytesOf_memcpy (d p : Nat → Nat) (n : Int) :
    bytesOf (memcpy d p n) n = bytesOf p n := by
  unfold bytesOf memcpy
  apply List.map_congr_left
  intro i hi
  have : i < n.toNat := List.mem_range.mp hi
  have : (i : Int) < n := by omega
  simp [this]

theorem RingWF_init (r : usb_ring_buffer_t) : RingWF (_ring_buffer_init r) := by
  constructor <;> simp [_ring_buffer_init]

theorem RingWF_clear (r : usb_ring_buffer_t) : RingWF (_ring_buffer_clear r) := by
  constructor <;> simp [_ring_buffer_clear]

theorem ringQueue_init (r : usb_ring_buffer_t) : ringQueue (_ring_buffer_init r) = [] := by
  simp [ringQueue, _ring_buffer_init]

theorem ringQueue_clear (r : usb_ring_buffer_t) : ringQueue (_ring_buffer_clear r) = [] := by
  simp [ringQueue, _ring_buffer_clear]

theorem ringQueue_length (r : usb_ring_buffer_t) : (ringQueue r).length = r.iCount.toNat := by
  simp [ringQueue]

theorem write_invalid (r : usb_ring_buffer_t) (pData : Nat → Nat) (iSize : Int) (t : Nat)
    (s e : Bool) (ts : Nat) (h : iSize ≤ 0 ∨ iSize > USB_CAMERA_MAX_NAL_SIZE) :
    _ring_buffer_write r pData iSize t s e ts = (false, r) := by
  simp [_ring_buffer_write, h]

theorem write_valid_eq (r : usb_ring_buffer_t) (pData : Nat → Nat) (iSize : Int) (t : Nat)
    (s e : Bool) (ts : Nat) (h1 : 1 ≤ iSize) (h2 : iSize ≤ USB_CAMERA_MAX_NAL_SIZE) :
    (_ring_buffer_write r pData iSize t s e ts).1 = true := by
  have : ¬ (iSize ≤ 0 ∨ iSize > USB_CAMERA_MAX_NAL_SIZE) := by omega
  simp [_ring_buffer_write, this]

theorem write_full_eq (r : usb_ring_buffer_t) (pData : Nat → Nat) (iSize : Int) (t : Nat)
    (s e : Bool) (ts : Nat) (h1 : 1 ≤ iSize) (h2 : iSize ≤ USB_CAMERA_MAX_NAL_SIZE)
    (hc : r.iCount ≥ 8) :
    _ring_buffer_write r pData iSize t s e ts =
      (true,
        { buffers := Function.update r.buffers r.iWriteIndex.toNat
            (writtenSlot (r.buffers r.iWriteIndex.toNat) pData iSize t s e ts)
          iWriteIndex := (r.iWriteIndex + 1).tmod 8
          iReadIndex := (r.iReadIndex + 1).tmod 8
          iCount := r.iCount - 1 + 1 }) := by
  have hsz : ¬ (iSize ≤ 0 ∨ iSize > USB_CAMERA_MAX_NAL_SIZE) := by omega
  unfold _ring_buffer_write
  rw [if_neg hsz]
  simp only [USB_CAMERA_RING_BUFFER_COUNT]
  rw [if_pos hc]
  rfl

theorem write_room_eq (r : usb_ring_buffer_t) (pData : Nat → Nat) (iSize : Int) (t : Nat)
    (s e : Bool) (ts : Nat) (h1 : 1 ≤ iSize) (h2 : iSize ≤ USB_CAMERA_MAX_NAL_SIZE)
    (hc : ¬ r.iCount ≥ 8) :
    _ring_buffer_write r pData iSize t s e ts =
      (true,
        { buffers := Function.update r.buffers r.iWriteIndex.toNat
            (writtenSlot (r.buffers r.iWriteIndex.toNat) pData iSize t s e ts)
          iWriteIndex := (r.iWriteIndex + 1).tmod 8
          iReadIndex := r.iReadIndex
          iCount := r.iCount + 1 }) := by
  have hsz : ¬ (iSize ≤ 0 ∨ iSize > USB_CAMERA_MAX_NAL_SIZE) := by omega
  unfold _ring_buffer_write
  rw [if_neg hsz]
  simp only [USB_CAMERA_RING_BUFFER_COUNT]
  rw [if_neg hc]
  rfl

theorem slotRecord_writtenSlot (old : usb_nal_buffer_t) (pData : Nat → Nat) (iSize : Int)
    (t : Nat) (s e : Bool) (ts : Nat) :
    slotRecord (writtenSlot old pData iSize t s e ts) = writtenRecord pData iSize t s e ts := by
  simp [slotRecord, writtenSlot, writtenRecord, bytesOf_memcpy]

theorem ringQueue_write (r : usb_ring_buffer_t) (hr : RingWF r) (pData : Nat → Nat) (iSize : Int)
    (t : Nat) (s e : Bool) (ts : Nat) (h1 : 1 ≤ iSize) (h2 : iSize ≤ USB_CAMERA_MAX_NAL_SIZE) :
    ringQueue (_ring_buffer_write r pData iSize t s e ts).2 =
      (if (ringQueue r).length = 8 then (ringQueue r).tail else ringQueue r)
        ++ [writtenRecord pData iSize t s e ts] := by
  obtain ⟨rl, rh, cl, ch, we, -⟩ := hr
  by_cases hc : r.iCount ≥ 8
  · rw [write_full_eq r pData iSize t s e ts h1 h2 hc]
    have hc8 : r.iCount = 8 := by omega
    have hlen : (ringQueue r).length = 8 := by rw [ringQueue_length, hc8]; rfl
    rw [if_pos hlen]
    have ht : (r.iReadIndex + 1).tmod 8 = (r.iReadIndex + 1) % 8 := tmod8 _ (by omega)
    have e1 : (r.iCount - 1 + 1 : Int).toNat = 7 + 1 := by rw [hc8]; decide
    have e2 : r.iCount.toNat = 7 + 1 := by rw [hc8]; decide
    unfold ringQueue
    simp only []
    rw [ht, e1, e2]
    conv_lhs => rw [List.range_succ, List.map_append]
    conv_rhs => rw [List.range_succ_eq_map 7, List.map_cons, List.tail_cons, List.map_map]
    congr 1
    · apply List.map_congr_left
      intro j hj
      have hj7 : j < 7 := List.mem_range.mp hj
      have hne : (((r.iReadIndex + 1) % 8).toNat + j) % 8 ≠ r.iWriteIndex.toNat := by omega
      have heq : (((r.iReadIndex + 1) % 8).toNat + j) % 8 = (r.iReadIndex.toNat + (j + 1)) % 8 := by
        omega
      simp only [Function.comp_apply, Nat.succ_eq_add_one]
      rw [Function.update_noteq hne, heq]
    · have heq : (((r.iReadIndex + 1) % 8).toNat + 7) % 8 = r.iWriteIndex.toNat := by omega
      simp only [List.map_cons, List.map_nil]
      rw [heq, Function.update_same, slotRecord_writtenSlot]
  · rw [write_room_eq r pData iSize t s e ts h1 h2 hc]
    have hlen : ¬ (ringQueue r).length = 8 := by rw [ringQueue_length]; omega
    rw [if_neg hlen]
    unfold ringQueue
    have e1 : (r.iCount + 1).toNat = r.iCount.toNat + 1 := by omega
    simp only [e1]
    rw [List.range_succ, List.map_append]
    congr 1
    · apply List.map_congr_left
      intro j hj
      have hjc : j < r.iCount.toNat := List.mem_range.mp hj
      have hne : (r.iReadIndex.toNat + j) % 8 ≠ r.iWriteIndex.toNat := by omega
      rw [Function.update_noteq hne]
    · have heq : (r.iReadIndex.toNat + r.iCount.toNat) % 8 = r.iWriteIndex.toNat := by omega
      simp only [List.map_cons, List.map_nil]
      rw [heq, Function.update_same, slotRecord_writtenSlot]

theorem RingWF_write (r : usb_ring_buffer_t) (hr : RingWF r) (pData : Nat → Nat) (iSize : Int)
    (t : Nat) (s e : Bool) (ts : Nat) :
    RingWF (_ring_buffer_write r pData iSize t s e ts).2 := by
  by_cases hsz : iSize ≤ 0 ∨ iSize > USB_CAMERA_MAX_NAL_SIZE
  · rw [write_invalid r pData iSize t s e ts hsz]; exact hr
  have h1 : 1 ≤ iSize := by omega
  have h2 : iSize ≤ USB_CAMERA_MAX_NAL_SIZE := by omega
  obtain ⟨rl, rh, cl, ch, we, hv⟩ := hr
  have hw : (r.iWriteIndex + 1).tmod 8 = (r.iWriteIndex + 1) % 8 := tmod8 _ (by omega)
  by_cases hc : r.iCount ≥ 8
  · rw [write_full_eq r pData iSize t s e ts h1 h2 hc]
    have ht : (r.iReadIndex + 1).tmod 8 = (r.iReadIndex + 1) % 8 := tmod8 _ (by omega)
    refine ⟨?_, ?_, ?_, ?_, ?_, ?_⟩ <;> simp only []
    · omega
    · omega
    · omega
    · omega
    · omega
    · intro j hj
      by_cases hidx : (((r.iReadIndex + 1).tmod 8).toNat + j) % 8 = r.iWriteIndex.toNat
      · rw [hidx, Function.update_same]; rfl
      · rw [Function.update_noteq hidx]
        have heq : (((r.iReadIndex + 1).tmod 8).toNat + j) % 8
            = (r.iReadIndex.toNat + (j + 1)) % 8 := by omega
        rw [heq]
        apply hv
        have : j + 1 ≠ 8 := by
          intro h8
          apply hidx
          omega
        omega
  · rw [write_room_eq r pData iSize t s e ts h1 h2 hc]
    refine ⟨?_, ?_, ?_, ?_, ?_, ?_⟩ <;> simp only []
    · omega
    · omega
    · omega
    · omega
    · omega
    · intro j hj
      by_cases hidx : (r.iReadIndex.toNat + j) % 8 = r.iWriteIndex.toNat
      · rw [hidx, Function.update_same]; rfl
      · rw [Function.update_noteq hidx]
        apply hv
        have : (j : Int) ≠ r.iCount := by
          intro h8
          apply hidx
          omega
        omega

theorem read_empty_eq (r : usb_ring_buffer_t) (hc : r.iCount ≤ 0) :
    _ring_buffer_read r = (none, r) := by
  unfold _ring_buffer_read
  rw [if_pos hc]

theorem read_some_eq (r : usb_ring_buffer_t) (hc : ¬ r.iCount ≤ 0) :
    _ring_buffer_read r =
      (some r.iReadIndex,
        { r with
          iReadIndex := (r.iReadIndex + 1).tmod 8
          iCount := r.iCount - 1 }) := by
  unfold _ring_buffer_read
  rw [if_neg hc]
  rfl

theorem RingWF_read (r : usb_ring_buffer_t) (hr : RingWF r) :
    RingWF (_ring_buffer_read r).2 := by
  by_cases hc : r.iCount ≤ 0
  · rw [read_empty_eq r hc]; exact hr
  rw [read_some_eq r hc]
  obtain ⟨rl, rh, cl, ch, we, hv⟩ := hr
  have ht : (r.iReadIndex + 1).tmod 8 = (r.iReadIndex + 1) % 8 := tmod8 _ (by omega)
  refine ⟨?_, ?_, ?_, ?_, ?_, ?_⟩ <;> simp only []
  · omega
  · omega
  · omega
  · omega
  · omega
  · intro j hj
    have heq : (((r.iReadIndex + 1).tmod 8).toNat + j) % 8
        = (r.iReadIndex.toNat + (j + 1)) % 8 := by omega
    rw [heq]
    apply hv
    omega

theorem ringQueue_read (r : usb_ring_buffer_t) (hr : RingWF r) :
    readRecord (_ring_buffer_read r) = (ringQueue r).head? ∧
      ringQueue (_ring_buffer_read r).2 = (ringQueue r).tail := by
  obtain ⟨rl, rh, cl, ch, we, -⟩ := hr
  by_cases hc : r.iCount ≤ 0
  · rw [read_empty_eq r hc]
    have h0 : r.iCount.toNat = 0 := by omega
    simp [readRecord, ringQueue, h0]
  rw [read_some_eq r hc]
  have ht : (r.iReadIndex + 1).tmod 8 = (r.iReadIndex + 1) % 8 := tmod8 _ (by omega)
  obtain ⟨n, hn⟩ : ∃ n : Nat, r.iCount.toNat = n + 1 := ⟨r.iCount.toNat - 1, by omega⟩
  have hn1 : (r.iCount - 1).toNat = n := by omega
  unfold readRecord ringQueue
  simp only [Option.map_some']
  rw [hn, hn1, List.range_succ_eq_map, List.map_cons, List.head?_cons, List.tail_cons,
    List.map_map]
  constructor
  · have h0 : (r.iReadIndex.toNat + 0) % 8 = r.iReadIndex.toNat := by omega
    rw [h0]
  · apply List.map_congr_left
    intro j _
    have heq : (((r.iReadIndex + 1).tmod 8).toNat + j) % 8
        = (r.iReadIndex.toNat + (j + 1)) % 8 := by omega
    simp only [Function.comp_apply, Nat.succ_eq_add_one]
    rw [heq]

theorem fifo_read_eq (q : List NalRecord) : fifo_read q = (q.head?, q.tail) := by
  cases q <;> rfl

theorem ringStep_refines (r : usb_ring_buffer_t) (hr : RingWF r) (op : RingOp) :
    (ringStep r op).1 = (fifoStep (ringQueue r) op).1 ∧
      ringQueue (ringStep r op).2 = (fifoStep (ringQueue r) op).2 ∧
      RingWF (ringStep r op).2 := by
  cases op with
  | write pData iSize t s e ts =>
    refine ⟨?_, ?_, RingWF_write r hr pData iSize t s e ts⟩
    · by_cases hsz : iSize ≤ 0 ∨ iSize > USB_CAMERA_MAX_NAL_SIZE
      · have hq : ¬ (1 ≤ iSize ∧ iSize ≤ USB_CAMERA_MAX_NAL_SIZE) := by
          omega
        simp [ringStep, fifoStep, fifo_write, writtenRecord, write_invalid r pData iSize t s e ts hsz, hq]
      · have h1 : 1 ≤ iSize := by omega
        have h2 : iSize ≤ USB_CAMERA_MAX_NAL_SIZE := by omega
        have hq : 1 ≤ iSize ∧ iSize ≤ USB_CAMERA_MAX_NAL_SIZE := by
          omega
        simp [ringStep, fifoStep, fifo_write, writtenRecord, write_valid_eq r pData iSize t s e ts h1 h2, hq]
    · by_cases hsz : iSize ≤ 0 ∨ iSize > USB_CAMERA_MAX_NAL_SIZE
      · have hq : ¬ (1 ≤ iSize ∧ iSize ≤ USB_CAMERA_MAX_NAL_SIZE) := by
          omega
        simp [ringStep, fifoStep, fifo_write, writtenRecord, write_invalid r pData iSize t s e ts hsz, hq]
      · have h1 : 1 ≤ iSize := by omega
        have h2 : iSize ≤ USB_CAMERA_MAX_NAL_SIZE := by omega
        have hq : 1 ≤ iSize ∧ iSize ≤ USB_CAMERA_MAX_NAL_SIZE := by
          omega
        have := ringQueue_write r hr pData iSize t s e ts h1 h2
        simp only [ringStep, fifoStep, fifo_write]
        rw [this]
        have hq2 : 1 ≤ (writtenRecord pData iSize t s e ts).size ∧
            (writtenRecord pData iSize t s e ts).size ≤ USB_CAMERA_MAX_NAL_SIZE := hq
        rw [if_pos hq2]
  | read =>
    obtain ⟨h1, h2⟩ := ringQueue_read r hr
    refine ⟨?_, ?_, RingWF_read r hr⟩
    · simp only [ringStep, fifoStep, fifo_read_eq, h1]
    · simp only [ringStep, fifoStep, fifo_read_eq, h2]

theorem ringRun_refines (ops : List RingOp) :
    ∀ r : usb_ring_buffer_t, RingWF r →
      (ringRun r ops).1 = (fifoRun (ringQueue r) ops).1 ∧
        ringQueue (ringRun r ops).2 = (fifoRun (ringQueue r) ops).2 ∧
        RingWF (ringRun r ops).2 := by
  induction ops with
  | nil => intro r hr; exact ⟨rfl, rfl, hr⟩
  | cons op ops ih =>
    intro r hr
    obtain ⟨h1, h2, h3⟩ := ringStep_refines r hr op
    obtain ⟨i1, i2, i3⟩ := ih (ringStep r op).2 h3
    simp only [ringRun, fifoRun]
    rw [h2] at i1 i2
    exact ⟨by rw [h1, i1], i2, i3⟩

theorem fifo_write_sublist (q : List NalRecord) (rec : NalRecord) :
    (fifo_write q rec).2.Sublist
      (q ++ if 1 ≤ rec.size ∧ rec.size ≤ USB_CAMERA_MAX_NAL_SIZE then [rec] else []) := by
  unfold fifo_write
  split
  · simp only []
    apply List.Sublist.append_right
    split
    · exact List.tail_sublist q
    · exact List.Sublist.refl q
  · simp

theorem fifoRun_sublist (ops : List RingOp) :
    ∀ q : List NalRecord,
      (obtainedRecords (fifoRun q ops).1 ++ (fifoRun q ops).2).Sublist (q ++ writtenRecords ops) := by
  induction ops with
  | nil => intro q; simp [fifoRun, obtainedRecords, writtenRecords]
  | cons op ops ih =>
    intro q
    cases op with
    | write pData iSize t s e ts =>
      have hstep := fifo_write_sublist q (writtenRecord pData iSize t s e ts)
      have hi := ih (fifo_write q (writtenRecord pData iSize t s e ts)).2
      simp only [fifoRun, fifoStep, obtainedRecords]
      refine hi.trans ?_
      have hsz : (writtenRecord pData iSize t s e ts).size = iSize := rfl
      rw [hsz] at hstep
      have : (q ++ writtenRecords (RingOp.write pData iSize t s e ts :: ops)) =
          (q ++ if 1 ≤ iSize ∧ iSize ≤ USB_CAMERA_MAX_NAL_SIZE then [writtenRecord pData iSize t s e ts] else [])
            ++ writtenRecords ops := by
        simp only [writtenRecords]
        split <;> simp
      rw [this]
      exact List.Sublist.append_right hstep _
    | read =>
      cases q with
      | nil =>
        have hi := ih []
        simpa [fifoRun, fifoStep, fifo_read, obtainedRecords, writtenRecords] using hi
      | cons x rest =>
        have hi := ih rest
        simp only [fifoRun, fifoStep, fifo_read, obtainedRecords, writtenRecords, List.cons_append]
        exact hi.cons₂ x

theorem fifoRun_append (a b : List RingOp) :
    ∀ q : List NalRecord,
      fifoRun q (a ++ b) =
        ((fifoRun q a).1 ++ (fifoRun (fifoRun q a).2 b).1, (fifoRun (fifoRun q a).2 b).2) := by
  induction a with
  | nil => intro q; rfl
  | cons op a ih =>
    intro q
    show fifoRun q (op :: (a ++ b)) = _
    simp only [fifoRun]
    rw [ih]
    rfl

theorem ringRun_append (a b : List RingOp) :
    ∀ r : usb_ring_buffer_t,
      ringRun r (a ++ b) =
        ((ringRun r a).1 ++ (ringRun (ringRun r a).2 b).1, (ringRun (ringRun r a).2 b).2) := by
  induction a with
  | nil => intro q; rfl
  | cons op a ih =>
    intro q
    show ringRun q (op :: (a ++ b)) = _
    simp only [ringRun]
    rw [ih]
    rfl

theorem lastN_cons_of_le {α : Type} (k : Nat) (x : α) (t : List α) (h : k ≤ t.length) :
    lastN k (x :: t) = lastN k t := by
  unfold lastN
  have : (x :: t).length - k = (t.length - k) + 1 := by simp; omega
  rw [this, List.drop_succ_cons]

theorem lastN_of_length_le {α : Type} (k : Nat) (l : List α) (h : l.length ≤ k) :
    lastN k l = l := by
  unfold lastN
  have : l.length - k = 0 := by omega
  rw [this, List.drop_zero]

theorem fifoRun_writes (ws : List WriteCall) (hv : ∀ w ∈ ws, 1 ≤ w.iSize ∧ w.iSize ≤ USB_CAMERA_MAX_NAL_SIZE) :
    ∀ q : List NalRecord, q.length ≤ 8 →
      fifoRun q (ws.map WriteCall.op) =
        (ws.map fun _ => RingObs.wrote true, lastN 8 (q ++ ws.map WriteCall.record)) := by
  induction ws with
  | nil =>
    intro q hq
    simp [fifoRun, lastN_of_length_le 8 q hq]
  | cons w ws ih =>
    intro q hq
    have hw := hv w (List.mem_cons_self _ _)
    have hw2 : 1 ≤ w.record.size ∧ w.record.size ≤ USB_CAMERA_MAX_NAL_SIZE := hw
    have hstep : fifoStep q w.op =
        (RingObs.wrote true, (if q.length = 8 then q.tail else q) ++ [w.record]) := by
      unfold WriteCall.record at hw2 ⊢
      simp only [fifoStep, WriteCall.op, fifo_write]
      rw [if_pos hw2]
    have hlen : ((if q.length = 8 then q.tail else q) ++ [w.record]).length ≤ 8 := by
      split
      · simp; omega
      · simp; omega
    have hi := ih (fun w' hw' => hv w' (List.mem_cons_of_mem _ hw')) _ hlen
    simp only [List.map_cons, fifoRun, hstep, hi]
    congr 1
    by_cases h8 : q.length = 8
    · rw [if_pos h8]
      cases q with
      | nil => simp at h8
      | cons x t =>
        have ht : t.length = 7 := by simpa using h8
        have hle : 8 ≤ (t ++ w.record :: List.map WriteCall.record ws).length := by
          simp only [List.length_append, List.length_cons, ht]
          omega
        simp only [List.tail_cons, List.cons_append, List.append_assoc, List.singleton_append]
        rw [lastN_cons_of_le 8 x _ hle]
        rfl
    · rw [if_neg h8]
      simp

theorem fifoRun_reads (q : List NalRecord) :
    fifoRun q (List.replicate (q.length + 1) RingOp.read) =
      (q.map (fun rec => RingObs.got (some rec)) ++ [RingObs.got none], []) := by
  induction q with
  | nil => rfl
  | cons x t ih =>
    show fifoRun (x :: t) (RingOp.read :: List.replicate (t.length + 1) RingOp.read) = _
    rw [fifoRun]
    simp only [fifoStep, fifo_read]
    rw [ih]
    rfl

theorem lastN_length {α : Type} (k : Nat) (l : List α) : (lastN k l).length = min l.length k := by
  unfold lastN
  simp
  omega

theorem lastN_min {α : Type} (k : Nat) (l : List α) : lastN (min l.length k) l = lastN k l := by
  unfold lastN
  congr 1
  omega

/-- C1: started from an initialised or cleared ring, every sequence of
`_ring_buffer_write` and `_ring_buffer_read` calls shows its callers exactly
what the drop-oldest FIFO queue of at most 8 records shows (same return values,
same records read), and the buffered records stay those of the queue; the
records read form a subsequence, in write order, of the records written; a
write of size `<= 0` or `> USB_CAMERA_MAX_NAL_SIZE` returns false and leaves
the ring as it was. -/
theorem ring_buffer_refines_drop_oldest_fifo (r r0 : usb_ring_buffer_t) (ops : List RingOp)
    (h0 : r0 = _ring_buffer_init r ∨ r0 = _ring_buffer_clear r) :
    (ringRun r0 ops).1 = (fifoRun [] ops).1 ∧
      ringQueue (ringRun r0 ops).2 = (fifoRun [] ops).2 ∧
      (obtainedRecords (ringRun r0 ops).1).Sublist (writtenRecords ops) ∧
      (∀ (pData : Nat → Nat) (iSize : Int) (t : Nat) (s e : Bool) (ts : Nat),
        iSize ≤ 0 ∨ iSize > USB_CAMERA_MAX_NAL_SIZE →
          _ring_buffer_write (ringRun r0 ops).2 pData iSize t s e ts
            = (false, (ringRun r0 ops).2)) := by
  have hwf : RingWF r0 := by
    rcases h0 with h | h <;> subst h
    · exact RingWF_init r
    · exact RingWF_clear r
  have hq : ringQueue r0 = [] := by
    rcases h0 with h | h <;> subst h
    · exact ringQueue_init r
    · exact ringQueue_clear r
  obtain ⟨h1, h2, -⟩ := ringRun_refines ops r0 hwf
  rw [hq] at h1 h2
  refine ⟨h1, h2, ?_, ?_⟩
  · rw [h1]
    have hs := fifoRun_sublist ops []
    rw [List.nil_append] at hs
    exact (List.sublist_append_left _ _).trans hs
  · intro pData iSize t s e ts hsz
    exact write_invalid _ pData iSize t s e ts hsz

/-- C1 on a concrete run: a freshly initialised zero ring and a mixed sequence
of valid writes, an invalid write and reads. -/
theorem ring_buffer_refines_drop_oldest_fifo_witness :
    (_ring_buffer_init zeroRing = _ring_buffer_init zeroRing ∨
        _ring_buffer_init zeroRing = _ring_buffer_clear zeroRing) ∧
      (ringRun (_ring_buffer_init zeroRing) sampleOps).1 = (fifoRun [] sampleOps).1 ∧
      ringQueue (ringRun (_ring_buffer_init zeroRing) sampleOps).2 = (fifoRun [] sampleOps).2 ∧
      (obtainedRecords (ringRun (_ring_buffer_init zeroRing) sampleOps).1).Sublist
        (writtenRecords sampleOps) ∧
      (∀ (pData : Nat → Nat) (iSize : Int) (t : Nat) (s e : Bool) (ts : Nat),
        iSize ≤ 0 ∨ iSize > USB_CAMERA_MAX_NAL_SIZE →
          _ring_buffer_write (ringRun (_ring_buffer_init zeroRing) sampleOps).2 pData iSize t s e ts
            = (false, (ringRun (_ring_buffer_init zeroRing) sampleOps).2)) :=
  ⟨Or.inl rfl,
    ring_buffer_refines_drop_oldest_fifo zeroRing (_ring_buffer_init zeroRing) sampleOps
      (Or.inl rfl)⟩

/-- C2: after `n` valid writes to an initialised or cleared ring with no read
in between, `iCount` is `min n 8`, and `min n 8 + 1` reads return the last
`min n 8` written records in write order and then NULL. -/
theorem writes_then_drain_returns_last_eight (r r0 : usb_ring_buffer_t) (ws : List WriteCall)
    (h0 : r0 = _ring_buffer_init r ∨ r0 = _ring_buffer_clear r)
    (hv : ∀ w ∈ ws, 1 ≤ w.iSize ∧ w.iSize ≤ USB_CAMERA_MAX_NAL_SIZE) :
    (ringRun r0 (ws.map WriteCall.op)).2.iCount = ((min ws.length 8 : Nat) : Int) ∧
      (ringRun r0 (ws.map WriteCall.op ++
          List.replicate (min ws.length 8 + 1) RingOp.read)).1 =
        (ws.map fun _ => RingObs.wrote true) ++
          (lastN (min ws.length 8) (ws.map WriteCall.record)).map
            (fun rec => RingObs.got (some rec)) ++
          [RingObs.got none] := by
  have hwf : RingWF r0 := by
    rcases h0 with h | h <;> subst h
    · exact RingWF_init r
    · exact RingWF_clear r
  have hq : ringQueue r0 = [] := by
    rcases h0 with h | h <;> subst h
    · exact ringQueue_init r
    · exact ringQueue_clear r
  have hw := fifoRun_writes ws hv [] (by simp)
  rw [List.nil_append] at hw
  have hlen : (lastN 8 (ws.map WriteCall.record)).length = min ws.length 8 := by
    rw [lastN_length, List.length_map]
  constructor
  · obtain ⟨-, h2, h3⟩ := ringRun_refines (ws.map WriteCall.op) r0 hwf
    rw [hq, hw] at h2
    have hl := ringQueue_length (ringRun r0 (ws.map WriteCall.op)).2
    rw [h2] at hl
    simp only [] at hl
    rw [hlen] at hl
    have := h3.count_lo
    omega
  · obtain ⟨h1, -, -⟩ := ringRun_refines
      (ws.map WriteCall.op ++ List.replicate (min ws.length 8 + 1) RingOp.read) r0 hwf
    rw [h1, hq, fifoRun_append, hw]
    simp only []
    have hmin : lastN (min ws.length 8) (ws.map WriteCall.record)
        = lastN 8 (ws.map WriteCall.record) := by
      have := lastN_min 8 (ws.map WriteCall.record)
      rwa [List.length_map] at this
    rw [← hlen, fifoRun_reads, hlen, hmin, List.append_assoc]

/-- C2 on the scenario of the ring test: after writing `P0 .. P9` the count is 8
and nine reads return `P2 .. P9` in order and then NULL. -/
theorem writes_then_drain_returns_last_eight_witness :
    (_ring_buffer_init zeroRing = _ring_buffer_init zeroRing ∨
        _ring_buffer_init zeroRing = _ring_buffer_clear zeroRing) ∧
      (∀ w ∈ testWrites10, 1 ≤ w.iSize ∧ w.iSize ≤ USB_CAMERA_MAX_NAL_SIZE) ∧
      (ringRun (_ring_buffer_init zeroRing) (testWrites10.map WriteCall.op)).2.iCount = 8 ∧
      (ringRun (_ring_buffer_init zeroRing)
          (testWrites10.map WriteCall.op ++ List.replicate 9 RingOp.read)).1 =
        List.replicate 10 (RingObs.wrote true) ++
          [RingObs.got (some (testWrite 2).record), RingObs.got (some (testWrite 3).record),
           RingObs.got (some (testWrite 4).record), RingObs.got (some (testWrite 5).record),
           RingObs.got (some (testWrite 6).record), RingObs.got (some (testWrite 7).record),
           RingObs.got (some (testWrite 8).record), RingObs.got (some (testWrite 9).record),
           RingObs.got none] :=
  ⟨Or.inl rfl, by decide,
    (writes_then_drain_returns_last_eight zeroRing (_ring_buffer_init zeroRing) testWrites10
      (Or.inl rfl) (by decide)).1,
    (writes_then_drain_returns_last_eight zeroRing (_ring_buffer_init zeroRing) testWrites10
      (Or.inl rfl) (by decide)).2⟩

theorem RingReachable_wf {r : usb_ring_buffer_t} (h : RingReachable r) : RingWF r := by
  induction h with
  | init r => exact RingWF_init r
  | write r pData iSize t s e ts _ ih => exact RingWF_write r ih pData iSize t s e ts
  | read r _ ih => exact RingWF_read r ih
  | clear r _ _ => exact RingWF_clear r

theorem RingReachable_writeAll (ws : List WriteCall) :
    ∀ r : usb_ring_buffer_t, RingReachable r → RingReachable (VideoSourceUSB.writeAll r ws) := by
  induction ws with
  | nil => intro r h; exact h
  | cons w ws ih =>
    intro r h
    exact ih _ (RingReachable.write r _ _ _ _ _ _ h)

/-- Writes into a ring with room never touch the slot just before `iReadIndex`. -/
theorem writeAll_keeps_slot_before_read (ws : List WriteCall) :
    ∀ r : usb_ring_buffer_t, RingWF r → (ws.length : Int) + r.iCount < 8 →
      (writeAll r ws).buffers ((r.iReadIndex.toNat + 7) % 8)
        = r.buffers ((r.iReadIndex.toNat + 7) % 8) := by
  induction ws with
  | nil => intro r _ _; rfl
  | cons w ws ih =>
    intro r hr hlen
    simp only [List.length_cons, Nat.cast_add, Nat.cast_one] at hlen
    obtain ⟨rl, rh, cl, ch, we, hv⟩ := id hr
    by_cases hsz : w.iSize ≤ 0 ∨ w.iSize > USB_CAMERA_MAX_NAL_SIZE
    · simp only [writeAll, write_invalid r w.pData w.iSize _ _ _ _ hsz]
      exact ih r hr (by omega)
    · have h1 : 1 ≤ w.iSize := by omega
      have h2 : w.iSize ≤ USB_CAMERA_MAX_NAL_SIZE := by omega
      have hc : ¬ r.iCount ≥ 8 := by omega
      have hwf := RingWF_write r hr w.pData w.iSize w.uNALType w.bIsStart w.bIsEnd w.uTimestamp
      have hi := ih _ hwf
      simp only [writeAll]
      rw [write_room_eq r _ _ _ _ _ _ h1 h2 hc] at hi ⊢
      simp only [] at hi ⊢
      rw [hi (by omega)]
      have hne : (r.iReadIndex.toNat + 7) % 8 ≠ r.iWriteIndex.toNat := by omega
      rw [Function.update_noteq hne]

/-- Valid writes into a ring with room keep `iReadIndex` and add to `iCount`. -/
theorem writeAll_room (ws : List WriteCall)
    (hv : ∀ w ∈ ws, 1 ≤ w.iSize ∧ w.iSize ≤ USB_CAMERA_MAX_NAL_SIZE) :
    ∀ r : usb_ring_buffer_t, RingWF r → (ws.length : Int) + r.iCount ≤ 8 →
      RingWF (writeAll r ws) ∧ (writeAll r ws).iReadIndex = r.iReadIndex ∧
        (writeAll r ws).iCount = r.iCount + ws.length := by
  induction ws with
  | nil => intro r hr _; exact ⟨hr, rfl, by simp [writeAll]⟩
  | cons w ws ih =>
    intro r hr hlen
    simp only [List.length_cons, Nat.cast_add, Nat.cast_one] at hlen
    obtain ⟨h1, h2⟩ := hv w (List.mem_cons_self _ _)
    have hc : ¬ r.iCount ≥ 8 := by
      have := hr.count_lo
      omega
    have hwf := RingWF_write r hr w.pData w.iSize w.uNALType w.bIsStart w.bIsEnd w.uTimestamp
    have hi := ih (fun w' hw' => hv w' (List.mem_cons_of_mem _ hw')) _ hwf
    simp only [writeAll]
    rw [write_room_eq r _ _ _ _ _ _ h1 h2 hc] at hi ⊢
    simp only [] at hi ⊢
    obtain ⟨i1, i2, i3⟩ := hi (by omega)
    refine ⟨i1, i2, ?_⟩
    rw [i3]
    simp only [List.length_cons, Nat.cast_add, Nat.cast_one]
    omega

theorem writeAll_append (a b : List WriteCall) :
    ∀ r : usb_ring_buffer_t, writeAll r (a ++ b) = writeAll (writeAll r a) b := by
  induction a with
  | nil => intro r; rfl
  | cons w a ih =>
    intro r
    show writeAll r (w :: (a ++ b)) = _
    simp only [writeAll]
    rw [ih]

/-- C4 (as amended): in a reachable ring, when a read returns slot `k` and
leaves `c` records buffered, slot `k` (bytes, size, nal_type, flags, timestamp,
valid mark) is left untouched by any run of fewer than `8 - c` write calls made
before the next read; after `7 - c` valid writes the next valid write stores
its record into slot `k`, with no read in between. -/
theorem read_slot_survives_only_bounded_writes (r : usb_ring_buffer_t) (hr : RingReachable r)
    (k : Int) (hk : (_ring_buffer_read r).1 = some k) :
    (∀ ws : List WriteCall, (ws.length : Int) + (_ring_buffer_read r).2.iCount < 8 →
        (writeAll (_ring_buffer_read r).2 ws).buffers k.toNat
          = (_ring_buffer_read r).2.buffers k.toNat) ∧
      (∀ (ws : List WriteCall) (w : WriteCall),
        (∀ x ∈ ws, 1 ≤ x.iSize ∧ x.iSize ≤ USB_CAMERA_MAX_NAL_SIZE) →
        1 ≤ w.iSize ∧ w.iSize ≤ USB_CAMERA_MAX_NAL_SIZE →
        (ws.length : Int) + (_ring_buffer_read r).2.iCount = 7 →
          (writeAll (_ring_buffer_read r).2 (ws ++ [w])).buffers k.toNat
            = writtenSlot ((_ring_buffer_read r).2.buffers k.toNat) w.pData w.iSize w.uNALType
                w.bIsStart w.bIsEnd w.uTimestamp) := by
  have hwf := RingReachable_wf hr
  have hwf' := RingWF_read r hwf
  have hc : ¬ r.iCount ≤ 0 := by
    intro h0
    rw [read_empty_eq r h0] at hk
    exact Option.noConfusion hk
  have ek : k = r.iReadIndex := by
    rw [read_some_eq r hc] at hk
    exact (Option.some.inj hk).symm
  have e1 : (_ring_buffer_read r).2.iReadIndex = (r.iReadIndex + 1).tmod 8 := by
    rw [read_some_eq r hc]
  have e2 : (_ring_buffer_read r).2.iCount = r.iCount - 1 := by
    rw [read_some_eq r hc]
  subst ek
  generalize (_ring_buffer_read r).2 = r' at hwf' e1 e2 ⊢
  obtain ⟨rl, rh, cl, ch, we, hv⟩ := hwf
  have ht : (r.iReadIndex + 1).tmod 8 = (r.iReadIndex + 1) % 8 := tmod8 _ (by omega)
  have hidx : (r'.iReadIndex.toNat + 7) % 8 = r.iReadIndex.toNat := by omega
  have partA : ∀ ws : List WriteCall, (ws.length : Int) + r'.iCount < 8 →
      (writeAll r' ws).buffers r.iReadIndex.toNat = r'.buffers r.iReadIndex.toNat := by
    intro ws hlen
    have := writeAll_keeps_slot_before_read ws r' hwf' hlen
    rw [hidx] at this
    exact this
  refine ⟨partA, ?_⟩
  intro ws w hvs hw hlen
  obtain ⟨w1, w2, w3⟩ := writeAll_room ws hvs r' hwf' (by omega)
  rw [writeAll_append]
  simp only [writeAll]
  have hroom : ¬ (writeAll r' ws).iCount ≥ 8 := by
    rw [w3]; omega
  rw [write_room_eq _ _ _ _ _ _ _ hw.1 hw.2 hroom]
  simp only []
  have hwi : (writeAll r' ws).iWriteIndex.toNat = r.iReadIndex.toNat := by
    rw [w1.write_eq, w2, w3]
    omega
  rw [hwi, Function.update_same, partA ws (by omega)]

/-- C4 (as amended) on the ring holding `P0 P1 P2`: the read returns slot 0 and
leaves two records, so slot 0 survives any run of fewer than six writes. -/
theorem read_slot_survives_only_bounded_writes_witness :
    RingReachable threeTestRing ∧ (_ring_buffer_read threeTestRing).1 = some 0 ∧
      (∀ ws : List WriteCall, (ws.length : Int) + (_ring_buffer_read threeTestRing).2.iCount < 8 →
        (writeAll (_ring_buffer_read threeTestRing).2 ws).buffers (0 : Int).toNat
          = (_ring_buffer_read threeTestRing).2.buffers (0 : Int).toNat) ∧
      (∀ (ws : List WriteCall) (w : WriteCall),
        (∀ x ∈ ws, 1 ≤ x.iSize ∧ x.iSize ≤ USB_CAMERA_MAX_NAL_SIZE) →
        1 ≤ w.iSize ∧ w.iSize ≤ USB_CAMERA_MAX_NAL_SIZE →
        (ws.length : Int) + (_ring_buffer_read threeTestRing).2.iCount = 7 →
          (writeAll (_ring_buffer_read threeTestRing).2 (ws ++ [w])).buffers (0 : Int).toNat
            = writtenSlot ((_ring_buffer_read threeTestRing).2.buffers (0 : Int).toNat) w.pData
                w.iSize w.uNALType w.bIsStart w.bIsEnd w.uTimestamp) :=
  ⟨RingReachable_writeAll _ _ (RingReachable.init zeroRing), by decide,
    read_slot_survives_only_bounded_writes threeTestRing
      (RingReachable_writeAll _ _ (RingReachable.init zeroRing)) 0 (by decide)⟩

/-- C4 (counterexample): on the reachable full ring holding `P0 .. P7`, a read
returns slot 0 with record `P0`; the very next write, made before any further
read, replaces the contents of slot 0 by `P8`. -/
theorem read_slot_overwritten_before_next_read :
    RingReachable fullTestRing ∧
      (_ring_buffer_read fullTestRing).1 = some 0 ∧
      slotRecord ((_ring_buffer_read fullTestRing).2.buffers 0) = (testWrite 0).record ∧
      slotRecord ((writeAll (_ring_buffer_read fullTestRing).2 [testWrite 8]).buffers 0)
        = (testWrite 8).record ∧
      slotRecord ((writeAll (_ring_buffer_read fullTestRing).2 [testWrite 8]).buffers 0)
        ≠ slotRecord ((_ring_buffer_read fullTestRing).2.buffers 0) :=
  ⟨RingReachable_writeAll _ _ (RingReachable.init zeroRing), by decide, by decide, by decide,
    by decide⟩

theorem read_not_running (m : ModuleState) (piReadSize : Option Int) (bAsync : Bool)
    (puOut : Option Nat) (h : m.s_USBCameraState ≠ USB_CAMERA_STATE_RUNNING) :
    video_source_usb_read m piReadSize bAsync puOut =
      { ret := none, readSize := piReadSize.map fun _ => (0 : Int),
        timeDataAvailable := puOut, state := m } := by
  unfold video_source_usb_read
  simp only []
  rw [if_pos h]

theorem read_running_empty (m : ModuleState) (piReadSize : Option Int) (bAsync : Bool)
    (puOut : Option Nat) (h : m.s_USBCameraState = USB_CAMERA_STATE_RUNNING)
    (hc : m.s_RingBuffer.iCount ≤ 0) :
    video_source_usb_read m piReadSize bAsync puOut =
      { ret := none, readSize := piReadSize.map fun _ => (0 : Int),
        timeDataAvailable := puOut, state := m } := by
  unfold video_source_usb_read
  simp only []
  rw [if_neg (by simp [h]), read_empty_eq _ hc]

theorem read_running_valid (m : ModuleState) (piReadSize : Option Int) (bAsync : Bool)
    (puOut : Option Nat) (h : m.s_USBCameraState = USB_CAMERA_STATE_RUNNING)
    (hc : ¬ m.s_RingBuffer.iCount ≤ 0)
    (hv : (m.s_RingBuffer.buffers m.s_RingBuffer.iReadIndex.toNat).bValid = true) :
    video_source_usb_read m piReadSize bAsync puOut =
      { ret := some m.s_RingBuffer.iReadIndex
        readSize := piReadSize.map fun _ =>
          (m.s_RingBuffer.buffers m.s_RingBuffer.iReadIndex.toNat).size
        timeDataAvailable := puOut.map fun _ =>
          (m.s_RingBuffer.buffers m.s_RingBuffer.iReadIndex.toNat).uTimestamp
        state :=
          { m with
            s_RingBuffer := (_ring_buffer_read m.s_RingBuffer).2
            s_iLastReadBufferIndex := m.s_RingBuffer.iReadIndex
            s_uLastNALType := (m.s_RingBuffer.buffers m.s_RingBuffer.iReadIndex.toNat).uNALType
            s_bLastReadIsStartNAL :=
              (m.s_RingBuffer.buffers m.s_RingBuffer.iReadIndex.toNat).bIsStartNAL
            s_bLastReadIsEndNAL :=
              (m.s_RingBuffer.buffers m.s_RingBuffer.iReadIndex.toNat).bIsEndNAL
            s_bLastReadIsSingleNAL := true } } := by
  unfold video_source_usb_read
  simp only []
  rw [if_neg (by simp [h]), read_some_eq _ hc]
  simp only [hv, Bool.not_true, Bool.false_eq_true, if_false, Option.map_map]
  rfl

/-- C3: `video_source_usb_read` returns NULL exactly when the controller is
not RUNNING or the ring is empty, for every ring reachable through init,
write, read and clear. On NULL the reported size is 0 and the module state
(ring and last-read metadata included) is unchanged; otherwise the oldest
buffered record is consumed and returned, its size and timestamp are reported
through the out parameters, and the last-read NAL type and start/end flags are
set to its values. -/
theorem read_null_iff_not_running_or_empty (m : ModuleState)
    (hr : RingReachable m.s_RingBuffer) (piReadSize : Option Int) (bAsync : Bool)
    (puOut : Option Nat) (res : ReadResult)
    (hres : res = video_source_usb_read m piReadSize bAsync puOut) :
    (res.ret = none ↔
        (m.s_USBCameraState ≠ USB_CAMERA_STATE_RUNNING ∨ m.s_RingBuffer.iCount = 0)) ∧
      (res.ret = none →
        res.readSize = piReadSize.map (fun _ => (0 : Int)) ∧
          res.timeDataAvailable = puOut ∧ res.state = m) ∧
      (∀ k : Int, res.ret = some k →
        ∃ (rec : NalRecord) (rest : List NalRecord),
          ringQueue m.s_RingBuffer = rec :: rest ∧
            ringQueue res.state.s_RingBuffer = rest ∧
            slotRecord (res.state.s_RingBuffer.buffers k.toNat) = rec ∧
            res.readSize = piReadSize.map (fun _ => rec.size) ∧
            res.timeDataAvailable = puOut.map (fun _ => rec.timestamp_ms) ∧
            res.state.s_uLastNALType = rec.nal_type ∧
            res.state.s_bLastReadIsStartNAL = rec.is_start_nal ∧
            res.state.s_bLastReadIsEndNAL = rec.is_end_nal ∧
            res.state.s_bLastReadIsSingleNAL = true) := by
  have hwf := RingReachable_wf hr
  by_cases hs : m.s_USBCameraState = USB_CAMERA_STATE_RUNNING
  · by_cases hc : m.s_RingBuffer.iCount ≤ 0
    · rw [read_running_empty m piReadSize bAsync puOut hs hc] at hres
      subst hres
      have := hwf.count_lo
      refine ⟨?_, ?_, ?_⟩
      · simp only [true_iff]
        right; omega
      · intro _; exact ⟨rfl, rfl, rfl⟩
      · intro k hk; exact Option.noConfusion hk
    · have hv := hwf.valid 0 (by simp only [Nat.cast_zero]; omega)
      have h0 : (m.s_RingBuffer.iReadIndex.toNat + 0) % 8 = m.s_RingBuffer.iReadIndex.toNat := by
        have := hwf.read_lo
        have := hwf.read_hi
        omega
      rw [h0] at hv
      rw [read_running_valid m piReadSize bAsync puOut hs hc hv] at hres
      subst hres
      obtain ⟨q1, q2⟩ := ringQueue_read m.s_RingBuffer hwf
      rw [read_some_eq _ hc] at q1
      simp only [readRecord, Option.map_some'] at q1
      refine ⟨?_, ?_, ?_⟩
      · constructor
        · intro h; exact Option.noConfusion h
        · rintro (h | h)
          · exact absurd hs h
          · omega
      · intro h; exact Option.noConfusion h
      · intro k hk
        simp only [Option.some.injEq] at hk
        subst hk
        cases hq : ringQueue m.s_RingBuffer with
        | nil => rw [hq] at q1; exact Option.noConfusion q1
        | cons rec rest =>
          rw [hq] at q1 q2
          simp only [List.head?_cons, Option.some.injEq] at q1
          simp only [List.tail_cons] at q2
          refine ⟨rec, rest, rfl, q2, ?_, ?_, ?_, ?_, ?_, ?_, rfl⟩
          · rw [← q1]; rw [read_some_eq _ hc]
          · rw [← q1]; rfl
          · rw [← q1]; rfl
          · rw [← q1]; rfl
          · rw [← q1]; rfl
          · rw [← q1]; rfl
  · rw [read_not_running m piReadSize bAsync puOut hs] at hres
    subst hres
    refine ⟨?_, ?_, ?_⟩
    · simp only [true_iff]
      left; exact hs
    · intro _; exact ⟨rfl, rfl, rfl⟩
    · intro k hk; exact Option.noConfusion hk

/-- C3 on a running module whose ring holds `P0 P1 P2`. -/
theorem read_null_iff_not_running_or_empty_witness :
    RingReachable runningTestModule.s_RingBuffer ∧
      ((video_source_usb_read runningTestModule (some 77) false (some 99)).ret = none ↔
        (runningTestModule.s_USBCameraState ≠ USB_CAMERA_STATE_RUNNING ∨
          runningTestModule.s_RingBuffer.iCount = 0)) ∧
      ((video_source_usb_read runningTestModule (some 77) false (some 99)).ret = none →
        (video_source_usb_read runningTestModule (some 77) false (some 99)).readSize
            = (some 77 : Option Int).map (fun _ => (0 : Int)) ∧
          (video_source_usb_read runningTestModule (some 77) false (some 99)).timeDataAvailable
            = some 99 ∧
          (video_source_usb_read runningTestModule (some 77) false (some 99)).state
            = runningTestModule) ∧
      (∀ k : Int, (video_source_usb_read runningTestModule (some 77) false (some 99)).ret = some k →
        ∃ (rec : NalRecord) (rest : List NalRecord),
          ringQueue runningTestModule.s_RingBuffer = rec :: rest ∧
            ringQueue
              (video_source_usb_read runningTestModule (some 77) false (some 99)).state.s_RingBuffer
              = rest ∧
            slotRecord
              ((video_source_usb_read runningTestModule (some 77) false
                (some 99)).state.s_RingBuffer.buffers k.toNat) = rec ∧
            (video_source_usb_read runningTestModule (some 77) false (some 99)).readSize
              = (some 77 : Option Int).map (fun _ => rec.size) ∧
            (video_source_usb_read runningTestModule (some 77) false (some 99)).timeDataAvailable
              = (some 99 : Option Nat).map (fun _ => rec.timestamp_ms) ∧
            (video_source_usb_read runningTestModule (some 77) false
              (some 99)).state.s_uLastNALType = rec.nal_type ∧
            (video_source_usb_read runningTestModule (some 77) false
              (some 99)).state.s_bLastReadIsStartNAL = rec.is_start_nal ∧
            (video_source_usb_read runningTestModule (some 77) false
              (some 99)).state.s_bLastReadIsEndNAL = rec.is_end_nal ∧
            (video_source_usb_read runningTestModule (some 77) false
              (some 99)).state.s_bLastReadIsSingleNAL = true) :=
  ⟨RingReachable_writeAll _ _ (RingReachable.init zeroRing),
    read_null_iff_not_running_or_empty runningTestModule
      (RingReachable_writeAll _ _ (RingReachable.init zeroRing)) (some 77) false (some 99) _ rfl⟩

/-! ### Start and stop (proofs) -/

theorem start_ffmpeg_pid_indep (env : Env) (fd fd' : Int) :
    (_start_ffmpeg_process env fd).1 = (_start_ffmpeg_process env fd').1 := by
  unfold _start_ffmpeg_process
  split
  · rfl
  · split <;> rfl

theorem start_probe_fails (D : Nat) (env : Env) (m : ModuleState) (br : Nat) (kf qp : Int)
    (pKF : Option Int) (h : _video_source_usb_check_device_available env = false) :
    video_source_usb_start_program D env m br kf qp pKF =
      { ret := 0, initialKFSet := pKF,
        state := { m with s_USBCameraState := USB_CAMERA_STATE_ERROR } } := by
  unfold video_source_usb_start_program
  simp [h]

theorem start_spawn_fails (D : Nat) (env : Env) (m : ModuleState) (br : Nat) (kf qp : Int)
    (pKF : Option Int) (h : _video_source_usb_check_device_available env = true)
    (hs : (_start_ffmpeg_process env (-1)).1 < 0) :
    (video_source_usb_start_program D env m br kf qp pKF).ret = 0 ∧
      (video_source_usb_start_program D env m br kf qp pKF).state.s_USBCameraState
        = USB_CAMERA_STATE_ERROR := by
  have hs' : (_start_ffmpeg_process env m.s_iFFMpegPipeReadFd).1 < 0 := by
    rw [start_ffmpeg_pid_indep env _ (-1)]; exact hs
  unfold video_source_usb_start_program
  simp [h, hs']

theorem start_thread_fails (D : Nat) (env : Env) (m : ModuleState) (br : Nat) (kf qp : Int)
    (pKF : Option Int) (h : _video_source_usb_check_device_available env = true)
    (hs : ¬ (_start_ffmpeg_process env (-1)).1 < 0) (ht : env.pthreadCreateResult ≠ 0) :
    (video_source_usb_start_program D env m br kf qp pKF).ret = 0 ∧
      (video_source_usb_start_program D env m br kf qp pKF).state.s_USBCameraState
        = USB_CAMERA_STATE_ERROR := by
  have hs' : ¬ (_start_ffmpeg_process env m.s_iFFMpegPipeReadFd).1 < 0 := by
    rw [start_ffmpeg_pid_indep env _ (-1)]; exact hs
  unfold video_source_usb_start_program
  simp [h, hs', ht]

theorem start_succeeds (D : Nat) (env : Env) (m : ModuleState) (br : Nat) (kf qp : Int)
    (pKF : Option Int) (h : _video_source_usb_check_device_available env = true)
    (hs : ¬ (_start_ffmpeg_process env (-1)).1 < 0) (ht : ¬ env.pthreadCreateResult ≠ 0) :
    video_source_usb_start_program D env m br kf qp pKF =
      { ret := if br = 0 then D else br
        initialKFSet := pKF.map fun _ => if kf ≤ 0 then 2000 else kf
        state :=
          { m with
            s_uCurrentBitrate := if br = 0 then D else br
            s_iCurrentKeyframeMs := if kf ≤ 0 then 2000 else kf
            s_RingBuffer := _ring_buffer_init m.s_RingBuffer
            s_iFFMpegPid := (_start_ffmpeg_process env m.s_iFFMpegPipeReadFd).1
            s_iFFMpegPipeReadFd := (_start_ffmpeg_process env m.s_iFFMpegPipeReadFd).2
            s_bUSBCaptureThreadStop := false
            s_bUSBCaptureThreadRunning := true
            s_uUSBStartTime := env.startTimestamp
            s_USBCameraState := USB_CAMERA_STATE_RUNNING
            s_iConsecutiveReadErrors := 0 } } := by
  have hs' : ¬ (_start_ffmpeg_process env m.s_iFFMpegPipeReadFd).1 < 0 := by
    rw [start_ffmpeg_pid_indep env _ (-1)]; exact hs
  unfold video_source_usb_start_program
  simp only [h, Bool.not_true, Bool.false_eq_true, if_false, hs', ht]

/-- C8: `video_source_usb_start_program` returns 0 with the state left at
ERROR whenever the device probe, the encoder spawn or the thread creation
fails; otherwise it returns the chosen bitrate (the override when non-zero,
else the default), leaves the state RUNNING and reports through
`pInitialKFSet` the chosen keyframe period (the override when positive, else
2000 ms). With a non-zero default bitrate the return value is 0 exactly in the
failure cases. -/
theorem start_program_returns_zero_iff_failure (DEFAULT_VIDEO_BITRATE : Nat) (env : Env)
    (m : ModuleState) (uOverwriteInitialBitrate : Nat)
    (iOverwriteInitialKFMs iOverwriteInitialQPDelta : Int) (pInitialKFSet : Option Int)
    (res : StartResult)
    (hres : res = video_source_usb_start_program DEFAULT_VIDEO_BITRATE env m
      uOverwriteInitialBitrate iOverwriteInitialKFMs iOverwriteInitialQPDelta pInitialKFSet) :
    (StartFails env →
        res.ret = 0 ∧ res.state.s_USBCameraState = USB_CAMERA_STATE_ERROR) ∧
      (¬ StartFails env →
        res.ret = (if uOverwriteInitialBitrate ≠ 0 then uOverwriteInitialBitrate
          else DEFAULT_VIDEO_BITRATE) ∧
        res.state.s_USBCameraState = USB_CAMERA_STATE_RUNNING ∧
        res.state.s_uCurrentBitrate = res.ret ∧
        res.state.s_iCurrentKeyframeMs =
          (if iOverwriteInitialKFMs > 0 then iOverwriteInitialKFMs else 2000) ∧
        res.initialKFSet = pInitialKFSet.map (fun _ =>
          if iOverwriteInitialKFMs > 0 then iOverwriteInitialKFMs else 2000)) ∧
      (DEFAULT_VIDEO_BITRATE ≠ 0 → (res.ret = 0 ↔ StartFails env)) := by
  have key : (StartFails env →
        res.ret = 0 ∧ res.state.s_USBCameraState = USB_CAMERA_STATE_ERROR) ∧
      (¬ StartFails env →
        res.ret = (if uOverwriteInitialBitrate ≠ 0 then uOverwriteInitialBitrate
          else DEFAULT_VIDEO_BITRATE) ∧
        res.state.s_USBCameraState = USB_CAMERA_STATE_RUNNING ∧
        res.state.s_uCurrentBitrate = res.ret ∧
        res.state.s_iCurrentKeyframeMs =
          (if iOverwriteInitialKFMs > 0 then iOverwriteInitialKFMs else 2000) ∧
        res.initialKFSet = pInitialKFSet.map (fun _ =>
          if iOverwriteInitialKFMs > 0 then iOverwriteInitialKFMs else 2000)) := by
    constructor
    · intro hf
      subst hres
      by_cases hp : _video_source_usb_check_device_available env = true
      · by_cases hs : (_start_ffmpeg_process env (-1)).1 < 0
        · exact start_spawn_fails _ env m _ _ _ _ hp hs
        · have ht : env.pthreadCreateResult ≠ 0 := by
            rcases hf with h | h | h
            · rw [hp] at h; exact Bool.noConfusion h
            · exact absurd h hs
            · exact h
          exact start_thread_fails _ env m _ _ _ _ hp hs ht
      · have hp' : _video_source_usb_check_device_available env = false := by
          simpa using hp
        rw [start_probe_fails _ env m _ _ _ _ hp']
        exact ⟨rfl, rfl⟩
    · intro hn
      unfold StartFails at hn
      simp only [not_or] at hn
      obtain ⟨hp, hs, ht⟩ := hn
      have hp' : _video_source_usb_check_device_available env = true := by
        simpa using hp
      rw [start_succeeds _ env m _ _ _ _ hp' hs ht] at hres
      subst hres
      have e1 : (if uOverwriteInitialBitrate = 0 then DEFAULT_VIDEO_BITRATE
          else uOverwriteInitialBitrate) =
          (if uOverwriteInitialBitrate ≠ 0 then uOverwriteInitialBitrate
            else DEFAULT_VIDEO_BITRATE) := by
        by_cases h0 : uOverwriteInitialBitrate = 0 <;> simp [h0]
      have e2 : (if iOverwriteInitialKFMs ≤ 0 then (2000 : Int) else iOverwriteInitialKFMs) =
          (if iOverwriteInitialKFMs > 0 then iOverwriteInitialKFMs else 2000) := by
        by_cases h0 : iOverwriteInitialKFMs ≤ 0
        · rw [if_pos h0, if_neg (by omega)]
        · rw [if_neg h0, if_pos (by omega)]
      simp only []
      rw [e1, e2]
      simp only [and_self]
  refine ⟨key.1, key.2, ?_⟩
  intro hD
  constructor
  · intro h0
    by_contra hn
    have := (key.2 hn).1
    rw [h0] at this
    by_cases hb : uOverwriteInitialBitrate ≠ 0
    · rw [if_pos hb] at this; exact hb this.symm
    · rw [if_neg hb] at this; exact hD this.symm
  · intro hf
    exact (key.1 hf).1

/-- C8 on the initial module with every system call succeeding, no overrides
and a default bitrate of 4000000. -/
theorem start_program_returns_zero_iff_failure_witness :
    (StartFails goodEnv →
        (video_source_usb_start_program 4000000 goodEnv initialModule 0 0 0 (some 5)).ret = 0 ∧
          (video_source_usb_start_program 4000000 goodEnv initialModule 0 0 0
            (some 5)).state.s_USBCameraState = USB_CAMERA_STATE_ERROR) ∧
      (¬ StartFails goodEnv →
        (video_source_usb_start_program 4000000 goodEnv initialModule 0 0 0 (some 5)).ret
          = (if (0 : Nat) ≠ 0 then 0 else 4000000) ∧
        (video_source_usb_start_program 4000000 goodEnv initialModule 0 0 0
          (some 5)).state.s_USBCameraState = USB_CAMERA_STATE_RUNNING ∧
        (video_source_usb_start_program 4000000 goodEnv initialModule 0 0 0
          (some 5)).state.s_uCurrentBitrate
          = (video_source_usb_start_program 4000000 goodEnv initialModule 0 0 0 (some 5)).ret ∧
        (video_source_usb_start_program 4000000 goodEnv initialModule 0 0 0
          (some 5)).state.s_iCurrentKeyframeMs = (if (0 : Int) > 0 then 0 else 2000) ∧
        (video_source_usb_start_program 4000000 goodEnv initialModule 0 0 0
          (some 5)).initialKFSet
          = (some 5 : Option Int).map (fun _ => if (0 : Int) > 0 then 0 else 2000)) ∧
      ((4000000 : Nat) ≠ 0 →
        ((video_source_usb_start_program 4000000 goodEnv initialModule 0 0 0 (some 5)).ret = 0 ↔
          StartFails goodEnv)) :=
  start_program_returns_zero_iff_failure 4000000 goodEnv initialModule 0 0 0 (some 5) _ rfl

theorem ring_clear_idem (r : usb_ring_buffer_t) :
    _ring_buffer_clear (_ring_buffer_clear r) = _ring_buffer_clear r := by
  unfold _ring_buffer_clear
  simp only [usb_ring_buffer_t.mk.injEq, and_true]
  funext i
  split <;> rfl

theorem stop_ffmpeg_resets (m : ModuleState) (hm : ModuleWF m) :
    _stop_ffmpeg_process m = { m with s_iFFMpegPid := -1, s_iFFMpegPipeReadFd := -1 } := by
  obtain ⟨hp, hf⟩ := hm
  rcases m with ⟨run, stp, pid, fd, ring, st, t0, br, kf, lt, ls, le, lsg, li, d1, d2, d3, d4, ce⟩
  simp only at hp hf
  unfold _stop_ffmpeg_process
  by_cases h1 : pid > 0 <;> by_cases h2 : fd ≥ 0 <;> simp [h1, h2] <;> omega

theorem stop_program_eq (m : ModuleState) (hm : ModuleWF m) :
    video_source_usb_stop_program m =
      { m with
        s_bUSBCaptureThreadStop := true
        s_bUSBCaptureThreadRunning := false
        s_iFFMpegPid := -1
        s_iFFMpegPipeReadFd := -1
        s_RingBuffer := _ring_buffer_clear m.s_RingBuffer
        s_USBCameraState := USB_CAMERA_STATE_STOPPED
        s_uUSBStartTime := 0 } := by
  obtain ⟨hp, hf⟩ := hm
  rcases m with ⟨run, stp, pid, fd, ring, st, t0, br, kf, lt, ls, le, lsg, li, d1, d2, d3, d4, ce⟩
  simp only at hp hf
  unfold video_source_usb_stop_program
  cases run
  · simp only [Bool.false_eq_true, if_false]
    rw [stop_ffmpeg_resets _ ⟨hp, hf⟩]
  · simp only [if_true]
    rw [stop_ffmpeg_resets _ ⟨hp, hf⟩]

theorem ModuleWF_stop (m : ModuleState) (hm : ModuleWF m) :
    ModuleWF (video_source_usb_stop_program m) := by
  rw [stop_program_eq m hm]
  exact ⟨Or.inl rfl, Or.inl rfl⟩

/-- C9: from every controller state (with the pid and descriptor either unset
or valid), when `video_source_usb_stop_program` returns the state is STOPPED,
the worker-running flag is false, the encoder pid and the pipe descriptor are
-1, the ring is empty (count 0, indices 0, all eight slots invalid) and the
start time is 0; a second stop right after changes nothing. -/
theorem stop_program_resets_and_is_idempotent (m : ModuleState) (hm : ModuleWF m) :
    (video_source_usb_stop_program m).s_USBCameraState = USB_CAMERA_STATE_STOPPED ∧
      (video_source_usb_stop_program m).s_bUSBCaptureThreadRunning = false ∧
      (video_source_usb_stop_program m).s_iFFMpegPid = -1 ∧
      (video_source_usb_stop_program m).s_iFFMpegPipeReadFd = -1 ∧
      (video_source_usb_stop_program m).s_RingBuffer.iCount = 0 ∧
      (video_source_usb_stop_program m).s_RingBuffer.iReadIndex = 0 ∧
      (video_source_usb_stop_program m).s_RingBuffer.iWriteIndex = 0 ∧
      (∀ i : Nat, i < 8 →
        ((video_source_usb_stop_program m).s_RingBuffer.buffers i).bValid = false) ∧
      ringQueue (video_source_usb_stop_program m).s_RingBuffer = [] ∧
      video_source_usb_get_program_start_time (video_source_usb_stop_program m) = 0 ∧
      video_source_usb_stop_program (video_source_usb_stop_program m)
        = video_source_usb_stop_program m := by
  have hwf' := ModuleWF_stop m hm
  refine ⟨?_, ?_, ?_, ?_, ?_, ?_, ?_, ?_, ?_, ?_, ?_⟩
  · rw [stop_program_eq m hm]
  · rw [stop_program_eq m hm]
  · rw [stop_program_eq m hm]
  · rw [stop_program_eq m hm]
  · rw [stop_program_eq m hm]; rfl
  · rw [stop_program_eq m hm]; rfl
  · rw [stop_program_eq m hm]; rfl
  · intro i hi
    rw [stop_program_eq m hm]
    have : (i : Int) < USB_CAMERA_RING_BUFFER_COUNT := by
      unfold USB_CAMERA_RING_BUFFER_COUNT; omega
    simp only [_ring_buffer_clear, this, if_true]
  · rw [stop_program_eq m hm]
    exact ringQueue_clear _
  · rw [stop_program_eq m hm]; rfl
  · rw [stop_program_eq _ hwf', stop_program_eq m hm]
    simp only [ring_clear_idem]

/-- C9 on the module left by a successful start. -/
theorem stop_program_resets_and_is_idempotent_witness :
    ModuleWF startedTestModule ∧
      (video_source_usb_stop_program startedTestModule).s_USBCameraState
        = USB_CAMERA_STATE_STOPPED ∧
      (video_source_usb_stop_program startedTestModule).s_bUSBCaptureThreadRunning = false ∧
      (video_source_usb_stop_program startedTestModule).s_iFFMpegPid = -1 ∧
      (video_source_usb_stop_program startedTestModule).s_iFFMpegPipeReadFd = -1 ∧
      (video_source_usb_stop_program startedTestModule).s_RingBuffer.iCount = 0 ∧
      (video_source_usb_stop_program startedTestModule).s_RingBuffer.iReadIndex = 0 ∧
      (video_source_usb_stop_program startedTestModule).s_RingBuffer.iWriteIndex = 0 ∧
      (∀ i : Nat, i < 8 →
        ((video_source_usb_stop_program startedTestModule).s_RingBuffer.buffers i).bValid
          = false) ∧
      ringQueue (video_source_usb_stop_program startedTestModule).s_RingBuffer = [] ∧
      video_source_usb_get_program_start_time (video_source_usb_stop_program startedTestModule)
        = 0 ∧
      video_source_usb_stop_program (video_source_usb_stop_program startedTestModule)
        = video_source_usb_stop_program startedTestModule :=
  ⟨⟨Or.inr (by decide), Or.inr (by decide)⟩,
    stop_program_resets_and_is_idempotent startedTestModule
      ⟨Or.inr (by decide), Or.inr (by decide)⟩⟩

theorem ModuleWF_initial : ModuleWF initialModule :=
  ⟨Or.inl rfl, Or.inl rfl⟩

theorem ModuleWF_start (D : Nat) (env : Env) (henv : EnvOK env) (m : ModuleState)
    (hm : ModuleWF m) (br : Nat) (kf qp : Int) (pKF : Option Int) :
    ModuleWF (video_source_usb_start_program D env m br kf qp pKF).state := by
  obtain ⟨hp, hf⟩ := hm
  obtain ⟨e1, e2⟩ := henv
  rcases m with ⟨run, stp, pid, fd, ring, st, t0, br0, kf0, lt, ls, le, lsg, li, d1, d2, d3, d4, ce⟩
  simp only at hp hf
  unfold video_source_usb_start_program
  by_cases hprobe : _video_source_usb_check_device_available env = true
  · simp only [hprobe, Bool.not_true, Bool.false_eq_true, if_false]
    unfold _start_ffmpeg_process
    by_cases h1 : env.pipeResult < 0
    · simp only [h1, if_true]
      exact ⟨Or.inl rfl, hf⟩
    · by_cases h2 : env.forkResult < 0
      · simp only [h1, h2, if_true, if_false]
        exact ⟨Or.inl rfl, hf⟩
      · simp only [h1, h2, if_false]
        have hpid : 0 < env.forkResult := by omega
        have hfd : 0 ≤ env.pipeReadEnd := e2 (by omega)
        by_cases h3 : env.pthreadCreateResult ≠ 0
        · simp only [h3, if_true, ne_eq, not_false_eq_true]
          rw [stop_ffmpeg_resets _ ⟨Or.inr hpid, Or.inr hfd⟩]
          exact ⟨Or.inl rfl, Or.inl rfl⟩
        · simp only [h3, if_false]
          exact ⟨Or.inr hpid, Or.inr hfd⟩
  · have hprobe' : _video_source_usb_check_device_available env = false := by
      simpa using hprobe
    simp only [hprobe', Bool.not_false, if_true]
    exact ⟨hp, hf⟩

theorem stop_keeps_parameters (m : ModuleState) :
    (video_source_usb_stop_program m).s_uCurrentBitrate = m.s_uCurrentBitrate ∧
      (video_source_usb_stop_program m).s_iCurrentKeyframeMs = m.s_iCurrentKeyframeMs := by
  unfold video_source_usb_stop_program _stop_ffmpeg_process
  simp only []
  constructor <;> (repeat' split) <;> rfl

theorem start_parameters (D : Nat) (env : Env) (m : ModuleState) (br : Nat) (kf qp : Int)
    (pKF : Option Int) :
    (_video_source_usb_check_device_available env = false →
      (video_source_usb_start_program D env m br kf qp pKF).state.s_uCurrentBitrate
          = m.s_uCurrentBitrate ∧
        (video_source_usb_start_program D env m br kf qp pKF).state.s_iCurrentKeyframeMs
          = m.s_iCurrentKeyframeMs) ∧
    (_video_source_usb_check_device_available env = true →
      (video_source_usb_start_program D env m br kf qp pKF).state.s_uCurrentBitrate
          = (if br = 0 then D else br) ∧
        (video_source_usb_start_program D env m br kf qp pKF).state.s_iCurrentKeyframeMs
          = (if kf ≤ 0 then 2000 else kf)) := by
  constructor
  · intro h
    rw [start_probe_fails D env m br kf qp pKF h]
    exact ⟨rfl, rfl⟩
  · intro h
    unfold video_source_usb_start_program _stop_ffmpeg_process
    simp only [h, Bool.not_true, Bool.false_eq_true, if_false]
    constructor <;> (repeat' split) <;> rfl

theorem health_error_eq (D : Nat) (env : Env) (m : ModuleState)
    (h : m.s_USBCameraState = USB_CAMERA_STATE_ERROR) :
    ∃ m1 : ModuleState, m1.s_uCurrentBitrate = m.s_uCurrentBitrate ∧
      m1.s_iCurrentKeyframeMs = m.s_iCurrentKeyframeMs ∧
      (video_source_usb_periodic_health_checks D env m).2 =
        (video_source_usb_start_program D env (video_source_usb_stop_program m1)
          (video_source_usb_stop_program m1).s_uCurrentBitrate
          (video_source_usb_stop_program m1).s_iCurrentKeyframeMs 0 none).state := by
  unfold video_source_usb_periodic_health_checks
  have hs : ¬ m.s_USBCameraState = USB_CAMERA_STATE_STOPPED := by rw [h]; decide
  simp only [hs, if_false]
  by_cases ht : env.healthTimestamp > u32_add m.s_uDebugTimeLastUSBVideoInputCheck 5000
  · simp only [ht, if_true, h]
    refine ⟨_, ?_, ?_, rfl⟩ <;> rfl
  · simp only [ht, if_false, h, if_true]
    refine ⟨_, ?_, ?_, rfl⟩ <;> rfl

/-- C10 (as amended): for every module state whose controller state is ERROR,
the restart done by `video_source_usb_periodic_health_checks` leaves the
current bitrate and keyframe period unchanged when the device probe fails, and
unchanged as well when the restart passes the probe with a bitrate that was
non-zero and a keyframe period that was positive; a restart that passes the
probe replaces a zero bitrate by the default bitrate and a non-positive
keyframe period by 2000 ms. -/
theorem restart_keeps_set_parameters (DEFAULT_VIDEO_BITRATE : Nat) (env : Env)
    (m : ModuleState) (h : m.s_USBCameraState = USB_CAMERA_STATE_ERROR) :
    (_video_source_usb_check_device_available env = false →
      (video_source_usb_periodic_health_checks DEFAULT_VIDEO_BITRATE env m).2.s_uCurrentBitrate
          = m.s_uCurrentBitrate ∧
        (video_source_usb_periodic_health_checks DEFAULT_VIDEO_BITRATE env m).2.s_iCurrentKeyframeMs
          = m.s_iCurrentKeyframeMs) ∧
    (_video_source_usb_check_device_available env = true →
      (video_source_usb_periodic_health_checks DEFAULT_VIDEO_BITRATE env m).2.s_uCurrentBitrate
          = (if m.s_uCurrentBitrate = 0 then DEFAULT_VIDEO_BITRATE else m.s_uCurrentBitrate) ∧
        (video_source_usb_periodic_health_checks DEFAULT_VIDEO_BITRATE env m).2.s_iCurrentKeyframeMs
          = (if m.s_iCurrentKeyframeMs ≤ 0 then 2000 else m.s_iCurrentKeyframeMs)) ∧
    (m.s_uCurrentBitrate ≠ 0 →
      (video_source_usb_periodic_health_checks DEFAULT_VIDEO_BITRATE env m).2.s_uCurrentBitrate
        = m.s_uCurrentBitrate) ∧
    (0 < m.s_iCurrentKeyframeMs →
      (video_source_usb_periodic_health_checks DEFAULT_VIDEO_BITRATE env m).2.s_iCurrentKeyframeMs
        = m.s_iCurrentKeyframeMs) := by
  obtain ⟨m1, hb, hk, heq⟩ := health_error_eq DEFAULT_VIDEO_BITRATE env m h
  obtain ⟨sb, sk⟩ := stop_keeps_parameters m1
  obtain ⟨p1, p2⟩ := start_parameters DEFAULT_VIDEO_BITRATE env (video_source_usb_stop_program m1)
    (video_source_usb_stop_program m1).s_uCurrentBitrate
    (video_source_usb_stop_program m1).s_iCurrentKeyframeMs 0 none
  rw [heq]
  rw [sb, sk, hb, hk] at p1 p2 ⊢
  refine ⟨p1, p2, ?_, ?_⟩
  · intro hne
    by_cases hp : _video_source_usb_check_device_available env = true
    · rw [(p2 hp).1, if_neg hne]
    · exact (p1 (by simpa using hp)).1
  · intro hpos
    by_cases hp : _video_source_usb_check_device_available env = true
    · rw [(p2 hp).2, if_neg (by omega)]
    · exact (p1 (by simpa using hp)).2

/-- C10 (as amended) on a module that ran with bitrate 4000000 and keyframe
period 2000 ms and then fell into ERROR. -/
theorem restart_keeps_set_parameters_witness :
    errorAfterRunModule.s_USBCameraState = USB_CAMERA_STATE_ERROR ∧
    (_video_source_usb_check_device_available goodEnv = false →
      (video_source_usb_periodic_health_checks 5000000 goodEnv
          errorAfterRunModule).2.s_uCurrentBitrate = errorAfterRunModule.s_uCurrentBitrate ∧
        (video_source_usb_periodic_health_checks 5000000 goodEnv
          errorAfterRunModule).2.s_iCurrentKeyframeMs
          = errorAfterRunModule.s_iCurrentKeyframeMs) ∧
    (_video_source_usb_check_device_available goodEnv = true →
      (video_source_usb_periodic_health_checks 5000000 goodEnv
          errorAfterRunModule).2.s_uCurrentBitrate
          = (if errorAfterRunModule.s_uCurrentBitrate = 0 then 5000000
              else errorAfterRunModule.s_uCurrentBitrate) ∧
        (video_source_usb_periodic_health_checks 5000000 goodEnv
          errorAfterRunModule).2.s_iCurrentKeyframeMs
          = (if errorAfterRunModule.s_iCurrentKeyframeMs ≤ 0 then 2000
              else errorAfterRunModule.s_iCurrentKeyframeMs)) ∧
    (errorAfterRunModule.s_uCurrentBitrate ≠ 0 →
      (video_source_usb_periodic_health_checks 5000000 goodEnv
        errorAfterRunModule).2.s_uCurrentBitrate = errorAfterRunModule.s_uCurrentBitrate) ∧
    (0 < errorAfterRunModule.s_iCurrentKeyframeMs →
      (video_source_usb_periodic_health_checks 5000000 goodEnv
        errorAfterRunModule).2.s_iCurrentKeyframeMs
        = errorAfterRunModule.s_iCurrentKeyframeMs) :=
  ⟨rfl, restart_keeps_set_parameters 5000000 goodEnv errorAfterRunModule rfl⟩

/-- C10 (counterexample): a first start that finds no device leaves the state
ERROR with bitrate 0 and keyframe period 0; the restart of the next health
check, with the device now present, succeeds and changes the bitrate to the
default and the keyframe period to 2000 ms. -/
theorem restart_changes_unset_parameters :
    failedStartModule.s_USBCameraState = USB_CAMERA_STATE_ERROR ∧
      failedStartModule.s_uCurrentBitrate = 0 ∧
      failedStartModule.s_iCurrentKeyframeMs = 0 ∧
      (video_source_usb_periodic_health_checks 4000000 goodEnv failedStartModule).1 = true ∧
      (video_source_usb_periodic_health_checks 4000000 goodEnv
        failedStartModule).2.s_uCurrentBitrate = 4000000 ∧
      (video_source_usb_periodic_health_checks 4000000 goodEnv
        failedStartModule).2.s_iCurrentKeyframeMs = 2000 ∧
      (video_source_usb_periodic_health_checks 4000000 goodEnv
        failedStartModule).2.s_uCurrentBitrate ≠ failedStartModule.s_uCurrentBitrate ∧
      (video_source_usb_periodic_health_checks 4000000 goodEnv
        failedStartModule).2.s_iCurrentKeyframeMs ≠ failedStartModule.s_iCurrentKeyframeMs := by
  decide

theorem ModuleWF_read (m : ModuleState) (hm : ModuleWF m) (piReadSize : Option Int)
    (bAsync : Bool) (puOut : Option Nat) :
    ModuleWF (video_source_usb_read m piReadSize bAsync puOut).state := by
  obtain ⟨hp, hf⟩ := hm
  unfold video_source_usb_read
  simp only []
  split
  · exact ⟨hp, hf⟩
  · split
    · exact ⟨hp, hf⟩
    · split
      · exact ⟨hp, hf⟩
      · exact ⟨hp, hf⟩

theorem ModuleWF_health (D : Nat) (env : Env) (henv : EnvOK env) (m : ModuleState)
    (hm : ModuleWF m) : ModuleWF (video_source_usb_periodic_health_checks D env m).2 := by
  have hstats : ∀ m1 : ModuleState, ModuleWF m1 →
      ModuleWF (if env.healthTimestamp > u32_add m1.s_uDebugTimeLastUSBVideoInputCheck 5000 then
        { m1 with
          s_uDebugUSBInputBytes := 0
          s_uDebugUSBInputReads := 0
          s_uDebugTimeLastUSBVideoInputCheck := env.healthTimestamp }
        else m1) := by
    intro m1 h1
    split
    · exact ⟨h1.pid_ok, h1.fd_ok⟩
    · exact h1
  have h1 := hstats m hm
  unfold video_source_usb_periodic_health_checks
  by_cases hs : m.s_USBCameraState = USB_CAMERA_STATE_STOPPED
  · rw [if_pos hs]; exact hm
  · rw [if_neg hs]
    simp only []
    generalize (if env.healthTimestamp > u32_add m.s_uDebugTimeLastUSBVideoInputCheck 5000 then
        ({ m with
          s_uDebugUSBInputBytes := 0
          s_uDebugUSBInputReads := 0
          s_uDebugTimeLastUSBVideoInputCheck := env.healthTimestamp } : ModuleState)
        else m) = m1 at h1 ⊢
    by_cases he : m1.s_USBCameraState = USB_CAMERA_STATE_ERROR
    · rw [if_pos he]
      exact ModuleWF_start D env henv _ (ModuleWF_stop _ h1) _ _ _ _
    · rw [if_neg he]
      by_cases hw : m1.s_iFFMpegPid > 0 ∧ env.waitpidResult = m1.s_iFFMpegPid
      · rw [if_pos hw]
        exact ⟨h1.pid_ok, h1.fd_ok⟩
      · rw [if_neg hw]
        have h2 : ModuleWF (if decide (env.healthTimestamp > u32_add m1.s_uTimeLastHealthCheck 10000)
            = true then { m1 with s_uTimeLastHealthCheck := env.healthTimestamp } else m1) := by
          split
          · exact ⟨h1.pid_ok, h1.fd_ok⟩
          · exact h1
        generalize (if decide (env.healthTimestamp > u32_add m1.s_uTimeLastHealthCheck 10000)
            = true then ({ m1 with s_uTimeLastHealthCheck := env.healthTimestamp } : ModuleState)
            else m1) = m2 at h2 ⊢
        split
        · exact ⟨h2.pid_ok, h2.fd_ok⟩
        · split
          · exact ⟨h2.pid_ok, h2.fd_ok⟩
          · exact h2

/-- In every reachable module state the pid is -1 or positive and the pipe
descriptor is -1 or non-negative. -/
theorem ModuleReachable_wf (D : Nat) {m : ModuleState} (h : ModuleReachable D m) :
    ModuleWF m := by
  induction h with
  | initial => exact ModuleWF_initial
  | start env m br kf qp pKF henv _ ih => exact ModuleWF_start D env henv m ih br kf qp pKF
  | stop m _ ih => exact ModuleWF_stop m ih
  | read m a b c _ ih => exact ModuleWF_read m ih a b c
  | health env m henv _ ih => exact ModuleWF_health D env henv m ih
  | threadWrite m w _ ih => exact ⟨ih.pid_ok, ih.fd_ok⟩
  | threadError m _ ih => exact ⟨ih.pid_ok, ih.fd_ok⟩
  | threadCounters m a b c _ ih => exact ⟨ih.pid_ok, ih.fd_ok⟩
  | threadExit m _ ih => exact ⟨ih.pid_ok, ih.fd_ok⟩

theorem bytesOf_four (a : Nat → Nat) : bytesOf a 4 = [a 0, a 1, a 2, a 3] := by
  rfl

theorem ScanInv_start (stack : Nat → Nat) : ScanInv (scanStart stack) := by
  constructor
  · intro h; exact Bool.noConfusion h
  · intro w hw; simp [scanStart] at hw

theorem saveOnStartCode_ok (clock : Nat → Nat) (s : ScanRun) (hs : ScanInv s) :
    ∀ w ∈ saveOnStartCode clock s, GoodNal w := by
  unfold saveOnStartCode
  split
  · rename_i hopen
    obtain ⟨h4, hmax, a0, a1, a2, a3⟩ := hs.open_ok hopen.1
    intro w hw
    rcases List.mem_append.mp hw with h | h
    · exact hs.writes_ok w h
    · simp only [List.mem_singleton] at h
      subst h
      refine ⟨by have := hopen.2; show 5 ≤ s.scan.iAccumulatedSize; omega, hmax, ?_, rfl⟩
      rw [bytesOf_four]
      simp only [a0, a1, a2, a3]
  · exact hs.writes_ok

theorem ScanInv_startNewNal (clock : Nat → Nat) (s : ScanRun) (hs : ScanInv s) :
    ScanInv (startNewNal clock s) := by
  constructor
  · intro _
    exact ⟨le_refl _, show (4 : Int) ≤ USB_CAMERA_MAX_NAL_SIZE by decide, rfl, rfl, rfl, rfl⟩
  · exact saveOnStartCode_ok clock s hs

theorem ScanInv_accumulateByte (s : ScanRun) (hs : ScanInv s) (b : Nat) :
    ScanInv (accumulateByte s b) := by
  unfold accumulateByte
  split
  · rename_i hopen
    obtain ⟨h4, hmax, a0, a1, a2, a3⟩ := hs.open_ok hopen.1
    constructor
    · intro _
      have hne : ∀ j : Nat, j < 4 → j ≠ s.scan.iAccumulatedSize.toNat := by
        intro j hj; omega
      refine ⟨by simp only []; omega, by simp only []; have := hopen.2; omega, ?_, ?_, ?_, ?_⟩
      · simp only []; rw [Function.update_noteq (hne 0 (by decide))]; exact a0
      · simp only []; rw [Function.update_noteq (hne 1 (by decide))]; exact a1
      · simp only []; rw [Function.update_noteq (hne 2 (by decide))]; exact a2
      · simp only []; rw [Function.update_noteq (hne 3 (by decide))]; exact a3
    · exact hs.writes_ok
  · exact hs

theorem ScanInv_scanLoop (clock : Nat → Nat) (chunk : List Nat) (fuel : Nat) :
    ∀ (i : Nat) (s : ScanRun), ScanInv s → ScanInv (scanLoop clock chunk fuel i s).2 := by
  induction fuel with
  | zero => intro i s hs; exact hs
  | succ fuel ih =>
    intro i s hs
    unfold scanLoop
    split
    · split
      · exact ih _ _ (ScanInv_startNewNal clock s hs)
      · exact ih _ _ (ScanInv_accumulateByte s hs _)
    · exact hs

theorem ScanInv_scanChunk (clock : Nat → Nat) (s : ScanRun) (hs : ScanInv s) (chunk : List Nat) :
    ScanInv (scanChunk clock s chunk) :=
  ScanInv_scanLoop clock chunk chunk.length 0 s hs

theorem ScanInv_foldl (clock : Nat → Nat) (chunks : List (List Nat)) :
    ∀ s : ScanRun, ScanInv s → ScanInv (chunks.foldl (scanChunk clock) s) := by
  induction chunks with
  | nil => intro s hs; exact hs
  | cons c cs ih => intro s hs; exact ih _ (ScanInv_scanChunk clock s hs c)

theorem scanFlush_ok (clock : Nat → Nat) (s : ScanRun) (hs : ScanInv s) :
    ∀ w ∈ (scanFlush clock s).writes, GoodNal w := by
  unfold scanFlush
  split
  · rename_i hopen
    obtain ⟨h4, hmax, a0, a1, a2, a3⟩ := hs.open_ok hopen.1
    intro w hw
    rcases List.mem_append.mp hw with h | h
    · exact hs.writes_ok w h
    · simp only [List.mem_singleton] at h
      subst h
      refine ⟨by have := hopen.2; show 5 ≤ s.scan.iAccumulatedSize; omega, hmax, ?_, rfl⟩
      rw [bytesOf_four]
      simp only [a0, a1, a2, a3]
  · exact hs.writes_ok

/-- C5: for every sequence of input chunks followed by the final flush, every
NAL the scanner hands to the ring has a size between 5 and
`USB_CAMERA_MAX_NAL_SIZE` = 131072, starts with `00 00 00 01`, and carries
`nal_type = bytes[4] & 0x1F`; so `_ring_buffer_write` accepts it on any ring. -/
theorem scanner_emits_wellformed_nals (clock : Nat → Nat) (stack : Nat → Nat)
    (chunks : List (List Nat)) (w : WriteCall)
    (hw : w ∈ captureThreadWrites clock stack chunks) :
    5 ≤ w.iSize ∧ w.iSize ≤ USB_CAMERA_MAX_NAL_SIZE ∧ USB_CAMERA_MAX_NAL_SIZE = 131072 ∧
      bytesOf w.pData 4 = [0x00, 0x00, 0x00, 0x01] ∧
      w.uNALType = w.pData 4 &&& 0x1F ∧
      (∀ r : usb_ring_buffer_t,
        (_ring_buffer_write r w.pData w.iSize w.uNALType w.bIsStart w.bIsEnd w.uTimestamp).1
          = true) := by
  have hinv := ScanInv_foldl clock chunks _ (ScanInv_start stack)
  obtain ⟨h5, hmax, hb, ht⟩ := scanFlush_ok clock _ hinv w hw
  refine ⟨h5, hmax, by decide, hb, ht, ?_⟩
  intro r
  exact write_valid_eq r _ _ _ _ _ _ (by omega) hmax

/-- C5 on the third NAL written for the 32-byte test stream. -/
theorem scanner_emits_wellformed_nals_witness :
    (captureThreadWrites zeroClock zeroStack [testStream]).get ⟨2, by decide⟩
        ∈ captureThreadWrites zeroClock zeroStack [testStream] ∧
      5 ≤ ((captureThreadWrites zeroClock zeroStack [testStream]).get ⟨2, by decide⟩).iSize ∧
      ((captureThreadWrites zeroClock zeroStack [testStream]).get ⟨2, by decide⟩).iSize
        ≤ USB_CAMERA_MAX_NAL_SIZE ∧
      USB_CAMERA_MAX_NAL_SIZE = 131072 ∧
      bytesOf ((captureThreadWrites zeroClock zeroStack [testStream]).get ⟨2, by decide⟩).pData 4
        = [0x00, 0x00, 0x00, 0x01] ∧
      ((captureThreadWrites zeroClock zeroStack [testStream]).get ⟨2, by decide⟩).uNALType
        = ((captureThreadWrites zeroClock zeroStack [testStream]).get ⟨2, by decide⟩).pData 4
            &&& 0x1F ∧
      (∀ r : usb_ring_buffer_t,
        (_ring_buffer_write r
          ((captureThreadWrites zeroClock zeroStack [testStream]).get ⟨2, by decide⟩).pData
          ((captureThreadWrites zeroClock zeroStack [testStream]).get ⟨2, by decide⟩).iSize
          ((captureThreadWrites zeroClock zeroStack [testStream]).get ⟨2, by decide⟩).uNALType
          ((captureThreadWrites zeroClock zeroStack [testStream]).get ⟨2, by decide⟩).bIsStart
          ((captureThreadWrites zeroClock zeroStack [testStream]).get ⟨2, by decide⟩).bIsEnd
          ((captureThreadWrites zeroClock zeroStack [testStream]).get ⟨2, by decide⟩).uTimestamp).1
          = true) :=
  ⟨List.get_mem _ _ _,
    scanner_emits_wellformed_nals zeroClock zeroStack [testStream] _ (List.get_mem _ _ _)⟩

theorem saveOnStartCode_flags (clock : Nat → Nat) (s : ScanRun)
    (hs : ∀ w ∈ s.writes, SliceFlagsOk w) : ∀ w ∈ saveOnStartCode clock s, SliceFlagsOk w := by
  unfold saveOnStartCode
  split
  · intro w hw
    rcases List.mem_append.mp hw with h | h
    · exact hs w h
    · simp only [List.mem_singleton] at h
      subst h
      exact ⟨rfl, by simp only [decide_eq_true_eq]⟩
  · exact hs

theorem scanLoop_flags (clock : Nat → Nat) (chunk : List Nat) (fuel : Nat) :
    ∀ (i : Nat) (s : ScanRun), (∀ w ∈ s.writes, SliceFlagsOk w) →
      ∀ w ∈ (scanLoop clock chunk fuel i s).2.writes, SliceFlagsOk w := by
  induction fuel with
  | zero => intro i s hs; exact hs
  | succ fuel ih =>
    intro i s hs
    unfold scanLoop
    split
    · split
      · exact ih _ _ (saveOnStartCode_flags clock s hs)
      · refine ih _ _ ?_
        unfold accumulateByte
        split
        · exact hs
        · exact hs
    · exact hs

/-- The NALs closed by a following start code carry slice flags that follow
the rule: start and end flags agree and are set exactly for types 1 and 5. -/
theorem loop_writes_have_slice_flags (clock : Nat → Nat) (stack : Nat → Nat)
    (chunks : List (List Nat)) :
    ∀ w ∈ (chunks.foldl (scanChunk clock) (scanStart stack)).writes, SliceFlagsOk w := by
  have key : ∀ (cs : List (List Nat)) (s : ScanRun), (∀ w ∈ s.writes, SliceFlagsOk w) →
      ∀ w ∈ (cs.foldl (scanChunk clock) s).writes, SliceFlagsOk w := by
    intro cs
    induction cs with
    | nil => intro s hs; exact hs
    | cons c cs ih =>
      intro s hs
      exact ih _ (scanLoop_flags clock c c.length 0 s hs)
  exact key chunks _ (by intro w hw; simp [scanStart] at hw)

/-- C7 (failing input): the stream `00 00 00 01 67 42` followed by the
end-of-stream flush hands the ring one NAL of type 7 (SPS) whose start and end
flags are both set, although the type is neither 1 nor 5. -/
theorem flush_sets_slice_flags_on_non_slice :
    (captureThreadWrites zeroClock zeroStack [[0x00, 0x00, 0x00, 0x01, 0x67, 0x42]]).map
        WriteCall.record =
      [{ bytes := [0x00, 0x00, 0x00, 0x01, 0x67, 0x42], size := 6, nal_type := 7,
         is_start_nal := true, is_end_nal := true, timestamp_ms := 0 }] := by
  decide

/-! ### The parse loop on a list of bytes (proofs) -/

theorem startCodeAt_len (chunk : List Nat) (i : Nat) (h : (startCodeAt chunk i).1 = true) :
    (startCodeAt chunk i).2 = 3 ∨ (startCodeAt chunk i).2 = 4 := by
  unfold startCodeAt at h ⊢
  split
  · split
    · left; rfl
    · split
      · right; rfl
      · rename_i h1 h2 h3
        simp only [h1, h2, h3, if_true, if_false] at h
        exact Bool.noConfusion h
  · rename_i h1
    simp only [h1, if_false] at h
    exact Bool.noConfusion h

theorem startCodeAt_bound (chunk : List Nat) (i : Nat) (h : (startCodeAt chunk i).1 = true) :
    i + (startCodeAt chunk i).2 < chunk.length := by
  unfold startCodeAt at h ⊢
  split
  · rename_i h1
    split
    · simp only []; omega
    · split
      · rename_i h3; simp only []; omega
      · rename_i h2 h3
        simp only [h1, h2, h3, if_true, if_false] at h
        exact Bool.noConfusion h
  · rename_i h1
    simp only [h1, if_false] at h
    exact Bool.noConfusion h

theorem scanLoop_step_start (clock : Nat → Nat) (chunk : List Nat) (fuel i : Nat) (s : ScanRun)
    (h1 : i < chunk.length) (h2 : (startCodeAt chunk i).1 = true) :
    scanLoop clock chunk (fuel + 1) i s =
      scanLoop clock chunk fuel (i + (startCodeAt chunk i).2 - 1 + 1) (startNewNal clock s) := by
  simp only [scanLoop, h1, h2, if_true]

theorem scanLoop_step_plain (clock : Nat → Nat) (chunk : List Nat) (fuel i : Nat) (s : ScanRun)
    (h1 : i < chunk.length) (h2 : (startCodeAt chunk i).1 = false) :
    scanLoop clock chunk (fuel + 1) i s =
      scanLoop clock chunk fuel (i + 1) (accumulateByte s (chunk.getD i 0)) := by
  simp only [scanLoop, h1, h2, if_true, Bool.false_eq_true, if_false]

theorem scanLoop_step_end (clock : Nat → Nat) (chunk : List Nat) (fuel i : Nat) (s : ScanRun)
    (h1 : ¬ i < chunk.length) : scanLoop clock chunk fuel i s = (i, s) := by
  cases fuel with
  | zero => rfl
  | succ f => simp only [scanLoop, h1, if_false]

theorem scanLoop_fuel (clock : Nat → Nat) (chunk : List Nat) (fuel : Nat) :
    ∀ (fuel' i : Nat) (s : ScanRun), chunk.length - i ≤ fuel → chunk.length - i ≤ fuel' →
      scanLoop clock chunk fuel i s = scanLoop clock chunk fuel' i s := by
  induction fuel with
  | zero =>
    intro fuel' i s h1 _
    have hi : ¬ i < chunk.length := by omega
    rw [scanLoop_step_end _ _ _ _ _ hi, scanLoop_step_end _ _ _ _ _ hi]
  | succ fuel ih =>
    intro fuel' i s h1 h2
    by_cases hi : i < chunk.length
    · obtain ⟨f, rfl⟩ : ∃ f, fuel' = f + 1 := ⟨fuel' - 1, by omega⟩
      by_cases hf : (startCodeAt chunk i).1 = true
      · rw [scanLoop_step_start _ _ _ _ _ hi hf, scanLoop_step_start _ _ _ _ _ hi hf]
        have := startCodeAt_len chunk i hf
        exact ih _ _ _ (by omega) (by omega)
      · have hf' : (startCodeAt chunk i).1 = false := by simpa using hf
        rw [scanLoop_step_plain _ _ _ _ _ hi hf', scanLoop_step_plain _ _ _ _ _ hi hf']
        exact ih _ _ _ (by omega) (by omega)
    · rw [scanLoop_step_end _ _ _ _ _ hi, scanLoop_step_end _ _ _ _ _ hi]

/-- With `chunk.length` iterations the loop leaves through its own test
`i < bytesRead`: the final index has reached the end of the chunk. -/
theorem scanLoop_reaches_end (clock : Nat → Nat) (chunk : List Nat) (fuel : Nat) :
    ∀ (i : Nat) (s : ScanRun), chunk.length - i ≤ fuel →
      chunk.length ≤ (scanLoop clock chunk fuel i s).1 := by
  induction fuel with
  | zero =>
    intro i s h
    rw [scanLoop_step_end _ _ _ _ _ (by omega)]
    simp only []
    omega
  | succ fuel ih =>
    intro i s h
    by_cases hi : i < chunk.length
    · by_cases hf : (startCodeAt chunk i).1 = true
      · rw [scanLoop_step_start _ _ _ _ _ hi hf]
        have := startCodeAt_len chunk i hf
        exact ih _ _ (by omega)
      · have hf' : (startCodeAt chunk i).1 = false := by simpa using hf
        rw [scanLoop_step_plain _ _ _ _ _ hi hf']
        exact ih _ _ (by omega)
    · rw [scanLoop_step_end _ _ _ _ _ hi]
      simp only []
      omega

/-- The parse of a chunk ends with the index at the end of the chunk. -/
theorem scanChunk_reaches_end (clock : Nat → Nat) (chunk : List Nat) (s : ScanRun) :
    chunk.length ≤ (scanLoop clock chunk chunk.length 0 s).1 :=
  scanLoop_reaches_end clock chunk chunk.length 0 s (by omega)

theorem startCodeAt_shift (pre rest : List Nat) (i : Nat) :
    startCodeAt (pre ++ rest) (pre.length + i) = startCodeAt rest i := by
  have hg : ∀ j : Nat, (pre ++ rest).getD (pre.length + i + j) 0 = rest.getD (i + j) 0 := by
    intro j
    rw [List.getD_append_right _ _ _ _ (by omega)]
    congr 1
    omega
  have hg0 : (pre ++ rest).getD (pre.length + i) 0 = rest.getD i 0 := hg 0
  unfold startCodeAt
  simp only [List.length_append, hg, hg0]
  have e1 : (pre.length + i + 3 < pre.length + rest.length) = (i + 3 < rest.length) := by
    apply propext; omega
  have e2 : (pre.length + i + 4 < pre.length + rest.length) = (i + 4 < rest.length) := by
    apply propext; omega
  simp only [e1, e2]

theorem scanLoop_shift (clock : Nat → Nat) (pre rest : List Nat) (fuel : Nat) :
    ∀ (i : Nat) (s : ScanRun),
      scanLoop clock (pre ++ rest) fuel (pre.length + i) s =
        (pre.length + (scanLoop clock rest fuel i s).1, (scanLoop clock rest fuel i s).2) := by
  induction fuel with
  | zero => intro i s; rfl
  | succ fuel ih =>
    intro i s
    have hget : (pre ++ rest).getD (pre.length + i) 0 = rest.getD i 0 := by
      rw [List.getD_append_right _ _ _ _ (by omega)]
      congr 1
      omega
    by_cases hi : i < rest.length
    · have hi' : pre.length + i < (pre ++ rest).length := by
        rw [List.length_append]; omega
      by_cases hf : (startCodeAt rest i).1 = true
      · have hf' : (startCodeAt (pre ++ rest) (pre.length + i)).1 = true := by
          rw [startCodeAt_shift]; exact hf
        rw [scanLoop_step_start _ _ _ _ _ hi' hf', scanLoop_step_start _ _ _ _ _ hi hf,
          startCodeAt_shift]
        have := startCodeAt_len rest i hf
        have e : pre.length + i + (startCodeAt rest i).2 - 1 + 1
            = pre.length + (i + (startCodeAt rest i).2 - 1 + 1) := by omega
        rw [e]
        exact ih _ _
      · have hf1 : (startCodeAt rest i).1 = false := by simpa using hf
        have hf' : (startCodeAt (pre ++ rest) (pre.length + i)).1 = false := by
          rw [startCodeAt_shift]; exact hf1
        rw [scanLoop_step_plain _ _ _ _ _ hi' hf', scanLoop_step_plain _ _ _ _ _ hi hf1, hget,
          Nat.add_assoc]
        exact ih _ _
    · have hi' : ¬ pre.length + i < (pre ++ rest).length := by
        rw [List.length_append]; omega
      rw [scanLoop_step_end _ _ _ _ _ hi', scanLoop_step_end _ _ _ _ _ hi]

theorem scanChunk_nil (clock : Nat → Nat) (s : ScanRun) : scanChunk clock s [] = s := rfl

/-- A start code at the head of the bytes: the open NAL is saved, a new one is
started, and the scan goes on after the start code. -/
theorem scanChunk_start (clock : Nat → Nat) (s : ScanRun) (l : List Nat)
    (h : (startCodeAt l 0).1 = true) :
    scanChunk clock s l = scanChunk clock (startNewNal clock s) (l.drop (startCodeAt l 0).2) := by
  have hb := startCodeAt_bound l 0 h
  have hk := startCodeAt_len l 0 h
  obtain ⟨n, hn⟩ : ∃ n, l.length = n + 1 := ⟨l.length - 1, by omega⟩
  have h0 : 0 < l.length := by omega
  unfold scanChunk
  rw [hn, scanLoop_step_start _ _ _ _ _ h0 h]
  generalize (startCodeAt l 0).2 = k at hb hk ⊢
  have htl : (l.take k).length = k := by
    rw [List.length_take]; omega
  have hidx : 0 + k - 1 + 1 = (l.take k).length + 0 := by
    rw [htl]; omega
  have hshift := scanLoop_shift clock (l.take k) (l.drop k) n 0 (startNewNal clock s)
  rw [List.take_append_drop] at hshift
  rw [hidx, hshift]
  simp only []
  rw [scanLoop_fuel clock (l.drop k) n (l.drop k).length 0 _ (by rw [List.length_drop]; omega)
    (by omega)]

/-- No start code at the head of the bytes: the head byte is accumulated and
the scan goes on with the next byte. -/
theorem scanChunk_plain (clock : Nat → Nat) (s : ScanRun) (b : Nat) (t : List Nat)
    (h : (startCodeAt (b :: t) 0).1 = false) :
    scanChunk clock s (b :: t) = scanChunk clock (accumulateByte s b) t := by
  have h0 : 0 < (b :: t).length := by simp
  unfold scanChunk
  rw [List.length_cons, scanLoop_step_plain _ _ _ _ _ h0 h, List.getD_cons_zero]
  have hshift := scanLoop_shift clock [b] t t.length 0 (accumulateByte s b)
  rw [List.singleton_append] at hshift
  rw [show (0 : Nat) + 1 = [b].length + 0 by rfl, hshift]

theorem startCodeAt_three (x : Nat) (t : List Nat) :
    startCodeAt (0 :: 0 :: 1 :: x :: t) 0 = (true, 3) := by
  simp [startCodeAt]

theorem startCodeAt_four (x : Nat) (t : List Nat) :
    startCodeAt (0 :: 0 :: 0 :: 1 :: x :: t) 0 = (true, 4) := by
  simp [startCodeAt]

/-- The start code of a unit followed by a non-empty payload is found, with
its own length. -/
theorem startCodeAt_unit (u : AnnexBUnit) (hp : u.payload ≠ []) (tail : List Nat) :
    startCodeAt (u.startCode ++ (u.payload ++ tail)) 0 = (true, u.startCode.length) := by
  obtain ⟨four, p⟩ := u
  cases p with
  | nil => exact absurd rfl hp
  | cons x t =>
    cases four
    · exact startCodeAt_three x (t ++ tail)
    · exact startCodeAt_four x (t ++ tail)

/-- What a found start code says about the bytes at the index. -/
theorem startCodeAt_found (l : List Nat) (i : Nat) (h : (startCodeAt l i).1 = true) :
    i + 3 < l.length ∧ l.getD i 0 = 0 ∧ l.getD (i + 1) 0 = 0 ∧
      (l.getD (i + 2) 0 = 1 ∨
        (i + 4 < l.length ∧ l.getD (i + 2) 0 = 0 ∧ l.getD (i + 3) 0 = 1)) := by
  unfold startCodeAt at h
  by_cases h1 : i + 3 < l.length ∧ l.getD i 0 = 0x00 ∧ l.getD (i + 1) 0 = 0x00
  · rw [if_pos h1] at h
    refine ⟨h1.1, h1.2.1, h1.2.2, ?_⟩
    by_cases h2 : l.getD (i + 2) 0 = 0x01
    · exact Or.inl h2
    · rw [if_neg h2] at h
      by_cases h3 : i + 4 < l.length ∧ l.getD (i + 2) 0 = 0x00 ∧ l.getD (i + 3) 0 = 0x01
      · exact Or.inr h3
      · rw [if_neg h3] at h
        exact Bool.noConfusion h
  · rw [if_neg h1] at h
    exact Bool.noConfusion h

/-- Inside a payload nothing is taken for a start code, provided the payload
holds no `00 00 01` and is the end of the bytes, or does not end in `00`, or is
followed by three zero bytes. -/
theorem startCodeAt_payload (p tail : List Nat) (hp : p ≠ [])
    (hno : ¬ [0x00, 0x00, 0x01] <:+: p)
    (hlast : tail = [] ∨ p.getLast? ≠ some 0x00 ∨ ∃ rest, tail = 0x00 :: 0x00 :: 0x00 :: rest) :
    (startCodeAt (p ++ tail) 0).1 = false := by
  by_contra hcon
  have hfound : (startCodeAt (p ++ tail) 0).1 = true := by simpa using hcon
  obtain ⟨hlen, g0, g1, g23⟩ := startCodeAt_found _ _ hfound
  match p, hp, hno, hlast with
  | [a], _, _, hl =>
    rcases hl with rfl | hl | ⟨rest, rfl⟩
    · simp at hlen
    · simp only [List.getLast?_singleton, ne_eq, Option.some.injEq] at hl
      simp only [List.singleton_append, List.getD_cons_zero] at g0
      exact hl g0
    · simp only [List.cons_append, List.nil_append, List.getD_cons_succ, List.getD_cons_zero,
        Nat.zero_add] at g23
      rcases g23 with g2 | ⟨_, _, g3⟩
      · exact absurd g2 (by decide)
      · exact absurd g3 (by decide)
  | [a, b], _, _, hl =>
    rcases hl with rfl | hl | ⟨rest, rfl⟩
    · simp at hlen
    · simp only [List.getLast?_cons_cons, List.getLast?_singleton, ne_eq,
        Option.some.injEq] at hl
      simp only [List.cons_append, List.getD_cons_succ, List.getD_cons_zero, Nat.zero_add] at g1
      exact hl g1
    · simp only [List.cons_append, List.nil_append, List.getD_cons_succ, List.getD_cons_zero,
        Nat.zero_add] at g23
      rcases g23 with g2 | ⟨_, _, g3⟩
      · exact absurd g2 (by decide)
      · exact absurd g3 (by decide)
  | [a, b, c], _, hno, hl =>
    simp only [List.cons_append, List.getD_cons_succ, List.getD_cons_zero, Nat.zero_add] at g0 g1
    rcases hl with rfl | hl | ⟨rest, rfl⟩
    · simp at hlen
    · simp only [List.cons_append, List.getD_cons_succ, List.getD_cons_zero,
        Nat.zero_add] at g23
      rcases g23 with g2 | ⟨_, g2, _⟩
      · subst g0 g1 g2
        exact hno (List.infix_refl _)
      · simp only [List.getLast?_cons_cons, List.getLast?_singleton, ne_eq,
          Option.some.injEq] at hl
        exact hl g2
    · simp only [List.cons_append, List.nil_append, List.getD_cons_succ, List.getD_cons_zero,
        Nat.zero_add] at g23
      rcases g23 with g2 | ⟨_, _, g3⟩
      · subst g0 g1 g2
        exact hno (List.infix_refl _)
      · exact absurd g3 (by decide)
  | a :: b :: c :: d :: t, _, hno, _ =>
    simp only [List.cons_append, List.getD_cons_succ, List.getD_cons_zero, Nat.zero_add] at g0 g1 g23
    rcases g23 with g2 | ⟨_, g2, g3⟩
    · subst g0 g1 g2
      exact hno ⟨[], d :: t, rfl⟩
    · subst g1 g2 g3
      exact hno ⟨[a], t, rfl⟩

theorem scanChunk_payload (clock : Nat → Nat) (tail : List Nat) (p : List Nat) :
    p ≠ [] → ¬ [0x00, 0x00, 0x01] <:+: p →
      (tail = [] ∨ p.getLast? ≠ some 0x00 ∨ ∃ rest, tail = 0x00 :: 0x00 :: 0x00 :: rest) →
      ∀ s : ScanRun,
        scanChunk clock s (p ++ tail) = scanChunk clock (p.foldl accumulateByte s) tail := by
  induction p with
  | nil => intro h; exact absurd rfl h
  | cons b t ih =>
    intro hp hno hlast s
    have hplain := startCodeAt_payload (b :: t) tail hp hno hlast
    rw [List.cons_append] at hplain ⊢
    rw [scanChunk_plain clock s b (t ++ tail) hplain]
    cases t with
    | nil => rfl
    | cons b' t' =>
      have hno' : ¬ [0x00, 0x00, 0x01] <:+: (b' :: t') := by
        intro h
        exact hno (List.infix_cons h)
      have hlast' : tail = [] ∨ (b' :: t').getLast? ≠ some 0x00 ∨
          ∃ rest, tail = 0x00 :: 0x00 :: 0x00 :: rest := by
        rcases hlast with h | h | h
        · exact Or.inl h
        · right; left
          rwa [List.getLast?_cons_cons] at h
        · exact Or.inr (Or.inr h)
      rw [ih (by simp) hno' hlast' (accumulateByte s b)]
      rfl

theorem bytesOf_length (a : Nat → Nat) (n : Int) : (bytesOf a n).length = n.toNat := by
  simp [bytesOf]

theorem bytesOf_update_succ (a : Nat → Nat) (n : Int) (hn : 0 ≤ n) (b : Nat) :
    bytesOf (Function.update a n.toNat b) (n + 1) = bytesOf a n ++ [b] := by
  unfold bytesOf
  have e : (n + 1).toNat = n.toNat + 1 := by omega
  rw [e, List.range_succ, List.map_append]
  congr 1
  · apply List.map_congr_left
    intro j hj
    have : j < n.toNat := List.mem_range.mp hj
    rw [Function.update_noteq (by omega)]
  · simp only [List.map_cons, List.map_nil, Function.update_same]

theorem take_take_append {α : Type} (M : Nat) (l p : List α) :
    (l.take M ++ p).take M = (l ++ p).take M := by
  by_cases h : l.length ≤ M
  · rw [List.take_of_length_le h]
  · have h' : M ≤ l.length := by omega
    have e1 : (l.take M).length = M := by rw [List.length_take]; omega
    rw [List.take_append_of_le_length (by omega), List.take_take, Nat.min_self,
      List.take_append_of_le_length h']

theorem accumulateByte_open (s : ScanRun) (hs : ScanOpen s) (b : Nat) :
    ScanOpen (accumulateByte s b) ∧ (accumulateByte s b).writes = s.writes ∧
      (accumulateByte s b).accumulated
        = (s.accumulated ++ [b]).take USB_CAMERA_MAX_NAL_SIZE.toNat := by
  obtain ⟨h1, h2, h3⟩ := hs
  unfold accumulateByte
  by_cases hlt : s.scan.iAccumulatedSize < USB_CAMERA_MAX_NAL_SIZE
  · rw [if_pos ⟨h1, hlt⟩]
    refine ⟨⟨h1, by simp only []; omega, by simp only []; omega⟩, rfl, ?_⟩
    unfold ScanRun.accumulated
    simp only []
    rw [bytesOf_update_succ _ _ h2, List.take_of_length_le]
    rw [List.length_append, bytesOf_length, List.length_singleton]
    omega
  · rw [if_neg (by intro h; exact hlt h.2)]
    refine ⟨⟨h1, h2, h3⟩, rfl, ?_⟩
    unfold ScanRun.accumulated
    have hlen : (bytesOf s.scan.uAccumulatedBuffer s.scan.iAccumulatedSize).length
        = USB_CAMERA_MAX_NAL_SIZE.toNat := by
      rw [bytesOf_length]; omega
    rw [List.take_append_of_le_length (by omega), List.take_of_length_le (by omega)]

theorem accumulate_payload (p : List Nat) :
    ∀ s : ScanRun, ScanOpen s →
      ScanOpen (p.foldl accumulateByte s) ∧ (p.foldl accumulateByte s).writes = s.writes ∧
        (p.foldl accumulateByte s).accumulated
          = (s.accumulated ++ p).take USB_CAMERA_MAX_NAL_SIZE.toNat := by
  induction p with
  | nil =>
    intro s hs
    refine ⟨hs, rfl, ?_⟩
    simp only [List.foldl_nil, List.append_nil]
    rw [List.take_of_length_le]
    unfold ScanRun.accumulated
    rw [bytesOf_length]
    have := hs.size_hi
    omega
  | cons b t ih =>
    intro s hs
    obtain ⟨a1, a2, a3⟩ := accumulateByte_open s hs b
    obtain ⟨i1, i2, i3⟩ := ih (accumulateByte s b) a1
    refine ⟨i1, i2.trans a2, ?_⟩
    simp only [List.foldl_cons]
    rw [i3, a3, take_take_append, List.append_assoc, List.singleton_append]

theorem startNewNal_open (clock : Nat → Nat) (s : ScanRun) :
    ScanOpen (startNewNal clock s) ∧ (startNewNal clock s).writes = saveOnStartCode clock s ∧
      (startNewNal clock s).accumulated = [0x00, 0x00, 0x00, 0x01] := by
  exact ⟨⟨rfl, show (0 : Int) ≤ 4 by decide, show (4 : Int) ≤ USB_CAMERA_MAX_NAL_SIZE by decide⟩,
    rfl, rfl⟩

theorem accumulated_getD_four (s : ScanRun) (h : 4 < s.scan.iAccumulatedSize) :
    s.accumulated.getD 4 0 = s.scan.uAccumulatedBuffer 4 := by
  unfold ScanRun.accumulated bytesOf
  have h4 : 4 < (List.map s.scan.uAccumulatedBuffer
      (List.range s.scan.iAccumulatedSize.toNat)).length := by
    rw [List.length_map, List.length_range]; omega
  rw [List.getD_eq_getElem _ _ h4]
  simp

/-- The scanner state after the start code and the payload of one unit. -/
theorem unit_scanned (clock : Nat → Nat) (s : ScanRun) (u : AnnexBUnit) (hp : u.payload ≠ []) :
    ScanOpen (u.payload.foldl accumulateByte (startNewNal clock s)) ∧
      (u.payload.foldl accumulateByte (startNewNal clock s)).writes = saveOnStartCode clock s ∧
      (u.payload.foldl accumulateByte (startNewNal clock s)).accumulated = u.nal.1 ∧
      4 < (u.payload.foldl accumulateByte (startNewNal clock s)).scan.iAccumulatedSize ∧
      (u.payload.foldl accumulateByte (startNewNal clock s)).scan.uAccumulatedBuffer 4 &&& 0x1F
        = u.nal.2 := by
  obtain ⟨o1, o2, o3⟩ := startNewNal_open clock s
  obtain ⟨a1, a2, a3⟩ := accumulate_payload u.payload _ o1
  rw [o3] at a3
  have hacc : (u.payload.foldl accumulateByte (startNewNal clock s)).accumulated = u.nal.1 := by
    rw [a3]
    unfold AnnexBUnit.nal
    simp only []
    rw [List.take_append_eq_append_take]
    congr 1
  obtain ⟨x, t, hxt⟩ : ∃ x t, u.payload = x :: t := by
    cases hu : u.payload with
    | nil => exact absurd hu hp
    | cons x t => exact ⟨x, t, rfl⟩
  have hlen : (u.payload.foldl accumulateByte (startNewNal clock s)).accumulated.length
      = (u.payload.foldl accumulateByte (startNewNal clock s)).scan.iAccumulatedSize.toNat :=
    bytesOf_length _ _
  have hsize : 4 < (u.payload.foldl accumulateByte (startNewNal clock s)).scan.iAccumulatedSize := by
    have hnl : u.nal.1.length = 4 + min (USB_CAMERA_MAX_NAL_SIZE.toNat - 4) u.payload.length := by
      unfold AnnexBUnit.nal
      simp only [List.length_append, List.length_take, List.length_cons, List.length_nil]
    have hpl : 1 ≤ u.payload.length := by rw [hxt]; simp
    have hM : USB_CAMERA_MAX_NAL_SIZE.toNat = 131072 := by decide
    rw [hacc, hnl, hM] at hlen
    omega
  refine ⟨a1, a2.trans o2, hacc, hsize, ?_⟩
  rw [← accumulated_getD_four _ hsize, hacc]
  unfold AnnexBUnit.nal
  simp only [hxt]
  have hM : USB_CAMERA_MAX_NAL_SIZE.toNat - 4 = 131067 + 1 := by decide
  rw [hM, List.take_succ_cons]
  rfl

theorem saveOnStartCode_open (clock : Nat → Nat) (s : ScanRun) (h1 : s.scan.bInNAL = true)
    (h2 : 4 < s.scan.iAccumulatedSize) :
    (saveOnStartCode clock s).map WriteCall.nal =
      s.writes.map WriteCall.nal ++ [(s.accumulated, s.scan.uAccumulatedBuffer 4 &&& 0x1F)] := by
  unfold saveOnStartCode
  rw [if_pos ⟨h1, h2⟩]
  simp only [List.map_append, List.map_cons, List.map_nil]
  rfl

theorem scanFlush_open (clock : Nat → Nat) (s : ScanRun) (h1 : s.scan.bInNAL = true)
    (h2 : 4 < s.scan.iAccumulatedSize) :
    (scanFlush clock s).writes.map WriteCall.nal =
      s.writes.map WriteCall.nal ++ [(s.accumulated, s.scan.uAccumulatedBuffer 4 &&& 0x1F)] := by
  unfold scanFlush
  rw [if_pos ⟨h1, h2⟩]
  simp only [List.map_append, List.map_cons, List.map_nil]
  rfl

/-- The scan of a stream of start-code-delimited units: the units before the
last one have been handed to the ring, the last one is held open. -/
theorem scanChunk_units (clock : Nat → Nat) (us : List AnnexBUnit) :
    ∀ (u : AnnexBUnit) (s : ScanRun), StartCodeDelimited (u :: us) →
      (scanChunk clock s (annexBStream (u :: us))).scan.bInNAL = true ∧
        4 < (scanChunk clock s (annexBStream (u :: us))).scan.iAccumulatedSize ∧
        ((scanChunk clock s (annexBStream (u :: us))).accumulated,
          (scanChunk clock s (annexBStream (u :: us))).scan.uAccumulatedBuffer 4 &&& 0x1F)
          = ((u :: us).getLast (List.cons_ne_nil _ _)).nal ∧
        (scanChunk clock s (annexBStream (u :: us))).writes.map WriteCall.nal =
          (saveOnStartCode clock s).map WriteCall.nal ++ ((u :: us).dropLast).map AnnexBUnit.nal := by
  induction us with
  | nil =>
    intro u s hd
    obtain ⟨hp, hno⟩ := hd
    have hstart := startCodeAt_unit u hp []
    have hscan : scanChunk clock s (annexBStream [u])
        = u.payload.foldl accumulateByte (startNewNal clock s) := by
      unfold annexBStream annexBStream
      rw [scanChunk_start clock s _ (by rw [hstart]), hstart]
      simp only [List.drop_left]
      rw [scanChunk_payload clock [] u.payload hp hno (Or.inl rfl), scanChunk_nil]
    rw [hscan]
    obtain ⟨q1, q2, q3, q4, q5⟩ := unit_scanned clock s u hp
    refine ⟨q1.in_nal, q4, ?_, ?_⟩
    · simp only [List.getLast_singleton]
      rw [q3, q5]
    · simp only [List.dropLast_single, List.map_nil, List.append_nil]
      rw [q2]
  | cons v rest ih =>
    intro u s hd
    obtain ⟨hp, hno, hlast, hrest⟩ := hd
    have hstart := startCodeAt_unit u hp (annexBStream (v :: rest))
    have hscan : scanChunk clock s (annexBStream (u :: v :: rest))
        = scanChunk clock (u.payload.foldl accumulateByte (startNewNal clock s))
            (annexBStream (v :: rest)) := by
      conv_lhs => unfold annexBStream
      rw [scanChunk_start clock s _ (by rw [hstart]), hstart]
      simp only [List.drop_left]
      have hlast' : annexBStream (v :: rest) = [] ∨ u.payload.getLast? ≠ some 0x00 ∨
          ∃ r, annexBStream (v :: rest) = 0x00 :: 0x00 :: 0x00 :: r := by
        rcases hlast with h | h
        · exact Or.inr (Or.inl h)
        · right; right
          unfold annexBStream AnnexBUnit.startCode
          rw [if_pos h]
          exact ⟨_, rfl⟩
      rw [scanChunk_payload clock _ u.payload hp hno hlast']
    rw [hscan]
    obtain ⟨q1, q2, q3, q4, q5⟩ := unit_scanned clock s u hp
    obtain ⟨i1, i2, i3, i4⟩ := ih v (u.payload.foldl accumulateByte (startNewNal clock s)) hrest
    refine ⟨i1, i2, ?_, ?_⟩
    · rw [i3]
      simp only [List.getLast_cons (List.cons_ne_nil v rest)]
    · rw [i4, saveOnStartCode_open clock _ q1.in_nal q4, q2, q3, q5]
      simp only [List.dropLast_cons₂, List.map_cons, List.append_assoc, List.singleton_append]

theorem captureThreadWrites_units (clock : Nat → Nat) (stack : Nat → Nat) (us : List AnnexBUnit)
    (hd : StartCodeDelimited us) :
    (captureThreadWrites clock stack [annexBStream us]).map WriteCall.nal
      = us.map AnnexBUnit.nal := by
  cases us with
  | nil => rfl
  | cons u rest =>
    obtain ⟨h1, h2, h3, h4⟩ := scanChunk_units clock rest u (scanStart stack) hd
    unfold captureThreadWrites
    simp only [List.foldl_cons, List.foldl_nil]
    rw [scanFlush_open clock _ h1 h2, h3, h4]
    have hsave : saveOnStartCode clock (scanStart stack) = [] := rfl
    rw [hsave, List.map_nil, List.nil_append]
    conv_rhs => rw [← List.dropLast_append_getLast (List.cons_ne_nil u rest)]
    rw [List.map_append, List.map_cons, List.map_nil]

theorem testUnits_delimited : StartCodeDelimited testUnits := by
  unfold testUnits StartCodeDelimited StartCodeDelimited StartCodeDelimited StartCodeDelimited
  decide

/-- C6: fed as one chunk from the initial state and followed by the flush, the
32-byte test stream yields exactly four NALs, of types 7, 8, 5, 1 in that
order, each starting with `00 00 00 01` and carrying its own payload (the NAL
behind the 3-byte start code comes out as `00 00 00 01 65 88 84 00 FF`). In
general, a chunk of start-code-delimited NALs (every payload non-empty and free
of `00 00 01`, none ending in `00` right before a 3-byte start code) yields one
NAL per start code, in stream order: the canonical start code, then the payload
(up to the accumulator size), with the type of the payload's header byte. -/
theorem scanner_emits_one_nal_per_start_code (clock : Nat → Nat) (stack : Nat → Nat)
    (us : List AnnexBUnit) :
    (captureThreadWrites clock stack [testStream]).map WriteCall.nal =
        [([0x00, 0x00, 0x00, 0x01, 0x67, 0x42, 0x00, 0x1e], 7),
         ([0x00, 0x00, 0x00, 0x01, 0x68, 0xce, 0x38, 0x80], 8),
         ([0x00, 0x00, 0x00, 0x01, 0x65, 0x88, 0x84, 0x00, 0xff], 5),
         ([0x00, 0x00, 0x00, 0x01, 0x41, 0x9a, 0x00, 0x00], 1)] ∧
      (StartCodeDelimited us →
        (captureThreadWrites clock stack [annexBStream us]).map WriteCall.nal
            = us.map AnnexBUnit.nal ∧
          (captureThreadWrites clock stack [annexBStream us]).length = us.length) := by
  constructor
  · have h := captureThreadWrites_units clock stack testUnits testUnits_delimited
    have hs : annexBStream testUnits = testStream := by decide
    rw [hs] at h
    rw [h]
    decide
  · intro hd
    have h := captureThreadWrites_units clock stack us hd
    refine ⟨h, ?_⟩
    have := congrArg List.length h
    simpa using this

/-- C6 on the four units of the 32-byte test stream. -/
theorem scanner_emits_one_nal_per_start_code_witness :
    StartCodeDelimited testUnits ∧
      (captureThreadWrites zeroClock zeroStack [testStream]).map WriteCall.nal =
        [([0x00, 0x00, 0x00, 0x01, 0x67, 0x42, 0x00, 0x1e], 7),
         ([0x00, 0x00, 0x00, 0x01, 0x68, 0xce, 0x38, 0x80], 8),
         ([0x00, 0x00, 0x00, 0x01, 0x65, 0x88, 0x84, 0x00, 0xff], 5),
         ([0x00, 0x00, 0x00, 0x01, 0x41, 0x9a, 0x00, 0x00], 1)] ∧
      (captureThreadWrites zeroClock zeroStack [annexBStream testUnits]).map WriteCall.nal
        = testUnits.map AnnexBUnit.nal ∧
      (captureThreadWrites zeroClock zeroStack [annexBStream testUnits]).length
        = testUnits.length :=
  ⟨testUnits_delimited,
    (scanner_emits_one_nal_per_start_code zeroClock zeroStack testUnits).1,
    (scanner_emits_one_nal_per_start_code zeroClock zeroStack testUnits).2 testUnits_delimited⟩

/-! ### Ring invariants and encoder command line (proofs) -/

/-- C14: in every ring state reachable from `_ring_buffer_init` by
`_ring_buffer_write`, `_ring_buffer_read` and `_ring_buffer_clear` calls,
`0 <= iCount <= 8` and both `iWriteIndex` and `iReadIndex` lie in `[0, 8)`. -/
theorem reachable_ring_indices_in_range (r : usb_ring_buffer_t) (h : RingReachable r) :
    0 ≤ r.iCount ∧ r.iCount ≤ USB_CAMERA_RING_BUFFER_COUNT ∧
      USB_CAMERA_RING_BUFFER_COUNT = 8 ∧
      0 ≤ r.iWriteIndex ∧ r.iWriteIndex < 8 ∧ 0 ≤ r.iReadIndex ∧ r.iReadIndex < 8 := by
  obtain ⟨rl, rh, cl, ch, we, -⟩ := RingReachable_wf h
  refine ⟨cl, ch, rfl, ?_, ?_, rl, rh⟩
  · omega
  · omega

/-- C14 on the full ring holding `P0 .. P7`. -/
theorem reachable_ring_indices_in_range_witness :
    RingReachable fullTestRing ∧
      0 ≤ fullTestRing.iCount ∧ fullTestRing.iCount ≤ USB_CAMERA_RING_BUFFER_COUNT ∧
      USB_CAMERA_RING_BUFFER_COUNT = 8 ∧
      0 ≤ fullTestRing.iWriteIndex ∧ fullTestRing.iWriteIndex < 8 ∧
      0 ≤ fullTestRing.iReadIndex ∧ fullTestRing.iReadIndex < 8 :=
  ⟨RingReachable_writeAll _ _ (RingReachable.init zeroRing),
    reachable_ring_indices_in_range fullTestRing
      (RingReachable_writeAll _ _ (RingReachable.init zeroRing))⟩

/-- C15 (as amended): in every reachable ring state
`(iWriteIndex - iReadIndex) mod 8` equals `iCount mod 8`: it equals `iCount`
while the ring holds fewer than 8 records, and the two indices coincide when
the ring is full. -/
theorem reachable_ring_index_distance (r : usb_ring_buffer_t) (h : RingReachable r) :
    (r.iWriteIndex - r.iReadIndex) % 8 = r.iCount % 8 ∧
      (r.iCount < 8 → (r.iWriteIndex - r.iReadIndex) % 8 = r.iCount) ∧
      (r.iCount = 8 → r.iWriteIndex = r.iReadIndex ∧ (r.iWriteIndex - r.iReadIndex) % 8 = 0) := by
  obtain ⟨rl, rh, cl, ch, we, -⟩ := RingReachable_wf h
  refine ⟨by omega, ?_, ?_⟩
  · intro hc; omega
  · intro hc; constructor <;> omega

/-- C15 (as amended) on the ring holding `P0 P1 P2`. -/
theorem reachable_ring_index_distance_witness :
    RingReachable threeTestRing ∧
      (threeTestRing.iWriteIndex - threeTestRing.iReadIndex) % 8 = threeTestRing.iCount % 8 ∧
      (threeTestRing.iCount < 8 →
        (threeTestRing.iWriteIndex - threeTestRing.iReadIndex) % 8 = threeTestRing.iCount) ∧
      (threeTestRing.iCount = 8 →
        threeTestRing.iWriteIndex = threeTestRing.iReadIndex ∧
          (threeTestRing.iWriteIndex - threeTestRing.iReadIndex) % 8 = 0) :=
  ⟨RingReachable_writeAll _ _ (RingReachable.init zeroRing),
    reachable_ring_index_distance threeTestRing
      (RingReachable_writeAll _ _ (RingReachable.init zeroRing))⟩

/-- C15 (counterexample): the ring reached by eight writes is full, with both
indices at 0, so `(iWriteIndex - iReadIndex) mod 8` is 0 while `iCount` is 8. -/
theorem full_ring_index_distance_is_zero :
    RingReachable fullTestRing ∧ fullTestRing.iCount = 8 ∧
      (fullTestRing.iWriteIndex - fullTestRing.iReadIndex) % 8 = 0 ∧
      (fullTestRing.iWriteIndex - fullTestRing.iReadIndex) % 8 ≠ fullTestRing.iCount :=
  ⟨RingReachable_writeAll _ _ (RingReachable.init zeroRing), by decide, by decide, by decide⟩

theorem int32_of_fits (x : Int) (h : -(2 ^ 31) ≤ x ∧ x < 2 ^ 31) : int32 x = x := by
  unfold int32
  have h1 : (-(2 ^ 31) : Int) = -2147483648 := by norm_num
  have h2 : ((2 : Int) ^ 31) = 2147483648 := by norm_num
  rw [h1, h2] at h
  omega

theorem encoderFPS_pos (g_pCurrentModel : Option video_params_t) :
    0 < encoderFPS g_pCurrentModel := by
  unfold encoderFPS
  cases g_pCurrentModel with
  | none => decide
  | some p =>
    simp only []
    split
    · assumption
    · decide

theorem keyframeFrames_of_small (kf fps : Int) (h : (int32 (kf * fps)).tdiv 1000 < 1) :
    keyframeFrames kf fps = int32 (fps * 2) := by
  unfold keyframeFrames
  simp only []
  rw [if_pos h]

theorem keyframeFrames_of_large (kf fps : Int) (h : ¬ (int32 (kf * fps)).tdiv 1000 < 1) :
    keyframeFrames kf fps = (int32 (kf * fps)).tdiv 1000 := by
  unfold keyframeFrames
  simp only []
  rw [if_neg h]

/-- C11 (as amended): for every keyframe period and every model, with `FPS`
the frame rate the encoder is started with (positive by construction) and
`keyframe_ms * FPS` fitting a 32-bit `int`, the keyframe length behind `-g`
and `-keyint_min` is `keyframe_ms * FPS / 1000` rounded down when
`keyframe_ms * FPS >= 1000`, and `FPS * 2` otherwise (`FPS * 2` fitting an
`int`), so in particular for every `keyframe_ms <= 0`. -/
theorem keyframe_frames_truncates_or_defaults (g_pCurrentModel : Option video_params_t)
    (s_uCurrentBitrate : Nat) (keyframe_ms : Int)
    (hfit : -(2 ^ 31) ≤ keyframe_ms * encoderFPS g_pCurrentModel ∧
      keyframe_ms * encoderFPS g_pCurrentModel < 2 ^ 31) :
    0 < encoderFPS g_pCurrentModel ∧
      (1000 ≤ keyframe_ms * encoderFPS g_pCurrentModel →
        keyframeFrames keyframe_ms (encoderFPS g_pCurrentModel)
          = keyframe_ms * encoderFPS g_pCurrentModel / 1000) ∧
      (keyframe_ms * encoderFPS g_pCurrentModel < 1000 →
        encoderFPS g_pCurrentModel * 2 < 2 ^ 31 →
        keyframeFrames keyframe_ms (encoderFPS g_pCurrentModel)
          = encoderFPS g_pCurrentModel * 2) ∧
      (keyframe_ms ≤ 0 → encoderFPS g_pCurrentModel * 2 < 2 ^ 31 →
        keyframeFrames keyframe_ms (encoderFPS g_pCurrentModel)
          = encoderFPS g_pCurrentModel * 2) ∧
      ((ffmpegArgv g_pCurrentModel s_uCurrentBitrate keyframe_ms).drop 23).take 4 =
        ["-g", toString (keyframeFrames keyframe_ms (encoderFPS g_pCurrentModel)),
         "-keyint_min", toString (keyframeFrames keyframe_ms (encoderFPS g_pCurrentModel))] := by
  have hfps := encoderFPS_pos g_pCurrentModel
  refine and_assoc.mp (and_assoc.mp (and_assoc.mp ⟨?_, rfl⟩))
  generalize encoderFPS g_pCurrentModel = fps at hfit hfps ⊢
  have hprod := int32_of_fits _ hfit
  have hdouble : fps * 2 < 2 ^ 31 → int32 (fps * 2) = fps * 2 := by
    intro h
    apply int32_of_fits
    refine ⟨?_, h⟩
    have h1 : (-(2 ^ 31) : Int) = -2147483648 := by norm_num
    rw [h1]
    omega
  have hsmall : keyframe_ms * fps < 1000 → fps * 2 < 2 ^ 31 →
      keyframeFrames keyframe_ms fps = fps * 2 := by
    intro h h2
    rw [keyframeFrames_of_small, hdouble h2]
    rw [hprod]
    by_cases h0 : 0 ≤ keyframe_ms * fps
    · rw [Int.tdiv_eq_zero_of_lt h0 h]; decide
    · have hneg : 0 ≤ -(keyframe_ms * fps) := by omega
      have := Int.tdiv_nonneg hneg (show (0 : Int) ≤ 1000 by decide)
      rw [Int.neg_tdiv] at this
      omega
  refine ⟨⟨⟨hfps, ?_⟩, hsmall⟩, ?_⟩
  · intro h
    have h0 : 0 ≤ keyframe_ms * fps := by omega
    have he : (keyframe_ms * fps).tdiv 1000 = keyframe_ms * fps / 1000 :=
      Int.tdiv_eq_ediv h0 (by decide)
    have h1 : ¬ (int32 (keyframe_ms * fps)).tdiv 1000 < 1 := by
      rw [hprod, he]; omega
    rw [keyframeFrames_of_large _ _ h1, hprod, he]
  · intro h
    apply hsmall
    have : keyframe_ms * fps ≤ 0 := Int.mul_nonpos_of_nonpos_of_nonneg h (le_of_lt hfps)
    omega

/-- C11 (as amended) at `keyframe_ms = 2000` and at `keyframe_ms = 10`, both
with a model of 1280x720 at 30 fps: 60 frames in both cases. -/
theorem keyframe_frames_truncates_or_defaults_witness :
    (-(2 ^ 31) ≤ (2000 : Int) * encoderFPS (some ⟨1280, 720, 30⟩) ∧
        (2000 : Int) * encoderFPS (some ⟨1280, 720, 30⟩) < 2 ^ 31) ∧
      keyframeFrames 2000 (encoderFPS (some ⟨1280, 720, 30⟩)) = 2000 * 30 / 1000 ∧
      keyframeFrames 10 (encoderFPS (some ⟨1280, 720, 30⟩)) = 30 * 2 ∧
      ((ffmpegArgv (some ⟨1280, 720, 30⟩) 4000000 2000).drop 23).take 4 =
        ["-g", "60", "-keyint_min", "60"] ∧
      ((ffmpegArgv (some ⟨1280, 720, 30⟩) 4000000 10).drop 23).take 4 =
        ["-g", "60", "-keyint_min", "60"] := by
  have h1 := keyframe_frames_truncates_or_defaults (some ⟨1280, 720, 30⟩) 4000000 2000
    (by decide)
  have h2 := keyframe_frames_truncates_or_defaults (some ⟨1280, 720, 30⟩) 4000000 10
    (by decide)
  exact ⟨by decide, h1.2.1 (by decide), h2.2.2.1 (by decide) (by decide), by decide, by decide⟩

/-- C11 (counterexample): at `keyframe_ms = 10`, `FPS = 30` the code yields 60
frames where the stated formula gives `max(1, round(0.3)) = 1`; at
`keyframe_ms = 1600`, `FPS = 1` the code yields 1 where the stated formula
gives `round(1.6) = 2`; the encoder arguments carry these values. -/
theorem keyframe_frames_differs_from_rounding :
    keyframeFrames 10 30 = 60 ∧ specKeyframeFrames 10 30 = 1 ∧
      keyframeFrames 1600 1 = 1 ∧ specKeyframeFrames 1600 1 = 2 ∧
      keyframeFrames 10 30 ≠ specKeyframeFrames 10 30 ∧
      keyframeFrames 1600 1 ≠ specKeyframeFrames 1600 1 ∧
      ((ffmpegArgv (some ⟨1280, 720, 30⟩) 4000000 10).drop 23).take 4 =
        ["-g", "60", "-keyint_min", "60"] ∧
      ((ffmpegArgv (some ⟨1280, 720, 1⟩) 4000000 1600).drop 23).take 4 =
        ["-g", "1", "-keyint_min", "1"] := by
  decide

/-- C12: for every model configuration, bitrate and keyframe period, the
arguments `_start_ffmpeg_process` hands to `execlp` after the program name are
the documented sequence, with the decimal bitrate in the three rate fields, the
keyframe length in both keyframe fields, and width, height and frame rate taken
from the model when positive and otherwise 1280, 720 and 30. With 1280x720 at
30 fps, bitrate 4000000 and keyframe period 2000 ms the list reads
`1280x720`, `ultrafast`, `zerolatency`, `-b:v 4000000`, `-g 60`,
`-keyint_min 60`. The keyframe length is the 32-bit value the code computes:
with a keyframe period of 100000000 ms at 30 fps the product leaves the `int`
range and both keyframe fields read `60`. -/
theorem ffmpeg_arguments_are_documented (g_pCurrentModel : Option video_params_t)
    (s_uCurrentBitrate : Nat) (s_iCurrentKeyframeMs : Int) :
    ffmpegArgv g_pCurrentModel s_uCurrentBitrate s_iCurrentKeyframeMs =
        "ffmpeg" ::
          documentedArguments (toString (encoderWidth g_pCurrentModel))
            (toString (encoderHeight g_pCurrentModel)) (toString (encoderFPS g_pCurrentModel))
            "/dev/video0" (toString s_uCurrentBitrate)
            (toString (keyframeFrames s_iCurrentKeyframeMs (encoderFPS g_pCurrentModel))) ∧
      (encoderWidth g_pCurrentModel, encoderHeight g_pCurrentModel, encoderFPS g_pCurrentModel) =
        (match g_pCurrentModel with
          | none => (1280, 720, 30)
          | some p =>
            (if p.iVideoWidth > 0 then p.iVideoWidth else 1280,
             if p.iVideoHeight > 0 then p.iVideoHeight else 720,
             if p.iVideoFPS > 0 then p.iVideoFPS else 30)) ∧
      ffmpegArgv (some ⟨1280, 720, 30⟩) 4000000 2000 =
        ["ffmpeg", "-f", "v4l2", "-input_format", "mjpeg", "-video_size", "1280x720",
         "-framerate", "30", "-i", "/dev/video0", "-c:v", "libx264", "-preset", "ultrafast",
         "-tune", "zerolatency", "-b:v", "4000000", "-maxrate", "4000000",
         "-bufsize", "4000000", "-g", "60", "-keyint_min", "60", "-sc_threshold", "0",
         "-profile:v", "baseline", "-level", "4.0", "-pix_fmt", "yuv420p", "-f", "h264",
         "-"] ∧
      ((ffmpegArgv (some ⟨1280, 720, 30⟩) 4000000 100000000).drop 23).take 4 =
        ["-g", "60", "-keyint_min", "60"] := by
  refine ⟨rfl, ?_, by decide, by decide⟩
  cases g_pCurrentModel with
  | none => rfl
  | some p => rfl

/-! ### Clearing the input buffers and quiet health checks (proofs) -/

/-- After `video_source_usb_clear_input_buffers` the ring is empty: count and
both indices are 0, all eight slots are marked invalid and no record is
buffered. -/
theorem clear_input_buffers_empties_ring (m : ModuleState) :
    (video_source_usb_clear_input_buffers m).s_RingBuffer.iCount = 0 ∧
      (video_source_usb_clear_input_buffers m).s_RingBuffer.iReadIndex = 0 ∧
      (video_source_usb_clear_input_buffers m).s_RingBuffer.iWriteIndex = 0 ∧
      (∀ i : Nat, i < 8 →
        ((video_source_usb_clear_input_buffers m).s_RingBuffer.buffers i).bValid = false) ∧
      ringQueue (video_source_usb_clear_input_buffers m).s_RingBuffer = [] := by
  refine ⟨rfl, rfl, rfl, ?_, ringQueue_clear _⟩
  intro i hi
  have : (i : Int) < USB_CAMERA_RING_BUFFER_COUNT := by
    unfold USB_CAMERA_RING_BUFFER_COUNT; omega
  simp only [video_source_usb_clear_input_buffers, _ring_buffer_clear, this, if_true]

/-- C13 (failing input): the capture thread reads `00 00 00 01 65 AA`, the
controller calls `video_source_usb_clear_input_buffers`, the thread reads
`BB 00 00 01 41 9A`. Right after the call the ring is empty but the scanner
still holds the open NAL of 6 bytes; the NAL written next is
`00 00 00 01 65 AA BB`, whose bytes `65 AA` were received before the call. -/
theorem clear_input_buffers_keeps_open_nal :
    ringQueue (controllerClearsInputBuffers
        (captureThreadReads zeroClock startedTestSystem
          [0x00, 0x00, 0x00, 0x01, 0x65, 0xAA])).module.s_RingBuffer = [] ∧
      (controllerClearsInputBuffers
        (captureThreadReads zeroClock startedTestSystem
          [0x00, 0x00, 0x00, 0x01, 0x65, 0xAA])).thread.scan.bInNAL = true ∧
      (controllerClearsInputBuffers
        (captureThreadReads zeroClock startedTestSystem
          [0x00, 0x00, 0x00, 0x01, 0x65, 0xAA])).thread.scan.iAccumulatedSize = 6 ∧
      ringQueue clearedMidNalSystem.module.s_RingBuffer =
        [{ bytes := [0x00, 0x00, 0x00, 0x01, 0x65, 0xAA, 0xBB], size := 7, nal_type := 5,
           is_start_nal := true, is_end_nal := true, timestamp_ms := 0 }] := by
  decide

theorem health_not_error_eq (D : Nat) (env : Env) (m : ModuleState)
    (hs : m.s_USBCameraState ≠ USB_CAMERA_STATE_STOPPED)
    (he : m.s_USBCameraState ≠ USB_CAMERA_STATE_ERROR) :
    ∃ m1 : ModuleState,
      m1.s_USBCameraState = m.s_USBCameraState ∧
      m1.s_iFFMpegPid = m.s_iFFMpegPid ∧
      m1.s_iFFMpegPipeReadFd = m.s_iFFMpegPipeReadFd ∧
      m1.s_RingBuffer = m.s_RingBuffer ∧
      m1.s_bUSBCaptureThreadRunning = m.s_bUSBCaptureThreadRunning ∧
      m1.s_uCurrentBitrate = m.s_uCurrentBitrate ∧
      m1.s_iCurrentKeyframeMs = m.s_iCurrentKeyframeMs ∧
      m1.s_iConsecutiveReadErrors = m.s_iConsecutiveReadErrors ∧
      (m1.s_uTimeLastHealthCheck = m.s_uTimeLastHealthCheck ∨
        m1.s_uTimeLastHealthCheck = env.healthTimestamp) ∧
      (video_source_usb_periodic_health_checks D env m =
          (false, { m1 with s_USBCameraState := USB_CAMERA_STATE_ERROR }) ∨
        video_source_usb_periodic_health_checks D env m =
          (false, { m1 with s_USBCameraState := USB_CAMERA_STATE_DEVICE_LOST }) ∨
        video_source_usb_periodic_health_checks D env m = (true, m1)) ∧
      (HealthQuiet env m → video_source_usb_periodic_health_checks D env m = (true, m1)) := by
  have hstats : ∃ m0 : ModuleState,
      m0 = (if env.healthTimestamp > u32_add m.s_uDebugTimeLastUSBVideoInputCheck 5000 then
        ({ m with
          s_uDebugUSBInputBytes := 0
          s_uDebugUSBInputReads := 0
          s_uDebugTimeLastUSBVideoInputCheck := env.healthTimestamp } : ModuleState)
        else m) ∧
      m0.s_USBCameraState = m.s_USBCameraState ∧
      m0.s_iFFMpegPid = m.s_iFFMpegPid ∧
      m0.s_iFFMpegPipeReadFd = m.s_iFFMpegPipeReadFd ∧
      m0.s_RingBuffer = m.s_RingBuffer ∧
      m0.s_bUSBCaptureThreadRunning = m.s_bUSBCaptureThreadRunning ∧
      m0.s_uCurrentBitrate = m.s_uCurrentBitrate ∧
      m0.s_iCurrentKeyframeMs = m.s_iCurrentKeyframeMs ∧
      m0.s_iConsecutiveReadErrors = m.s_iConsecutiveReadErrors ∧
      m0.s_uTimeLastHealthCheck = m.s_uTimeLastHealthCheck := by
    refine ⟨_, rfl, ?_⟩
    split
    · exact ⟨rfl, rfl, rfl, rfl, rfl, rfl, rfl, rfl, rfl⟩
    · exact ⟨rfl, rfl, rfl, rfl, rfl, rfl, rfl, rfl, rfl⟩
  obtain ⟨m0, hm0, a1, a2, a3, a4, a5, a6, a7, a8, a9⟩ := hstats
  unfold video_source_usb_periodic_health_checks
  rw [if_neg hs]
  simp only []
  rw [← hm0]
  clear hm0
  rw [← a1, ← a2, ← a3, ← a4, ← a5, ← a6, ← a7, ← a8]
  have hq0 : HealthQuiet env m → HealthQuiet env m0 := by
    intro hq
    unfold HealthQuiet at hq ⊢
    rw [a2, a8, a9]
    exact hq
  suffices hsuff : ∃ m1 : ModuleState,
      m1.s_USBCameraState = m0.s_USBCameraState ∧
      m1.s_iFFMpegPid = m0.s_iFFMpegPid ∧
      m1.s_iFFMpegPipeReadFd = m0.s_iFFMpegPipeReadFd ∧
      m1.s_RingBuffer = m0.s_RingBuffer ∧
      m1.s_bUSBCaptureThreadRunning = m0.s_bUSBCaptureThreadRunning ∧
      m1.s_uCurrentBitrate = m0.s_uCurrentBitrate ∧
      m1.s_iCurrentKeyframeMs = m0.s_iCurrentKeyframeMs ∧
      m1.s_iConsecutiveReadErrors = m0.s_iConsecutiveReadErrors ∧
      (m1.s_uTimeLastHealthCheck = m0.s_uTimeLastHealthCheck ∨
        m1.s_uTimeLastHealthCheck = env.healthTimestamp) ∧
      ((if m0.s_USBCameraState = USB_CAMERA_STATE_ERROR then _ else _) =
          (false, { m1 with s_USBCameraState := USB_CAMERA_STATE_ERROR }) ∨
        (if m0.s_USBCameraState = USB_CAMERA_STATE_ERROR then _ else _) =
          (false, { m1 with s_USBCameraState := USB_CAMERA_STATE_DEVICE_LOST }) ∨
        (if m0.s_USBCameraState = USB_CAMERA_STATE_ERROR then _ else _) = (true, m1)) ∧
      (HealthQuiet env m0 → (if m0.s_USBCameraState = USB_CAMERA_STATE_ERROR then _ else _)
        = (true, m1)) by
    obtain ⟨m1, b1, b2, b3, b4, b5, b6, b7, b8, b9, b10, b11⟩ := hsuff
    exact ⟨m1, b1, b2, b3, b4, b5, b6, b7, b8, by rw [← a9]; exact b9, b10,
      fun hq => b11 (hq0 hq)⟩
  clear hq0
  have he0 : m0.s_USBCameraState ≠ USB_CAMERA_STATE_ERROR := by rw [a1]; exact he
  clear a1 a2 a3 a4 a5 a6 a7 a8 a9 hs he
  have a1 : m0.s_USBCameraState = m0.s_USBCameraState := rfl
  have a2 : m0.s_iFFMpegPid = m0.s_iFFMpegPid := rfl
  have a3 : m0.s_iFFMpegPipeReadFd = m0.s_iFFMpegPipeReadFd := rfl
  have a4 : m0.s_RingBuffer = m0.s_RingBuffer := rfl
  have a5 : m0.s_bUSBCaptureThreadRunning = m0.s_bUSBCaptureThreadRunning := rfl
  have a6 : m0.s_uCurrentBitrate = m0.s_uCurrentBitrate := rfl
  have a7 : m0.s_iCurrentKeyframeMs = m0.s_iCurrentKeyframeMs := rfl
  have a8 : m0.s_iConsecutiveReadErrors = m0.s_iConsecutiveReadErrors := rfl
  have a9 : m0.s_uTimeLastHealthCheck = m0.s_uTimeLastHealthCheck := rfl
  rw [if_neg he0]
  by_cases hw : m0.s_iFFMpegPid > 0 ∧ env.waitpidResult = m0.s_iFFMpegPid
  · rw [if_pos hw]
    refine ⟨m0, a1, a2, a3, a4, a5, a6, a7, a8, Or.inl a9, Or.inl rfl, ?_⟩
    intro hq
    rw [a2] at hw
    exact absurd hw hq.1
  · rw [if_neg hw]
    by_cases hdue : env.healthTimestamp > u32_add m0.s_uTimeLastHealthCheck 10000
    · have hd : decide (env.healthTimestamp > u32_add m0.s_uTimeLastHealthCheck 10000) = true :=
        decide_eq_true hdue
      simp only [hd, if_true, Bool.true_and]
      by_cases hp : _video_source_usb_check_device_available env = true
      · simp only [hp, Bool.not_true, Bool.false_eq_true, if_false]
        by_cases herr : m0.s_iConsecutiveReadErrors > 100
        · rw [if_pos herr]
          refine ⟨{ m0 with s_uTimeLastHealthCheck := env.healthTimestamp },
            a1, a2, a3, a4, a5, a6, a7, a8, Or.inr rfl, Or.inl rfl, ?_⟩
          intro hq
          have := hq.2.1
          rw [a8] at herr
          omega
        · rw [if_neg herr]
          exact ⟨{ m0 with s_uTimeLastHealthCheck := env.healthTimestamp },
            a1, a2, a3, a4, a5, a6, a7, a8, Or.inr rfl, Or.inr (Or.inr rfl), fun _ => rfl⟩
      · have hp' : _video_source_usb_check_device_available env = false := by simpa using hp
        simp only [hp', Bool.not_false, if_true]
        refine ⟨{ m0 with s_uTimeLastHealthCheck := env.healthTimestamp },
          a1, a2, a3, a4, a5, a6, a7, a8, Or.inr rfl, Or.inr (Or.inl rfl), ?_⟩
        intro hq
        rcases hq.2.2 with h | h
        · rw [a9] at hdue; exact absurd hdue h
        · rw [hp'] at h; exact Bool.noConfusion h
    · have hd : decide (env.healthTimestamp > u32_add m0.s_uTimeLastHealthCheck 10000) = false :=
        decide_eq_false hdue
      simp only [hd, Bool.false_eq_true, if_false, Bool.false_and]
      by_cases herr : m0.s_iConsecutiveReadErrors > 100
      · rw [if_pos herr]
        refine ⟨m0, a1, a2, a3, a4, a5, a6, a7, a8, Or.inl a9, Or.inl rfl, ?_⟩
        intro hq
        have := hq.2.1
        rw [a8] at herr
        omega
      · rw [if_neg herr]
        exact ⟨m0, a1, a2, a3, a4, a5, a6, a7, a8, Or.inl a9, Or.inr (Or.inr rfl), fun _ => rfl⟩

theorem health_quiet_step (D : Nat) (env : Env) (m : ModuleState)
    (he : m.s_USBCameraState ≠ USB_CAMERA_STATE_ERROR) (hq : HealthQuiet env m) :
    (video_source_usb_periodic_health_checks D env m).1 = true ∧
      (video_source_usb_periodic_health_checks D env m).2.s_USBCameraState
        = m.s_USBCameraState ∧
      (video_source_usb_periodic_health_checks D env m).2.s_iFFMpegPid = m.s_iFFMpegPid ∧
      (video_source_usb_periodic_health_checks D env m).2.s_iFFMpegPipeReadFd
        = m.s_iFFMpegPipeReadFd ∧
      (video_source_usb_periodic_health_checks D env m).2.s_RingBuffer = m.s_RingBuffer ∧
      (video_source_usb_periodic_health_checks D env m).2.s_bUSBCaptureThreadRunning
        = m.s_bUSBCaptureThreadRunning := by
  by_cases hs : m.s_USBCameraState = USB_CAMERA_STATE_STOPPED
  · unfold video_source_usb_periodic_health_checks
    rw [if_pos hs]
    exact ⟨rfl, rfl, rfl, rfl, rfl, rfl⟩
  · obtain ⟨m1, b1, b2, b3, b4, b5, -, -, -, -, -, b11⟩ := health_not_error_eq D env m hs he
    rw [b11 hq]
    exact ⟨rfl, b1, b2, b3, b4, b5⟩

theorem health_no_restart (D : Nat) (env : Env) (m : ModuleState)
    (he : m.s_USBCameraState ≠ USB_CAMERA_STATE_ERROR) :
    (video_source_usb_periodic_health_checks D env m).2.s_USBCameraState
        = m.s_USBCameraState ∨
      (video_source_usb_periodic_health_checks D env m).2.s_USBCameraState
        = USB_CAMERA_STATE_ERROR ∨
      (video_source_usb_periodic_health_checks D env m).2.s_USBCameraState
        = USB_CAMERA_STATE_DEVICE_LOST := by
  by_cases hs : m.s_USBCameraState = USB_CAMERA_STATE_STOPPED
  · unfold video_source_usb_periodic_health_checks
    rw [if_pos hs]
    exact Or.inl rfl
  · obtain ⟨m1, b1, -, -, -, -, -, -, -, -, b10, -⟩ := health_not_error_eq D env m hs he
    rcases b10 with h | h | h
    · rw [h]; exact Or.inr (Or.inl rfl)
    · rw [h]; exact Or.inr (Or.inr rfl)
    · rw [h]; exact Or.inl b1

theorem healthRun_quiet (D : Nat) (envs : List Env) :
    ∀ m : ModuleState, m.s_USBCameraState ≠ USB_CAMERA_STATE_ERROR → QuietRun D m envs →
      (healthRun D m envs).1 = List.replicate envs.length true ∧
        (healthRun D m envs).2.s_USBCameraState = m.s_USBCameraState ∧
        (healthRun D m envs).2.s_iFFMpegPid = m.s_iFFMpegPid ∧
        (healthRun D m envs).2.s_iFFMpegPipeReadFd = m.s_iFFMpegPipeReadFd ∧
        (healthRun D m envs).2.s_RingBuffer = m.s_RingBuffer ∧
        (healthRun D m envs).2.s_bUSBCaptureThreadRunning = m.s_bUSBCaptureThreadRunning := by
  induction envs with
  | nil => intro m _ _; exact ⟨rfl, rfl, rfl, rfl, rfl, rfl⟩
  | cons env envs ih =>
    intro m he hq
    obtain ⟨c1, c2, c3, c4, c5, c6⟩ := health_quiet_step D env m he hq.1
    obtain ⟨d1, d2, d3, d4, d5, d6⟩ :=
      ih (video_source_usb_periodic_health_checks D env m).2 (by rw [c2]; exact he) hq.2
    simp only [healthRun, List.length_cons, List.replicate_succ]
    refine ⟨?_, ?_, ?_, ?_, ?_, ?_⟩
    · rw [c1, d1]
    · rw [d2, c2]
    · rw [d3, c3]
    · rw [d4, c4]
    · rw [d5, c5]
    · rw [d6, c6]

/-- C19: the health check restarts the pipeline only in state ERROR. From a
module in state DEVICE_LOST, any sequence of health checks each finding the
encoder child not reaped as exited, at most 100 consecutive read errors and
the device probe not yet due or succeeding returns true every time and leaves
the state DEVICE_LOST with the encoder pid, pipe, ring and thread flag
untouched; `video_source_usb_read` then returns NULL with size 0 and changes
nothing. From any state other than ERROR a single health check never yields
RUNNING unless the state already was RUNNING. -/
theorem device_lost_is_never_restarted (D : Nat) (m : ModuleState) (envs : List Env)
    (hlost : m.s_USBCameraState = USB_CAMERA_STATE_DEVICE_LOST) (hq : QuietRun D m envs) :
    (healthRun D m envs).1 = List.replicate envs.length true ∧
      (healthRun D m envs).2.s_USBCameraState = USB_CAMERA_STATE_DEVICE_LOST ∧
      (healthRun D m envs).2.s_USBCameraState ≠ USB_CAMERA_STATE_RUNNING ∧
      (healthRun D m envs).2.s_iFFMpegPid = m.s_iFFMpegPid ∧
      (healthRun D m envs).2.s_iFFMpegPipeReadFd = m.s_iFFMpegPipeReadFd ∧
      (healthRun D m envs).2.s_RingBuffer = m.s_RingBuffer ∧
      (healthRun D m envs).2.s_bUSBCaptureThreadRunning = m.s_bUSBCaptureThreadRunning ∧
      (∀ (piReadSize : Option Int) (bAsync : Bool) (puOut : Option Nat),
        video_source_usb_read (healthRun D m envs).2 piReadSize bAsync puOut =
          { ret := none, readSize := piReadSize.map fun _ => (0 : Int),
            timeDataAvailable := puOut, state := (healthRun D m envs).2 }) ∧
      (∀ (env : Env) (m0 : ModuleState), m0.s_USBCameraState ≠ USB_CAMERA_STATE_ERROR →
        (video_source_usb_periodic_health_checks D env m0).2.s_USBCameraState
            = USB_CAMERA_STATE_RUNNING →
          m0.s_USBCameraState = USB_CAMERA_STATE_RUNNING) := by
  have he : m.s_USBCameraState ≠ USB_CAMERA_STATE_ERROR := by rw [hlost]; decide
  obtain ⟨d1, d2, d3, d4, d5, d6⟩ := healthRun_quiet D envs m he hq
  have hst : (healthRun D m envs).2.s_USBCameraState = USB_CAMERA_STATE_DEVICE_LOST := by
    rw [d2, hlost]
  have hnr : (healthRun D m envs).2.s_USBCameraState ≠ USB_CAMERA_STATE_RUNNING := by
    rw [hst]; decide
  refine ⟨d1, hst, hnr, d3, d4, d5, d6, ?_, ?_⟩
  · intro p b o
    exact read_not_running _ p b o hnr
  · intro env m0 h0 hrun
    rcases health_no_restart D env m0 h0 with h | h | h
    · rw [← h]; exact hrun
    · rw [h] at hrun; exact absurd hrun (by decide)
    · rw [h] at hrun; exact absurd hrun (by decide)

/-- C19 on a module that ran and lost its device, over three health checks:
one with the probe due and succeeding, one with the probe not yet due, one at
a later time with the probe due again. -/
theorem device_lost_is_never_restarted_witness :
    deviceLostModule.s_USBCameraState = USB_CAMERA_STATE_DEVICE_LOST ∧
      QuietRun 4000000 deviceLostModule
        [goodEnv, { goodEnv with healthTimestamp := 21000 },
          { goodEnv with healthTimestamp := 40000 }] ∧
      (healthRun 4000000 deviceLostModule
        [goodEnv, { goodEnv with healthTimestamp := 21000 },
          { goodEnv with healthTimestamp := 40000 }]).1 = [true, true, true] ∧
      (healthRun 4000000 deviceLostModule
        [goodEnv, { goodEnv with healthTimestamp := 21000 },
          { goodEnv with healthTimestamp := 40000 }]).2.s_USBCameraState
        = USB_CAMERA_STATE_DEVICE_LOST ∧
      (video_source_usb_read (healthRun 4000000 deviceLostModule
        [goodEnv, { goodEnv with healthTimestamp := 21000 },
          { goodEnv with healthTimestamp := 40000 }]).2 (some 0) true none).ret = none := by
  have hq : QuietRun 4000000 deviceLostModule
      [goodEnv, { goodEnv with healthTimestamp := 21000 },
        { goodEnv with healthTimestamp := 40000 }] := by
    unfold QuietRun QuietRun QuietRun QuietRun HealthQuiet
    decide
  have h := device_lost_is_never_restarted 4000000 deviceLostModule
    [goodEnv, { goodEnv with healthTimestamp := 21000 },
      { goodEnv with healthTimestamp := 40000 }] (by decide) hq
  refine ⟨by decide, hq, h.1, h.2.1, ?_⟩
  rw [h.2.2.2.2.2.2.2.1]

/-! ### Start-code recognition inside a chunk (proofs) -/

theorem startCodeAt_drop (C : List Nat) (i : Nat) (hi : i ≤ C.length) :
    startCodeAt C i = startCodeAt (C.drop i) 0 := by
  have h := startCodeAt_shift (C.take i) (C.drop i) 0
  rw [List.take_append_drop, List.length_take, Nat.min_eq_left hi, Nat.add_zero] at h
  exact h

theorem startCodeAt_head_three (D : List Nat) :
    startCodeAt D 0 = (true, 3) ↔ D.take 3 = [0x00, 0x00, 0x01] ∧ 3 < D.length := by
  rcases D with _ | ⟨a, _ | ⟨b, _ | ⟨c, _ | ⟨d, t⟩⟩⟩⟩
  · simp [startCodeAt]
  · simp [startCodeAt]
  · simp [startCodeAt]
  · simp [startCodeAt]
  · simp only [startCodeAt, List.length_cons, List.getD_cons_zero, List.getD_cons_succ,
      List.take_succ_cons, List.take_zero]
    by_cases ha : a = 0 <;> by_cases hb : b = 0 <;> by_cases hc : c = 1 <;>
      simp [ha, hb, hc]
    split <;> simp

theorem startCodeAt_head_four (D : List Nat) :
    startCodeAt D 0 = (true, 4) ↔ D.take 4 = [0x00, 0x00, 0x00, 0x01] ∧ 4 < D.length := by
  rcases D with _ | ⟨a, _ | ⟨b, _ | ⟨c, _ | ⟨d, _ | ⟨e, t⟩⟩⟩⟩⟩
  · simp [startCodeAt]
  · simp [startCodeAt]
  · simp [startCodeAt]
  · simp [startCodeAt]
  · simp [startCodeAt]
    intro h
    split at h
    · split at h <;> simp at h
    · simp at h
  · simp only [startCodeAt, List.length_cons, List.getD_cons_zero, List.getD_cons_succ,
      List.take_succ_cons, List.take_zero]
    by_cases ha : a = 0 <;> by_cases hb : b = 0 <;> by_cases hc : c = 1 <;>
      by_cases hc0 : c = 0 <;> by_cases hd : d = 1 <;>
      simp [ha, hb, hc, hc0, hd]

/-- C16 (counterexample): the chunks `00 00 01` and `00 00 00 01` hold a start
code pattern wholly inside the chunk at index 0 (`0 + 3 <= 3`, `0 + 4 <= 4`),
index 0 is visited by the loop, and no start code is recognised there; the
bytes go through the loop without opening a NAL. -/
theorem start_code_at_chunk_end_not_recognised :
    (([0x00, 0x00, 0x01] : List Nat).drop 0).take 3 = [0x00, 0x00, 0x01] ∧
      0 + 3 ≤ ([0x00, 0x00, 0x01] : List Nat).length ∧
      startCodeAt [0x00, 0x00, 0x01] 0 = (false, 0) ∧
      (([0x00, 0x00, 0x00, 0x01] : List Nat).drop 0).take 4 = [0x00, 0x00, 0x00, 0x01] ∧
      0 + 4 ≤ ([0x00, 0x00, 0x00, 0x01] : List Nat).length ∧
      startCodeAt [0x00, 0x00, 0x00, 0x01] 0 = (false, 0) ∧
      startCodeAt [0x00, 0x00, 0x00, 0x01] 1 = (false, 0) ∧
      (scanChunk zeroClock (scanStart zeroStack) [0x00, 0x00, 0x01]).scan.bInNAL = false ∧
      (scanChunk zeroClock (scanStart zeroStack) [0x00, 0x00, 0x00, 0x01]).scan.bInNAL
        = false := by
  decide

/-- C16 (amended): at every index `i` the loop visits in a chunk `C` of length
`L`, a start code of length 3 is recognised exactly when `C[i..i+3) = 00 00 01`
and `i + 3 < L`, one of length 4 exactly when `C[i..i+4) = 00 00 00 01` and
`i + 4 < L` (one more byte must follow the pattern inside the chunk), and
nothing else is recognised; on a match the previous NAL is saved, a new one is
started and the loop resumes at the first byte after the matched pattern. -/
theorem start_code_recognised_iff_byte_follows (clock : Nat → Nat) (C : List Nat) (i : Nat)
    (fuel : Nat) (s : ScanRun) (hi : i < C.length) :
    (startCodeAt C i = (true, 3) ↔
        (C.drop i).take 3 = [0x00, 0x00, 0x01] ∧ i + 3 < C.length) ∧
      (startCodeAt C i = (true, 4) ↔
        (C.drop i).take 4 = [0x00, 0x00, 0x00, 0x01] ∧ i + 4 < C.length) ∧
      (startCodeAt C i = (true, 3) ∨ startCodeAt C i = (true, 4) ∨
        startCodeAt C i = (false, 0)) ∧
      ((startCodeAt C i).1 = true →
        scanLoop clock C (fuel + 1) i s =
          scanLoop clock C fuel (i + (startCodeAt C i).2) (startNewNal clock s)) ∧
      ((startCodeAt C i).1 = false →
        scanLoop clock C (fuel + 1) i s =
          scanLoop clock C fuel (i + 1) (accumulateByte s (C.getD i 0))) := by
  have hd := startCodeAt_drop C i (Nat.le_of_lt hi)
  have hl : (C.drop i).length = C.length - i := List.length_drop i C
  refine ⟨?_, ?_, ?_, ?_, ?_⟩
  · rw [hd, startCodeAt_head_three, hl]
    constructor
    · rintro ⟨h1, h2⟩; exact ⟨h1, by omega⟩
    · rintro ⟨h1, h2⟩; exact ⟨h1, by omega⟩
  · rw [hd, startCodeAt_head_four, hl]
    constructor
    · rintro ⟨h1, h2⟩; exact ⟨h1, by omega⟩
    · rintro ⟨h1, h2⟩; exact ⟨h1, by omega⟩
  · unfold startCodeAt
    split
    · split
      · exact Or.inl rfl
      · split
        · exact Or.inr (Or.inl rfl)
        · exact Or.inr (Or.inr rfl)
    · exact Or.inr (Or.inr rfl)
  · intro h
    rw [scanLoop_step_start _ _ _ _ _ hi h]
    have hk := startCodeAt_len C i h
    rw [show i + (startCodeAt C i).2 - 1 + 1 = i + (startCodeAt C i).2 by omega]
  · intro h
    exact scanLoop_step_plain _ _ _ _ _ hi h

/-- C16 (amended) on the repository test stream at index 16, where the
3-byte start code of the IDR unit begins. -/
theorem start_code_recognised_iff_byte_follows_witness :
    16 < testStream.length ∧
      startCodeAt testStream 16 = (true, 3) ∧
      (testStream.drop 16).take 3 = [0x00, 0x00, 0x01] ∧
      startCodeAt testStream 0 = (true, 4) ∧
      scanLoop zeroClock testStream (31 + 1) 16 (scanStart zeroStack) =
        scanLoop zeroClock testStream 31 (16 + 3) (startNewNal zeroClock (scanStart zeroStack)) := by
  have h := start_code_recognised_iff_byte_follows zeroClock testStream 16 31
    (scanStart zeroStack) (by decide)
  have h3 : startCodeAt testStream 16 = (true, 3) := h.1.2 ⟨by decide, by decide⟩
  refine ⟨by decide, h3, by decide, by decide, ?_⟩
  have hr := h.2.2.2.1 (by rw [h3])
  rw [h3] at hr
  exact hr

/-! ### Accumulator bounds and oversize NALs (proofs) -/

theorem AccInBounds_start (stack : Nat → Nat) : AccInBounds stack (scanStart stack) :=
  ⟨le_refl _, show (0 : Int) ≤ USB_CAMERA_MAX_NAL_SIZE by decide, fun _ _ => rfl⟩

theorem AccInBounds_startNewNal (clock : Nat → Nat) (stack : Nat → Nat) (s : ScanRun)
    (hs : AccInBounds stack s) : AccInBounds stack (startNewNal clock s) := by
  refine ⟨show (0 : Int) ≤ 4 by decide, show (4 : Int) ≤ USB_CAMERA_MAX_NAL_SIZE by decide, ?_⟩
  intro j hj
  have hj4 : ¬ ((j : Int) < 4) := by
    have : (4 : Nat) ≤ USB_CAMERA_MAX_NAL_SIZE.toNat := by decide
    omega
  show memcpy s.scan.uAccumulatedBuffer uNALStartCode 4 j = stack j
  unfold memcpy
  rw [if_neg hj4]
  exact hs.2.2 j hj

theorem AccInBounds_accumulateByte (stack : Nat → Nat) (s : ScanRun) (hs : AccInBounds stack s)
    (b : Nat) : AccInBounds stack (accumulateByte s b) := by
  obtain ⟨h0, h1, h2⟩ := hs
  unfold accumulateByte
  split
  · rename_i hopen
    refine ⟨by simp only []; omega, by simp only []; have := hopen.2; omega, ?_⟩
    intro j hj
    simp only []
    have hne : j ≠ s.scan.iAccumulatedSize.toNat := by
      have := hopen.2
      omega
    rw [Function.update_noteq hne]
    exact h2 j hj
  · exact ⟨h0, h1, h2⟩

theorem AccInBounds_scanLoop (clock : Nat → Nat) (stack : Nat → Nat) (chunk : List Nat)
    (fuel : Nat) :
    ∀ (i : Nat) (s : ScanRun), AccInBounds stack s →
      AccInBounds stack (scanLoop clock chunk fuel i s).2 := by
  induction fuel with
  | zero => intro i s hs; exact hs
  | succ fuel ih =>
    intro i s hs
    unfold scanLoop
    split
    · split
      · exact ih _ _ (AccInBounds_startNewNal clock stack s hs)
      · exact ih _ _ (AccInBounds_accumulateByte stack s hs _)
    · exact hs

theorem AccInBounds_foldl (clock : Nat → Nat) (stack : Nat → Nat) (chunks : List (List Nat)) :
    ∀ s : ScanRun, AccInBounds stack s →
      AccInBounds stack (chunks.foldl (scanChunk clock) s) := by
  induction chunks with
  | nil => intro s hs; exact hs
  | cons c cs ih =>
    intro s hs
    exact ih _ (AccInBounds_scanLoop clock stack c c.length 0 s hs)

theorem loopEvents_step_start (chunk : List Nat) (fuel i : Nat)
    (h1 : i < chunk.length) (h2 : (startCodeAt chunk i).1 = true) :
    loopEvents chunk (fuel + 1) i =
      ScanEvent.startCode :: loopEvents chunk fuel (i + (startCodeAt chunk i).2 - 1 + 1) := by
  simp only [loopEvents, h1, h2, if_true]

theorem loopEvents_step_plain (chunk : List Nat) (fuel i : Nat)
    (h1 : i < chunk.length) (h2 : (startCodeAt chunk i).1 = false) :
    loopEvents chunk (fuel + 1) i =
      ScanEvent.byte (chunk.getD i 0) :: loopEvents chunk fuel (i + 1) := by
  simp only [loopEvents, h1, h2, if_true, Bool.false_eq_true, if_false]

theorem loopEvents_step_end (chunk : List Nat) (fuel i : Nat) (h1 : ¬ i < chunk.length) :
    loopEvents chunk fuel i = [] := by
  cases fuel with
  | zero => rfl
  | succ f => simp only [loopEvents, h1, if_false]

/-- The loop is the fold of its body over the indices it visits. -/
theorem scanLoop_events (clock : Nat → Nat) (chunk : List Nat) (fuel : Nat) :
    ∀ (i : Nat) (s : ScanRun),
      (scanLoop clock chunk fuel i s).2 =
        (loopEvents chunk fuel i).foldl (applyEvent clock) s := by
  induction fuel with
  | zero => intro i s; rfl
  | succ fuel ih =>
    intro i s
    by_cases hi : i < chunk.length
    · by_cases hf : (startCodeAt chunk i).1 = true
      · rw [scanLoop_step_start _ _ _ _ _ hi hf, loopEvents_step_start _ _ _ hi hf, ih]
        rfl
      · have hf' : (startCodeAt chunk i).1 = false := by simpa using hf
        rw [scanLoop_step_plain _ _ _ _ _ hi hf', loopEvents_step_plain _ _ _ hi hf', ih]
        rfl
    · rw [scanLoop_step_end _ _ _ _ _ hi, loopEvents_step_end _ _ _ hi]
      rfl

/-- The chunks read one after the other are the fold of the loop body over
all visited indices, the scanner state going from one chunk to the next. -/
theorem foldl_scanChunk_events (clock : Nat → Nat) (chunks : List (List Nat)) :
    ∀ s : ScanRun,
      chunks.foldl (scanChunk clock) s = (streamEvents chunks).foldl (applyEvent clock) s := by
  induction chunks with
  | nil => intro s; rfl
  | cons c cs ih =>
    intro s
    rw [List.foldl_cons, ih]
    show _ = (chunkEvents c ++ streamEvents cs).foldl (applyEvent clock) s
    rw [List.foldl_append]
    congr 1
    exact scanLoop_events clock c c.length 0 s

/-! ### Start codes across a chunk boundary (proofs) -/

theorem scanLoop_add (clock : Nat → Nat) (chunk : List Nat) (m k : Nat) :
    ∀ (i : Nat) (s : ScanRun),
      scanLoop clock chunk (k + m) i s =
        scanLoop clock chunk m (scanLoop clock chunk k i s).1 (scanLoop clock chunk k i s).2 := by
  induction k with
  | zero => intro i s; rw [Nat.zero_add]; rfl
  | succ k ih =>
    intro i s
    rw [show k + 1 + m = (k + m) + 1 by omega]
    by_cases hi : i < chunk.length
    · by_cases hc : (startCodeAt chunk i).1 = true
      · rw [scanLoop_step_start _ _ _ _ _ hi hc, scanLoop_step_start _ _ _ _ _ hi hc, ih]
      · have hc' : (startCodeAt chunk i).1 = false := by simpa using hc
        rw [scanLoop_step_plain _ _ _ _ _ hi hc', scanLoop_step_plain _ _ _ _ _ hi hc', ih]
    · rw [scanLoop_step_end _ _ _ _ _ hi, scanLoop_step_end _ _ _ _ _ hi,
        scanLoop_step_end _ _ _ _ _ hi]

/-- The last byte of a recognised start code is `01` and lies inside the chunk. -/
theorem startCodeAt_last_byte (C : List Nat) (i : Nat) (h : (startCodeAt C i).1 = true) :
    C.getD (i + (startCodeAt C i).2 - 1) 0 = 1 ∧ i + (startCodeAt C i).2 < C.length ∧
      1 ≤ (startCodeAt C i).2 := by
  unfold startCodeAt at h ⊢
  split
  · rename_i h1
    rw [if_pos h1] at h
    split
    · rename_i h2
      exact ⟨h2, by simp only []; omega, by simp only []; omega⟩
    · rename_i h2
      rw [if_neg h2] at h
      split
      · rename_i h3
        exact ⟨h3.2.2, by simp only []; omega, by simp only []; omega⟩
      · rename_i h3
        rw [if_neg h3] at h
        exact Bool.noConfusion h
  · rename_i h1
    rw [if_neg h1] at h
    exact Bool.noConfusion h

/-- A run of indices at which no start code is recognised: the bytes go to
`accumulateByte` one by one. -/
theorem scanLoop_plain_run (clock : Nat → Nat) (p : List Nat) :
    ∀ (x y : List Nat) (m : Nat) (s : ScanRun),
      (∀ i : Nat, x.length ≤ i → i < x.length + p.length →
        (startCodeAt (x ++ (p ++ y)) i).1 = false) →
      scanLoop clock (x ++ (p ++ y)) (p.length + m) x.length s =
        scanLoop clock (x ++ (p ++ y)) m (x.length + p.length) (p.foldl accumulateByte s) := by
  induction p with
  | nil => intro x y m s _; simp only [List.length_nil, Nat.zero_add, Nat.add_zero, List.foldl_nil]
  | cons c t ih =>
    intro x y m s hno
    have hi : x.length < (x ++ (c :: t ++ y)).length := by
      simp only [List.length_append, List.length_cons]; omega
    have hplain := hno x.length (le_refl _) (by simp only [List.length_cons]; omega)
    have hget : (x ++ (c :: t ++ y)).getD x.length 0 = c := by
      rw [List.getD_append_right _ _ _ _ (le_refl _), Nat.sub_self]
      rfl
    rw [show (c :: t).length + m = (t.length + m) + 1 by simp only [List.length_cons]; omega,
      scanLoop_step_plain _ _ _ _ _ hi hplain, hget]
    have hre : x ++ (c :: t ++ y) = (x ++ [c]) ++ (t ++ y) := by simp
    have hlen : x.length + 1 = (x ++ [c]).length := by simp
    rw [List.foldl_cons, show x.length + (c :: t).length = (x ++ [c]).length + t.length by
      simp only [List.length_append, List.length_cons, List.length_nil]; omega]
    rw [hlen]
    have hno' : ∀ i : Nat, (x ++ [c]).length ≤ i → i < (x ++ [c]).length + t.length →
        (startCodeAt ((x ++ [c]) ++ (t ++ y)) i).1 = false := by
      intro i h1 h2
      rw [← hre]
      apply hno i
      · rw [← hlen] at h1; omega
      · rw [← hlen] at h2; simp only [List.length_cons]; omega
    have := ih (x ++ [c]) y m (accumulateByte s c) hno'
    rw [← hre] at this
    exact this

/-- When no recognised start code reaches over index `n`, the loop gets to
index `n` exactly, after some number of iterations. -/
theorem scanLoop_reaches (clock : Nat → Nat) (C : List Nat) (n : Nat) (hn : n ≤ C.length)
    (hover : ∀ i : Nat, (startCodeAt C i).1 = true → i < n → i + (startCodeAt C i).2 ≤ n) :
    ∀ (d i : Nat) (s : ScanRun), n - i ≤ d → i ≤ n →
      ∃ k : Nat, (scanLoop clock C k i s).1 = n := by
  intro d
  induction d with
  | zero =>
    intro i s h1 h2
    exact ⟨0, by show i = n; omega⟩
  | succ d ih =>
    intro i s h1 h2
    by_cases hin : i = n
    · exact ⟨0, hin⟩
    · have hi : i < C.length := by omega
      by_cases hc : (startCodeAt C i).1 = true
      · have hb := hover i hc (by omega)
        have hl := (startCodeAt_last_byte C i hc).2.2
        obtain ⟨k, hk⟩ := ih (i + (startCodeAt C i).2 - 1 + 1) (startNewNal clock s)
          (by omega) (by omega)
        exact ⟨k + 1, by rw [scanLoop_step_start _ _ _ _ _ hi hc]; exact hk⟩
      · have hc' : (startCodeAt C i).1 = false := by simpa using hc
        obtain ⟨k, hk⟩ := ih (i + 1) (accumulateByte s (C.getD i 0)) (by omega) (by omega)
        exact ⟨k + 1, by rw [scanLoop_step_plain _ _ _ _ _ hi hc']; exact hk⟩

theorem straddle_cases (pre post : List Nat) (h : StraddlingStartCode pre post) :
    (pre = [0x00] ∧ post = [0x00, 0x01]) ∨ (pre = [0x00, 0x00] ∧ post = [0x01]) ∨
      (pre = [0x00] ∧ post = [0x00, 0x00, 0x01]) ∨ (pre = [0x00, 0x00] ∧ post = [0x00, 0x01]) ∨
      (pre = [0x00, 0x00, 0x00] ∧ post = [0x01]) := by
  obtain ⟨h1, h2, h3⟩ := h
  rcases pre with _ | ⟨p1, _ | ⟨p2, _ | ⟨p3, _ | ⟨p4, t⟩⟩⟩⟩
  · exact absurd rfl h1
  · rcases h3 with h3 | h3
    · simp only [List.cons_append, List.nil_append, List.cons.injEq] at h3
      obtain ⟨rfl, rfl⟩ := h3
      exact Or.inl ⟨rfl, rfl⟩
    · simp only [List.cons_append, List.nil_append, List.cons.injEq] at h3
      obtain ⟨rfl, rfl⟩ := h3
      exact Or.inr (Or.inr (Or.inl ⟨rfl, rfl⟩))
  · rcases h3 with h3 | h3
    · simp only [List.cons_append, List.nil_append, List.cons.injEq] at h3
      obtain ⟨rfl, rfl, rfl⟩ := h3
      exact Or.inr (Or.inl ⟨rfl, rfl⟩)
    · simp only [List.cons_append, List.nil_append, List.cons.injEq] at h3
      obtain ⟨rfl, rfl, rfl⟩ := h3
      exact Or.inr (Or.inr (Or.inr (Or.inl ⟨rfl, rfl⟩)))
  · rcases h3 with h3 | h3
    · simp only [List.cons_append, List.nil_append, List.cons.injEq] at h3
      obtain ⟨-, -, -, rfl⟩ := h3
      exact absurd rfl h2
    · simp only [List.cons_append, List.nil_append, List.cons.injEq] at h3
      obtain ⟨rfl, rfl, rfl, rfl⟩ := h3
      exact Or.inr (Or.inr (Or.inr (Or.inr ⟨rfl, rfl⟩)))
  · rcases h3 with h3 | h3
    · simp at h3
    · simp only [List.cons_append, List.nil_append, List.cons.injEq] at h3
      obtain ⟨-, -, -, -, h5⟩ := h3
      simp at h5
      exact absurd h5.2 h2

theorem straddle_pre (pre post : List Nat) (h : StraddlingStartCode pre post) :
    pre.length ≤ 3 ∧ ∀ j : Nat, pre.getD j 0 = 0 := by
  rcases straddle_cases pre post h with h | h | h | h | h <;> obtain ⟨rfl, rfl⟩ := h
  all_goals
    refine ⟨by decide, ?_⟩
    intro j
    rcases j with _ | _ | _ | j <;> rfl

theorem straddle_no_start_in_pre (a pre post : List Nat) (h : StraddlingStartCode pre post)
    (i : Nat) (hi : a.length ≤ i) : (startCodeAt (a ++ pre) i).1 = false := by
  by_contra hc
  have hc' : (startCodeAt (a ++ pre) i).1 = true := by simpa using hc
  have hb := (startCodeAt_found _ _ hc').1
  have hl := (straddle_pre pre post h).1
  rw [List.length_append] at hb
  omega

theorem straddle_no_overlap (a pre post : List Nat) (h : StraddlingStartCode pre post)
    (i : Nat) (hc : (startCodeAt (a ++ pre) i).1 = true) :
    i + (startCodeAt (a ++ pre) i).2 ≤ a.length := by
  obtain ⟨h1, h2, h3⟩ := startCodeAt_last_byte _ _ hc
  by_contra hcon
  have hge : a.length ≤ i + (startCodeAt (a ++ pre) i).2 - 1 := by omega
  rw [List.getD_append_right _ _ _ _ hge, (straddle_pre pre post h).2] at h1
  exact absurd h1 (by decide)

theorem straddle_no_start_in_post (pre post b : List Nat) (h : StraddlingStartCode pre post)
    (hexc : ¬ TailSeenAsStartCode pre post b) (i : Nat) (hi : i < post.length) :
    (startCodeAt (post ++ b) i).1 = false := by
  rcases straddle_cases pre post h with h | h | h | h | h <;> obtain ⟨rfl, rfl⟩ := h
  · rcases i with _ | _ | i
    · simp [startCodeAt]
    · simp [startCodeAt]
    · exact absurd hi (by simp)
  · rcases i with _ | i
    · simp [startCodeAt]
    · exact absurd hi (by simp)
  · have hb : b = [] := by
      by_contra hb
      exact hexc ⟨rfl, rfl, hb⟩
    subst hb
    simp [startCodeAt]
  · rcases i with _ | _ | i
    · simp [startCodeAt]
    · simp [startCodeAt]
    · exact absurd hi (by simp)
  · rcases i with _ | i
    · simp [startCodeAt]
    · exact absurd hi (by simp)

theorem accumulateByte_keeps (s : ScanRun) (c : Nat) :
    (accumulateByte s c).writes = s.writes ∧
      (accumulateByte s c).scan.bInNAL = s.scan.bInNAL ∧
      (s.scan.bInNAL = false → accumulateByte s c = s) := by
  unfold accumulateByte
  split
  · rename_i hopen
    refine ⟨rfl, rfl, ?_⟩
    intro hf
    rw [hopen.1] at hf
    exact Bool.noConfusion hf
  · exact ⟨rfl, rfl, fun _ => rfl⟩

theorem accumulate_keeps (p : List Nat) :
    ∀ s : ScanRun, (p.foldl accumulateByte s).writes = s.writes ∧
      (p.foldl accumulateByte s).scan.bInNAL = s.scan.bInNAL ∧
      (s.scan.bInNAL = false → p.foldl accumulateByte s = s) := by
  induction p with
  | nil => intro s; exact ⟨rfl, rfl, fun _ => rfl⟩
  | cons c t ih =>
    intro s
    obtain ⟨a1, a2, a3⟩ := accumulateByte_keeps s c
    obtain ⟨b1, b2, b3⟩ := ih (accumulateByte s c)
    rw [List.foldl_cons]
    refine ⟨by rw [b1, a1], by rw [b2, a2], ?_⟩
    intro hf
    rw [b3 (by rw [a2]; exact hf), a3 hf]

theorem scanLoop_plain_tail (clock : Nat → Nat) (a pre : List Nat) (s : ScanRun) (m : Nat)
    (hno : ∀ i : Nat, a.length ≤ i → (startCodeAt (a ++ pre) i).1 = false) :
    scanLoop clock (a ++ pre) (pre.length + m) a.length s =
      ((a ++ pre).length, pre.foldl accumulateByte s) := by
  have h := scanLoop_plain_run clock pre a [] m s (by
    intro i h1 _
    rw [List.append_nil]
    exact hno i h1)
  rw [List.append_nil] at h
  rw [h, scanLoop_step_end _ _ _ _ _ (by rw [List.length_append]; omega), List.length_append]

theorem scanChunk_plain_head (clock : Nat → Nat) (post b : List Nat) (t : ScanRun)
    (hno : ∀ i : Nat, i < post.length → (startCodeAt (post ++ b) i).1 = false) :
    scanChunk clock t (post ++ b) = scanChunk clock (post.foldl accumulateByte t) b := by
  have h := scanLoop_plain_run clock post [] b b.length t (by
    intro i _ h2
    rw [List.nil_append]
    apply hno i
    simpa using h2)
  rw [List.nil_append, List.length_nil, Nat.zero_add] at h
  unfold scanChunk
  rw [List.length_append, h]
  have hs := scanLoop_shift clock post b b.length 0 (post.foldl accumulateByte t)
  rw [Nat.add_zero] at hs
  rw [hs]

/-- C17 (counterexample): the chunks `00 00 00 01 65 00` and `00 00 01 41`
hold the 4-byte start code `00 00 00 01` with its first byte at the end of the
first chunk and its other three at the head of the second. A start code is
recognised at index 0 of the second chunk: the open NAL is closed there
(`00 00 00 01 65 00` is written) and a new NAL begins (`00 00 00 01 41`),
instead of the bytes being appended to the open NAL. -/
theorem straddling_four_byte_code_detected_as_three :
    StraddlingStartCode [0x00] [0x00, 0x00, 0x01] ∧
      startCodeAt ([0x00, 0x00, 0x01] ++ [0x41]) 0 = (true, 3) ∧
      (scanChunk zeroClock (scanStart zeroStack)
        [0x00, 0x00, 0x00, 0x01, 0x65, 0x00]).writes.length = 0 ∧
      (scanChunk zeroClock (scanStart zeroStack)
        [0x00, 0x00, 0x00, 0x01, 0x65, 0x00]).accumulated = [0x00, 0x00, 0x00, 0x01, 0x65, 0x00] ∧
      ((scanChunk zeroClock
        (scanChunk zeroClock (scanStart zeroStack) [0x00, 0x00, 0x00, 0x01, 0x65, 0x00])
        [0x00, 0x00, 0x01, 0x41]).writes.map WriteCall.nal)
        = [([0x00, 0x00, 0x00, 0x01, 0x65, 0x00], 5)] ∧
      (scanChunk zeroClock
        (scanChunk zeroClock (scanStart zeroStack) [0x00, 0x00, 0x00, 0x01, 0x65, 0x00])
        [0x00, 0x00, 0x01, 0x41]).accumulated = [0x00, 0x00, 0x00, 0x01, 0x41] := by
  refine ⟨⟨by decide, by decide, Or.inr rfl⟩, by decide, by decide, by decide, by decide,
    by decide⟩

/-- C17 (amended): let a start code `pre ++ post` (`00 00 01` or
`00 00 00 01`) begin at the end of chunk `a ++ pre` and end at the head of the
next chunk `post ++ b`, other than a 4-byte code with only its first byte in
the first chunk and a further byte behind it in the second. Then no start code
is recognised at an index of `pre` or of `post`, no start code recognised
earlier reaches into `pre`, the loop over the first chunk gets to the first
byte of `pre` after some `k` iterations, and from the state it has there all
bytes of `pre ++ post` go through `accumulateByte` before the scan goes on
with `b`: no NAL is closed or begun, no write is made, and an open NAL gets
the bytes appended (up to the accumulator size). -/
theorem straddling_start_code_not_detected (clock : Nat → Nat) (a pre post b : List Nat)
    (s : ScanRun) (hcode : StraddlingStartCode pre post)
    (hexc : ¬ TailSeenAsStartCode pre post b) :
    (∀ i : Nat, a.length ≤ i → (startCodeAt (a ++ pre) i).1 = false) ∧
      (∀ i : Nat, (startCodeAt (a ++ pre) i).1 = true →
        i + (startCodeAt (a ++ pre) i).2 ≤ a.length) ∧
      (∀ i : Nat, i < post.length → (startCodeAt (post ++ b) i).1 = false) ∧
      (∃ k : Nat, (scanLoop clock (a ++ pre) k 0 s).1 = a.length ∧
        scanChunk clock s (a ++ pre) =
          pre.foldl accumulateByte (scanLoop clock (a ++ pre) k 0 s).2 ∧
        scanChunk clock (scanChunk clock s (a ++ pre)) (post ++ b) =
          scanChunk clock
            ((pre ++ post).foldl accumulateByte (scanLoop clock (a ++ pre) k 0 s).2) b) ∧
      (∀ t : ScanRun,
        ((pre ++ post).foldl accumulateByte t).writes = t.writes ∧
          ((pre ++ post).foldl accumulateByte t).scan.bInNAL = t.scan.bInNAL ∧
          (t.scan.bInNAL = false → (pre ++ post).foldl accumulateByte t = t) ∧
          (ScanOpen t →
            ((pre ++ post).foldl accumulateByte t).accumulated =
              (t.accumulated ++ (pre ++ post)).take USB_CAMERA_MAX_NAL_SIZE.toNat)) := by
  have h1 := straddle_no_start_in_pre a pre post hcode
  have h2 := straddle_no_overlap a pre post hcode
  have h3 := straddle_no_start_in_post pre post b hcode hexc
  refine ⟨h1, h2, h3, ?_, ?_⟩
  · obtain ⟨k, hk⟩ := scanLoop_reaches clock (a ++ pre) a.length
      (by rw [List.length_append]; omega) (fun i hc _ => h2 i hc) a.length 0 s
      (by omega) (by omega)
    have hA : scanChunk clock s (a ++ pre) =
        pre.foldl accumulateByte (scanLoop clock (a ++ pre) k 0 s).2 := by
      unfold scanChunk
      rw [scanLoop_fuel clock (a ++ pre) (a ++ pre).length (k + (pre.length + a.length)) 0 s
        (by omega) (by rw [List.length_append]; omega), scanLoop_add, hk,
        scanLoop_plain_tail clock a pre _ a.length h1]
    refine ⟨k, hk, hA, ?_⟩
    rw [scanChunk_plain_head clock post b _ h3, hA, List.foldl_append]
  · intro t
    obtain ⟨k1, k2, k3⟩ := accumulate_keeps (pre ++ post) t
    exact ⟨k1, k2, k3, fun ho => (accumulate_payload (pre ++ post) t ho).2.2⟩

/-- C17 (amended) on the chunks `00 00 00 01 65 00 00` and `00 01 41 9A`: the
4-byte start code split in the middle is not recognised, nothing is written
and the open NAL becomes `00 00 00 01 65 00 00 00 01 41 9A`. -/
theorem straddling_start_code_not_detected_witness :
    StraddlingStartCode [0x00, 0x00] [0x00, 0x01] ∧
      ¬ TailSeenAsStartCode [0x00, 0x00] [0x00, 0x01] [0x41, 0x9A] ∧
      (∀ i : Nat, i < 2 → (startCodeAt ([0x00, 0x01] ++ [0x41, 0x9A]) i).1 = false) ∧
      (scanChunk zeroClock
        (scanChunk zeroClock (scanStart zeroStack) [0x00, 0x00, 0x00, 0x01, 0x65, 0x00, 0x00])
        [0x00, 0x01, 0x41, 0x9A]).writes.length = 0 ∧
      (scanChunk zeroClock
        (scanChunk zeroClock (scanStart zeroStack) [0x00, 0x00, 0x00, 0x01, 0x65, 0x00, 0x00])
        [0x00, 0x01, 0x41, 0x9A]).accumulated
        = [0x00, 0x00, 0x00, 0x01, 0x65, 0x00, 0x00, 0x00, 0x01, 0x41, 0x9A] := by
  have hc : StraddlingStartCode [0x00, 0x00] [0x00, 0x01] :=
    ⟨by decide, by decide, Or.inr rfl⟩
  have he : ¬ TailSeenAsStartCode [0x00, 0x00] [0x00, 0x01] [0x41, 0x9A] :=
    fun h => absurd h.1 (by decide)
  have h := straddling_start_code_not_detected zeroClock [0x00, 0x00, 0x00, 0x01, 0x65]
    [0x00, 0x00] [0x00, 0x01] [0x41, 0x9A] (scanStart zeroStack) hc he
  exact ⟨hc, he, h.2.2.1, by decide, by decide⟩

/-! ### Oversize NALs across reads (proofs) -/

theorem loopEvents_fuel (chunk : List Nat) (fuel : Nat) :
    ∀ (fuel' i : Nat), chunk.length - i ≤ fuel → chunk.length - i ≤ fuel' →
      loopEvents chunk fuel i = loopEvents chunk fuel' i := by
  induction fuel with
  | zero =>
    intro fuel' i h1 _
    have hi : ¬ i < chunk.length := by omega
    rw [loopEvents_step_end _ _ _ hi, loopEvents_step_end _ _ _ hi]
  | succ fuel ih =>
    intro fuel' i h1 h2
    by_cases hi : i < chunk.length
    · obtain ⟨f, rfl⟩ : ∃ f, fuel' = f + 1 := ⟨fuel' - 1, by omega⟩
      by_cases hf : (startCodeAt chunk i).1 = true
      · rw [loopEvents_step_start _ _ _ hi hf, loopEvents_step_start _ _ _ hi hf]
        have := startCodeAt_len chunk i hf
        rw [ih f _ (by omega) (by omega)]
      · have hf' : (startCodeAt chunk i).1 = false := by simpa using hf
        rw [loopEvents_step_plain _ _ _ hi hf', loopEvents_step_plain _ _ _ hi hf']
        rw [ih f _ (by omega) (by omega)]
    · rw [loopEvents_step_end _ _ _ hi, loopEvents_step_end _ _ _ hi]

theorem loopEvents_shift (pre rest : List Nat) (fuel : Nat) :
    ∀ i : Nat, loopEvents (pre ++ rest) fuel (pre.length + i) = loopEvents rest fuel i := by
  induction fuel with
  | zero => intro i; rfl
  | succ fuel ih =>
    intro i
    have hget : (pre ++ rest).getD (pre.length + i) 0 = rest.getD i 0 := by
      rw [List.getD_append_right _ _ _ _ (by omega)]
      congr 1
      omega
    by_cases hi : i < rest.length
    · have hi' : pre.length + i < (pre ++ rest).length := by
        rw [List.length_append]; omega
      by_cases hf : (startCodeAt rest i).1 = true
      · have hf' : (startCodeAt (pre ++ rest) (pre.length + i)).1 = true := by
          rw [startCodeAt_shift]; exact hf
        rw [loopEvents_step_start _ _ _ hi' hf', loopEvents_step_start _ _ _ hi hf,
          startCodeAt_shift]
        have := startCodeAt_len rest i hf
        have e : pre.length + i + (startCodeAt rest i).2 - 1 + 1
            = pre.length + (i + (startCodeAt rest i).2 - 1 + 1) := by omega
        rw [e, ih]
      · have hf1 : (startCodeAt rest i).1 = false := by simpa using hf
        have hf' : (startCodeAt (pre ++ rest) (pre.length + i)).1 = false := by
          rw [startCodeAt_shift]; exact hf1
        rw [loopEvents_step_plain _ _ _ hi' hf', loopEvents_step_plain _ _ _ hi hf1, hget,
          Nat.add_assoc, ih]
    · have hi' : ¬ pre.length + i < (pre ++ rest).length := by
        rw [List.length_append]; omega
      rw [loopEvents_step_end _ _ _ hi', loopEvents_step_end _ _ _ hi]

/-- A start code at the head of the chunk. -/
theorem chunkEvents_start (l : List Nat) (h : (startCodeAt l 0).1 = true) :
    chunkEvents l = ScanEvent.startCode :: chunkEvents (l.drop (startCodeAt l 0).2) := by
  have hb := startCodeAt_bound l 0 h
  have hk := startCodeAt_len l 0 h
  obtain ⟨n, hn⟩ : ∃ n, l.length = n + 1 := ⟨l.length - 1, by omega⟩
  have h0 : 0 < l.length := by omega
  unfold chunkEvents
  rw [hn, loopEvents_step_start _ _ _ h0 h]
  generalize (startCodeAt l 0).2 = k at hb hk ⊢
  have htl : (l.take k).length = k := by
    rw [List.length_take]; omega
  have hidx : 0 + k - 1 + 1 = (l.take k).length + 0 := by
    rw [htl]; omega
  have hshift := loopEvents_shift (l.take k) (l.drop k) n 0
  rw [List.take_append_drop] at hshift
  rw [hidx, hshift]
  rw [loopEvents_fuel (l.drop k) n (l.drop k).length 0 (by rw [List.length_drop]; omega)
    (by omega)]

/-- No start code at the head of the chunk. -/
theorem chunkEvents_plain (b : Nat) (t : List Nat) (h : (startCodeAt (b :: t) 0).1 = false) :
    chunkEvents (b :: t) = ScanEvent.byte b :: chunkEvents t := by
  have h0 : 0 < (b :: t).length := by simp
  unfold chunkEvents
  rw [List.length_cons, loopEvents_step_plain _ _ _ h0 h, List.getD_cons_zero]
  have hshift := loopEvents_shift [b] t t.length 0
  rw [List.singleton_append] at hshift
  rw [show (0 : Nat) + 1 = [b].length + 0 by rfl, hshift]

/-- A run of bytes at the head of the chunk in which no start code is
recognised. -/
theorem chunkEvents_plain_run (p : List Nat) :
    ∀ rest : List Nat,
      (∀ i : Nat, i < p.length → (startCodeAt (p ++ rest) i).1 = false) →
      chunkEvents (p ++ rest) = p.map ScanEvent.byte ++ chunkEvents rest := by
  induction p with
  | nil => intro rest _; rfl
  | cons b t ih =>
    intro rest hno
    have h0 := hno 0 (by simp)
    rw [List.cons_append, chunkEvents_plain b (t ++ rest) h0, List.map_cons, List.cons_append]
    congr 1
    apply ih
    intro i hi
    have hs := startCodeAt_shift [b] (t ++ rest) i
    rw [List.singleton_append] at hs
    rw [← hs]
    have := hno (i + 1) (by simp only [List.length_cons]; omega)
    rw [show [b].length + i = i + 1 by simp only [List.length_cons, List.length_nil]; omega]
    exact this

theorem foldl_byte_events (clock : Nat → Nat) (p : List Nat) :
    ∀ s : ScanRun,
      (p.map ScanEvent.byte).foldl (applyEvent clock) s = p.foldl accumulateByte s := by
  induction p with
  | nil => intro s; rfl
  | cons b t ih => intro s; exact ih _

theorem saveOnStartCode_appends (clock : Nat → Nat) (s : ScanRun) :
    ∃ W : List WriteCall, saveOnStartCode clock s = s.writes ++ W := by
  unfold saveOnStartCode
  split
  · exact ⟨_, rfl⟩
  · exact ⟨[], (List.append_nil _).symm⟩

theorem applyEvent_appends (clock : Nat → Nat) (s : ScanRun) (e : ScanEvent) :
    ∃ W : List WriteCall, (applyEvent clock s e).writes = s.writes ++ W := by
  cases e with
  | startCode => exact saveOnStartCode_appends clock s
  | byte b => exact ⟨[], by rw [List.append_nil]; exact (accumulateByte_keeps s b).1⟩

theorem foldl_events_appends (clock : Nat → Nat) (es : List ScanEvent) :
    ∀ s : ScanRun, ∃ W : List WriteCall,
      (es.foldl (applyEvent clock) s).writes = s.writes ++ W := by
  induction es with
  | nil => intro s; exact ⟨[], (List.append_nil _).symm⟩
  | cons e t ih =>
    intro s
    obtain ⟨W1, h1⟩ := applyEvent_appends clock s e
    obtain ⟨W2, h2⟩ := ih (applyEvent clock s e)
    exact ⟨W1 ++ W2, by rw [List.foldl_cons, h2, h1, List.append_assoc]⟩

theorem scanFlush_appends (clock : Nat → Nat) (s : ScanRun) :
    ∃ W : List WriteCall, (scanFlush clock s).writes = s.writes ++ W := by
  unfold scanFlush
  split
  · exact ⟨_, rfl⟩
  · exact ⟨[], (List.append_nil _).symm⟩

theorem map_bytes_eq (ws : List WriteCall) :
    ws.map WriteCall.bytes = (ws.map WriteCall.nal).map Prod.fst := by
  rw [List.map_map]
  rfl

/-- The writes made over a start code, a run of payload bytes `p`, a second
start code and a run of payload bytes `q`, from any scanner state. -/
theorem two_nals_scanned (clock : Nat → Nat) (s : ScanRun) (p q : List Nat)
    (hp : p ≠ []) (hq : q ≠ []) :
    (q.foldl accumulateByte (startNewNal clock
        (p.foldl accumulateByte (startNewNal clock s)))).scan.bInNAL = true ∧
      4 < (q.foldl accumulateByte (startNewNal clock
        (p.foldl accumulateByte (startNewNal clock s)))).scan.iAccumulatedSize ∧
      (q.foldl accumulateByte (startNewNal clock
        (p.foldl accumulateByte (startNewNal clock s)))).accumulated =
        [0x00, 0x00, 0x00, 0x01] ++ q.take (USB_CAMERA_MAX_NAL_SIZE.toNat - 4) ∧
      (q.foldl accumulateByte (startNewNal clock
        (p.foldl accumulateByte (startNewNal clock s)))).writes.map WriteCall.bytes =
        (saveOnStartCode clock s).map WriteCall.bytes ++
          [[0x00, 0x00, 0x00, 0x01] ++ p.take (USB_CAMERA_MAX_NAL_SIZE.toNat - 4)] := by
  obtain ⟨a1, a2, a3, a4, -⟩ := unit_scanned clock s ⟨true, p⟩ hp
  obtain ⟨b1, b2, b3, b4, -⟩ :=
    unit_scanned clock (p.foldl accumulateByte (startNewNal clock s)) ⟨true, q⟩ hq
  refine ⟨b1.in_nal, b4, b3, ?_⟩
  rw [b2, map_bytes_eq, saveOnStartCode_open clock _ a1.in_nal a4, a2, a3, List.map_append,
    ← map_bytes_eq]
  rfl

/-- C18: in every state the scanner reaches (any chunks `reads` already
processed, then any number of loop iterations over a further chunk) the
accumulator length lies in `[0, USB_CAMERA_MAX_NAL_SIZE]` and nothing behind
the array has been written. After a start code, payload bytes leave the
accumulator holding `00 00 00 01` followed by their first
`USB_CAMERA_MAX_NAL_SIZE - 4` bytes. For every list of chunks in which the
loop finds a start code, then takes more than `USB_CAMERA_MAX_NAL_SIZE - 4`
bytes `p` as data (over any number of reads), finds the next start code, takes
the bytes `q` as data and then finds a start code or reaches the end of the
stream, the NALs handed to the ring are those written up to the first of these
start codes, then `00 00 00 01` with the first `USB_CAMERA_MAX_NAL_SIZE - 4`
bytes of `p` (exactly `USB_CAMERA_MAX_NAL_SIZE` bytes), then `00 00 00 01`
with all of `q`, then the later ones. -/
theorem accumulator_bounded_oversize_truncated (clock : Nat → Nat) (stack : Nat → Nat)
    (reads : List (List Nat)) (chunk : List Nat) (fuel : Nat)
    (chunks : List (List Nat)) (before tail : List ScanEvent) (p q : List Nat)
    (hev : streamEvents chunks =
      before ++ ScanEvent.startCode ::
        (p.map ScanEvent.byte ++ ScanEvent.startCode :: (q.map ScanEvent.byte ++ tail)))
    (htail : tail = [] ∨ ∃ after : List ScanEvent, tail = ScanEvent.startCode :: after)
    (hp : USB_CAMERA_MAX_NAL_SIZE.toNat - 4 < p.length)
    (hq : q ≠ []) (hq2 : q.length ≤ USB_CAMERA_MAX_NAL_SIZE.toNat - 4) :
    AccInBounds stack
        (scanLoop clock chunk fuel 0 (reads.foldl (scanChunk clock) (scanStart stack))).2 ∧
      USB_CAMERA_MAX_NAL_SIZE = 131072 ∧
      (∀ (s : ScanRun) (l : List Nat),
        (l.foldl accumulateByte (startNewNal clock s)).accumulated =
          [0x00, 0x00, 0x00, 0x01] ++ l.take (USB_CAMERA_MAX_NAL_SIZE.toNat - 4)) ∧
      (∃ W : List (List Nat),
        (captureThreadWrites clock stack chunks).map WriteCall.bytes =
          (saveOnStartCode clock
              (before.foldl (applyEvent clock) (scanStart stack))).map WriteCall.bytes ++
            ([0x00, 0x00, 0x00, 0x01] ++ p.take (USB_CAMERA_MAX_NAL_SIZE.toNat - 4)) ::
              ([0x00, 0x00, 0x00, 0x01] ++ q) :: W ∧
        (tail = [] → W = [])) ∧
      ([0x00, 0x00, 0x00, 0x01] ++ p.take (USB_CAMERA_MAX_NAL_SIZE.toNat - 4)).length
        = USB_CAMERA_MAX_NAL_SIZE.toNat := by
  have hM : USB_CAMERA_MAX_NAL_SIZE.toNat = 131072 := by decide
  refine ⟨?_, by decide, ?_, ?_, ?_⟩
  · exact AccInBounds_scanLoop clock stack chunk fuel 0 _
      (AccInBounds_foldl clock stack reads _ (AccInBounds_start stack))
  · intro s l
    obtain ⟨o1, -, o3⟩ := startNewNal_open clock s
    obtain ⟨-, -, a3⟩ := accumulate_payload l _ o1
    rw [a3, o3, hM, List.take_append_eq_append_take]
    rfl
  · have hpne : p ≠ [] := by
      intro h
      rw [h] at hp
      exact absurd hp (by simp)
    generalize hs0 : before.foldl (applyEvent clock) (scanStart stack) = s0
    obtain ⟨c1, c2, c3, c4⟩ := two_nals_scanned clock s0 p q hpne hq
    rw [List.take_of_length_le hq2] at c3
    have hfold : chunks.foldl (scanChunk clock) (scanStart stack) =
        tail.foldl (applyEvent clock)
          (q.foldl accumulateByte (startNewNal clock
            (p.foldl accumulateByte (startNewNal clock s0)))) := by
      rw [foldl_scanChunk_events, hev, List.foldl_append, hs0, List.foldl_cons,
        List.foldl_append, foldl_byte_events, List.foldl_cons, List.foldl_append,
        foldl_byte_events]
      rfl
    unfold captureThreadWrites
    rw [hfold]
    generalize q.foldl accumulateByte (startNewNal clock
      (p.foldl accumulateByte (startNewNal clock s0))) = s4 at c1 c2 c3 c4
    rcases htail with rfl | ⟨after, rfl⟩
    · refine ⟨[], ?_, fun _ => rfl⟩
      rw [List.foldl_nil, map_bytes_eq, scanFlush_open clock s4 c1 c2, List.map_append,
        ← map_bytes_eq, c4, c3, List.append_assoc]
      rfl
    · obtain ⟨W1, h1⟩ := foldl_events_appends clock after (startNewNal clock s4)
      obtain ⟨W2, h2⟩ := scanFlush_appends clock
        (after.foldl (applyEvent clock) (startNewNal clock s4))
      refine ⟨(W1 ++ W2).map WriteCall.bytes, ?_, fun h => absurd h (List.cons_ne_nil _ _)⟩
      rw [List.foldl_cons]
      show (scanFlush clock (after.foldl (applyEvent clock) (startNewNal clock s4))).writes.map
        WriteCall.bytes = _
      rw [h2, h1]
      show ((saveOnStartCode clock s4 ++ W1) ++ W2).map WriteCall.bytes = _
      rw [List.append_assoc, List.map_append, map_bytes_eq (saveOnStartCode clock s4),
        saveOnStartCode_open clock s4 c1 c2, List.map_append, ← map_bytes_eq, c4, c3,
        List.append_assoc, List.append_assoc]
      rfl
  · rw [List.length_append, List.length_take, hM]
    rw [hM] at hp
    simp only [List.length_cons, List.length_nil]
    omega

theorem replicate_no_start (n a : Nat) (ha : a ≠ 0) (rest : List Nat) (i : Nat)
    (hi : i < (List.replicate n a).length) :
    (startCodeAt (List.replicate n a ++ rest) i).1 = false := by
  by_contra hc
  have hc' : (startCodeAt (List.replicate n a ++ rest) i).1 = true := by simpa using hc
  have h0 := (startCodeAt_found _ _ hc').2.1
  rw [List.getD_append _ _ _ _ hi, List.getD_eq_getElem _ _ hi, List.getElem_replicate] at h0
  exact ha h0

/-- The control flow over two reads that split a run of `2 * n` bytes `a`
behind a start code, the second read ending with the NAL `41 9A`. -/
theorem split_payload_events (n a : Nat) (hn : 0 < n) (ha : a ≠ 0) :
    streamEvents [[0x00, 0x00, 0x00, 0x01] ++ List.replicate n a,
        List.replicate n a ++ [0x00, 0x00, 0x00, 0x01, 0x41, 0x9A]] =
      [] ++ ScanEvent.startCode ::
        ((List.replicate n a ++ List.replicate n a).map ScanEvent.byte ++
          ScanEvent.startCode :: (([0x41, 0x9A] : List Nat).map ScanEvent.byte ++ [])) := by
  have hlen : (List.replicate n a).length = n := List.length_replicate n a
  have hno := replicate_no_start n a ha
  generalize List.replicate n a = R at hlen hno
  have h4 : startCodeAt ([0x00, 0x00, 0x00, 0x01] ++ R) 0 = (true, 4) := by
    rw [startCodeAt_head_four]
    refine ⟨rfl, ?_⟩
    rw [List.length_append, hlen]
    simp only [List.length_cons, List.length_nil]
    omega
  have e1 : chunkEvents ([0x00, 0x00, 0x00, 0x01] ++ R) =
      ScanEvent.startCode :: R.map ScanEvent.byte := by
    rw [chunkEvents_start _ (by rw [h4]), h4]
    show ScanEvent.startCode :: chunkEvents R = _
    have := chunkEvents_plain_run R [] (fun i hi => hno [] i hi)
    rw [List.append_nil] at this
    rw [this]
    show _ :: (_ ++ []) = _
    rw [List.append_nil]
  have e2 : chunkEvents (R ++ [0x00, 0x00, 0x00, 0x01, 0x41, 0x9A]) =
      R.map ScanEvent.byte ++
        [ScanEvent.startCode, ScanEvent.byte 0x41, ScanEvent.byte 0x9A] := by
    rw [chunkEvents_plain_run R _ (fun i hi => hno _ i hi)]
    rfl
  show chunkEvents _ ++ (chunkEvents _ ++ []) = _
  rw [e1, e2, List.map_append]
  simp only [List.append_nil, List.nil_append, List.cons_append, List.append_assoc,
    List.map_cons, List.map_nil]

/-- C18 on two reads holding a NAL of 140000 payload bytes `AA`, split in the
middle of the payload, then the NAL `41 9A`: the first NAL comes out as
`00 00 00 01` and 131068 bytes `AA`, the second complete, and the accumulator
is in bounds after the first read and 20 iterations of the second. -/
theorem accumulator_bounded_oversize_truncated_witness :
    streamEvents oversizeChunks =
        [] ++ ScanEvent.startCode ::
          ((List.replicate 70000 0xAA ++ List.replicate 70000 0xAA).map ScanEvent.byte ++
            ScanEvent.startCode :: (([0x41, 0x9A] : List Nat).map ScanEvent.byte ++ [])) ∧
      USB_CAMERA_MAX_NAL_SIZE.toNat - 4 <
        (List.replicate 70000 0xAA ++ List.replicate 70000 0xAA).length ∧
      AccInBounds zeroStack
        (scanLoop zeroClock (List.replicate 70000 0xAA ++ [0x00, 0x00, 0x00, 0x01, 0x41, 0x9A])
          20 0
          ([[0x00, 0x00, 0x00, 0x01] ++ List.replicate 70000 0xAA].foldl (scanChunk zeroClock)
            (scanStart zeroStack))).2 ∧
      (captureThreadWrites zeroClock zeroStack oversizeChunks).map WriteCall.bytes =
        [[0x00, 0x00, 0x00, 0x01] ++ List.replicate 131068 0xAA,
         [0x00, 0x00, 0x00, 0x01, 0x41, 0x9A]] := by
  have hev := split_payload_events 70000 0xAA (by decide) (by decide)
  have hlen : USB_CAMERA_MAX_NAL_SIZE.toNat - 4 <
      (List.replicate 70000 0xAA ++ List.replicate 70000 0xAA).length := by
    rw [List.length_append, List.length_replicate]
    decide
  have h := accumulator_bounded_oversize_truncated zeroClock zeroStack
    [[0x00, 0x00, 0x00, 0x01] ++ List.replicate 70000 0xAA]
    (List.replicate 70000 0xAA ++ [0x00, 0x00, 0x00, 0x01, 0x41, 0x9A]) 20
    oversizeChunks [] [] (List.replicate 70000 0xAA ++ List.replicate 70000 0xAA) [0x41, 0x9A]
    hev (Or.inl rfl) hlen (List.cons_ne_nil _ _) (by decide)
  refine ⟨hev, hlen, h.1, ?_⟩
  obtain ⟨W, hW, hnil⟩ := h.2.2.2.1
  rw [hW, hnil rfl, List.append_replicate_replicate, List.take_replicate]
  have hM : min (USB_CAMERA_MAX_NAL_SIZE.toNat - 4) (70000 + 70000) = 131068 := by decide
  rw [hM]
  rfl

end VideoSourceUSB
